import Mathlib

/-!
# brat-standoff-to-json: a shallow embedding of `main.go`

Go strings are byte sequences; they are modelled as lists of natural numbers,
each element standing for one byte (0 .. 255).  Go `int` values are modelled as
`Int`.  Runes are modelled as natural numbers (the decoder only ever produces
values in `0 .. 0x10FFFF`).

A file is modelled by its content, and a `bufio.Scanner` by the list of lines
it delivers (it stops at a line that does not fit in its buffer).  A `map[int]NumberAcharyaEntity` is a list of entries with one
entry per key; a `range` loop over it receives the values in the order in
which they are visited, which Go leaves unspecified.  A function returning
`(value, error)` returns a pair whose second component is `none` for `nil`, or
an `Except` when the value is not used after an error.
-/

set_option autoImplicit false

namespace Brat

/-- A Go string: its sequence of bytes. -/
abbrev GoString := List Nat

/-- The bytes of an ASCII literal (every character of the literal is below 128). -/
def lit (s : String) : GoString := s.toList.map Char.toNat

/-- Go `utf8.RuneError`, the replacement character U+FFFD. -/
def RuneError : Nat := 0xFFFD

/-- Go `utf8.DecodeRuneInString`: the first rune of `s` and its width in bytes.
An empty string gives `(RuneError, 0)`, an invalid encoding `(RuneError, 1)`.
The `first` and `acceptRanges` tables of the library are written out as
comparisons on the lead byte. -/
def DecodeRuneInString (s : GoString) : Nat × Nat :=
  match s with
  | [] => (RuneError, 0)
  | s0 :: t =>
    if s0 < 0x80 then (s0, 1)
    else if s0 < 0xC2 then (RuneError, 1)
    else if s0 < 0xE0 then
      match t with
      | s1 :: _ =>
        if s1 < 0x80 ∨ 0xBF < s1 then (RuneError, 1)
        else ((s0 % 32) * 64 + s1 % 64, 2)
      | _ => (RuneError, 1)
    else if s0 < 0xF0 then
      match t with
      | s1 :: s2 :: _ =>
        if s1 < (if s0 = 0xE0 then 0xA0 else 0x80) ∨ (if s0 = 0xED then 0x9F else 0xBF) < s1 then
          (RuneError, 1)
        else if s2 < 0x80 ∨ 0xBF < s2 then (RuneError, 1)
        else ((s0 % 16) * 4096 + (s1 % 64) * 64 + s2 % 64, 3)
      | _ => (RuneError, 1)
    else if s0 < 0xF5 then
      match t with
      | s1 :: s2 :: s3 :: _ =>
        if s1 < (if s0 = 0xF0 then 0x90 else 0x80) ∨ (if s0 = 0xF4 then 0x8F else 0xBF) < s1 then
          (RuneError, 1)
        else if s2 < 0x80 ∨ 0xBF < s2 then (RuneError, 1)
        else if s3 < 0x80 ∨ 0xBF < s3 then (RuneError, 1)
        else ((s0 % 8) * 262144 + (s1 % 64) * 4096 + (s2 % 64) * 64 + s3 % 64, 4)
      | _ => (RuneError, 1)
    else (RuneError, 1)

/-- Go `string(r)` for a rune `r`: its UTF-8 encoding; surrogates and values
above U+10FFFF are encoded as U+FFFD. -/
def runeToString (r : Nat) : GoString :=
  if r < 0x80 then [r]
  else if r < 0x800 then [0xC0 + r / 64, 0x80 + r % 64]
  else if (0xD800 ≤ r ∧ r < 0xE000) ∨ 0x10FFFF < r then [0xEF, 0xBF, 0xBD]
  else if r < 0x10000 then [0xE0 + r / 4096, 0x80 + (r / 64) % 64, 0x80 + r % 64]
  else [0xF0 + r / 262144, 0x80 + (r / 4096) % 64, 0x80 + (r / 64) % 64, 0x80 + r % 64]

/-- The errors the program can return.  `ErrOpen` is the error of `os.Open`,
`ErrAtoiSyntax` and `ErrAtoiRange` the two errors of `strconv.Atoi`, and
`ErrIndexOutOfRange` stands for the run-time panic of an index beyond the end
of a slice. -/
inductive Err where
  | ErrSubStrNegativeStartPos (startPos : Int)
  | ErrSubStrEndPosSmallerThanStart (endPos : Int)
  | ErrSubStrEndposGreaterThanDataLen (len : Int) (endPos : Int)
  | ErrDiscontinuosTextboundAnnNotSupported
  | ErrTxtAnnBadFormat
  | ErrBadFormat
  | ErrBadFormatTab
  | ErrNoEntities
  | ErrAtoiSyntax (s : GoString)
  | ErrAtoiRange (s : GoString)
  | ErrFlagFileAlreadyExists
  | ErrOpen (path : GoString)
  | ErrIndexOutOfRange
  deriving DecidableEq, Repr

/-- The scan loop of `GetSubString` (lines 113-128): `i` is the byte index,
`counter` the logical position, `val` the result built so far. -/
def GetSubString.loop (originalString : GoString) (startPos endPos : Int)
    (i : Nat) (counter : Int) (val : GoString) : GoString :=
  if hi : i ≤ originalString.length then
    if hr : (DecodeRuneInString (originalString.drop i)).1 = 13 then
      GetSubString.loop originalString startPos endPos
        (i + (DecodeRuneInString (originalString.drop i)).2) counter val
    else if hs : counter ≥ startPos then
      if counter ≥ endPos then val
      else
        GetSubString.loop originalString startPos endPos
          (i + (DecodeRuneInString (originalString.drop i)).2) (counter + 1)
          (val ++ runeToString (DecodeRuneInString (originalString.drop i)).1)
    else
      GetSubString.loop originalString startPos endPos
        (i + (DecodeRuneInString (originalString.drop i)).2) (counter + 1) val
  else val
termination_by (originalString.length + 1 - i) + (max startPos endPos - counter).toNat
decreasing_by
  · have hw : (DecodeRuneInString (originalString.drop i)).1 = 13 →
        (DecodeRuneInString (originalString.drop i)).2 = 1 := by
      unfold DecodeRuneInString
      split
      · simp [RuneError]
      · repeat' split
        all_goals (simp [RuneError]; try omega)
    have := hw hr
    omega
  · omega
  · omega

/-- Go `GetSubString` (lines 103-130). -/
def GetSubString (originalString : GoString) (startPos endPos : Int) : Except Err GoString :=
  if startPos < 0 then .error (.ErrSubStrNegativeStartPos startPos)
  else if endPos < startPos then .error (.ErrSubStrEndPosSmallerThanStart endPos)
  else if endPos > originalString.length then
    .error (.ErrSubStrEndposGreaterThanDataLen originalString.length endPos)
  else .ok (GetSubString.loop originalString startPos endPos 0 0 [])

/-! ## Library functions used by the parsers -/

/-- Go `strings.HasPrefix`. -/
def HasPrefix (s pre : GoString) : Bool := pre.isPrefixOf s

/-- Go `strings.Contains`: `substr` occurs somewhere in `s`. -/
def Contains (s substr : GoString) : Bool :=
  match s with
  | [] => substr.isPrefixOf []
  | b :: t => substr.isPrefixOf (b :: t) || Contains t substr

/-- The worker of `Split`: `cur` is the field read so far. -/
def Split.go (sep : Nat) : GoString → GoString → List GoString
  | [], cur => [cur]
  | b :: rest, cur =>
    if b = sep then cur :: Split.go sep rest [] else Split.go sep rest (cur ++ [b])

/-- Go `strings.Split(s, sep)` for a separator of one byte (the program only
splits on tab, space and comma): the fields between the separators; always at
least one field. -/
def Split (s : GoString) (sep : Nat) : List GoString := Split.go sep s []

/-- Go `strings.TrimSuffix`. -/
def TrimSuffix (s suffix : GoString) : GoString :=
  if suffix.isSuffixOf s then s.take (s.length - suffix.length) else s

/-- Go `unicode.IsSpace`. -/
def IsSpace (r : Nat) : Bool :=
  if r ≤ 0xFF then
    r = 9 || r = 10 || r = 11 || r = 12 || r = 13 || r = 32 || r = 0x85 || r = 0xA0
  else
    r = 0x1680 || (0x2000 ≤ r && r ≤ 0x200A) || r = 0x2028 || r = 0x2029 || r = 0x202F ||
      r = 0x205F || r = 0x3000

/-- Go `utf8.RuneStart`: the byte is not a continuation byte. -/
def RuneStart (b : Nat) : Bool := !(0x80 ≤ b && b < 0xC0)

/-- Go `utf8.DecodeLastRuneInString`: the last rune of `s` and its width. -/
def DecodeLastRuneInString (s : GoString) : Nat × Nat :=
  let e := s.length
  if e = 0 then (RuneError, 0)
  else if s.getD (e - 1) 0 < 0x80 then (s.getD (e - 1) 0, 1)
  else
    -- the backward search for a start byte, at most three bytes before the last
    let start : Nat :=
      if 2 ≤ e ∧ RuneStart (s.getD (e - 2) 0) then e - 2
      else if 3 ≤ e ∧ RuneStart (s.getD (e - 3) 0) then e - 3
      else if 4 ≤ e ∧ RuneStart (s.getD (e - 4) 0) then e - 4
      else e - 5
    let rs := DecodeRuneInString (s.drop start)
    if start + rs.2 ≠ e then (RuneError, 1) else rs

/-- Go `strings.TrimLeftFunc(s, unicode.IsSpace)`; the recursion is bounded by
the length of `s`, every step removing at least one byte. -/
def TrimLeftSpace.go : Nat → GoString → GoString
  | 0, s => s
  | n + 1, s =>
    match s with
    | [] => []
    | _ :: _ =>
      if IsSpace (DecodeRuneInString s).1 then TrimLeftSpace.go n (s.drop (DecodeRuneInString s).2)
      else s

/-- Go `strings.TrimLeftFunc(s, unicode.IsSpace)`. -/
def TrimLeftSpace (s : GoString) : GoString := TrimLeftSpace.go s.length s

/-- Go `lastIndexFunc(s, unicode.IsSpace, false)` followed by the slice of
`TrimRightFunc`: the string up to and including its last rune that is not a
space.  `i` is the end of the part still to inspect. -/
def TrimRightSpace.go (s : GoString) : Nat → Nat → GoString
  | 0, _ => []
  | n + 1, i =>
    if i = 0 then []
    else
      let rs := DecodeLastRuneInString (s.take i)
      if IsSpace rs.1 then TrimRightSpace.go s n (i - rs.2)
      else
        let j := i - rs.2
        if s.getD j 0 ≥ 0x80 then s.take (j + (DecodeRuneInString (s.drop j)).2)
        else s.take (j + 1)

/-- Go `strings.TrimRightFunc(s, unicode.IsSpace)`. -/
def TrimRightSpace (s : GoString) : GoString := TrimRightSpace.go s s.length s.length

/-- Go `strings.TrimSpace`: leading and trailing white space (as defined by
Unicode) removed; the ASCII fast path of the library gives the same result. -/
def TrimSpace (s : GoString) : GoString := TrimRightSpace (TrimLeftSpace s)

/-- Go `dropCR` of package `bufio`. -/
def dropCR (data : GoString) : GoString :=
  if data.getLast? = some 13 then data.dropLast else data

/-- Go `bufio.MaxScanTokenSize`: the size to which the buffer of a
`bufio.Scanner` grows at most when `Buffer` is not called. -/
def MaxScanTokenSize : Nat := 64 * 1024

/-- The worker of `scanLines`: `cur` is the part of the current line read so
far.  A line is delivered when its bytes and its newline fit in the buffer
together, that is when it is shorter than `MaxScanTokenSize`; a last line
without newline is delivered when the buffer is not full of it. -/
def scanLines.go : GoString → GoString → List GoString
  | [], cur => if cur = [] ∨ MaxScanTokenSize ≤ cur.length then [] else [dropCR cur]
  | b :: rest, cur =>
    if b = 10 then
      if MaxScanTokenSize ≤ cur.length then [] else dropCR cur :: scanLines.go rest []
    else scanLines.go rest (cur ++ [b])

/-- The successive values of `scanner.Text()` in a loop `for scanner.Scan()`
over a `bufio.Scanner` with the `bufio.ScanLines` split function reading `data`:
the lines of the data without their end-of-line marker (a newline, with one
carriage return before it dropped); a last line without newline is delivered
when it is not empty.  The program never calls `Buffer`, so at the first line of
`MaxScanTokenSize` bytes or more (the carriage return counted) `Scan` fills its
buffer without finding a token, sets `ErrTooLong` and returns false: that line
and all after it are not delivered.  The program never reads `scanner.Err()`,
so its loops just end there. -/
def scanLines (data : GoString) : List GoString := scanLines.go data []

/-- An ASCII decimal digit. -/
def isDigit (b : Nat) : Bool := 48 ≤ b && b ≤ 57

/-- The value of a string of decimal digits. -/
def digitsVal (s : GoString) : Nat := s.foldl (fun n ch => n * 10 + (ch - 48)) 0

/-- Go `strconv.Atoi` on a 64-bit platform: an optional sign and decimal digits.
A syntax error gives the value 0, a range error the nearest `int` value.  The
digits are read from the left: when those before the first byte that is no
digit already pass the largest `uint64`, `ParseUint` reports the range error
there and does not reach that byte. -/
def Atoi (s : GoString) : Int × Option Err :=
  let neg : Bool := s.head? = some 45
  let body : GoString := if s.head? = some 45 ∨ s.head? = some 43 then s.drop 1 else s
  if body = [] ∨ body.all isDigit = false then
    if 2 ^ 64 ≤ digitsVal (body.takeWhile isDigit) then
      (if neg then -(2 ^ 63) else 2 ^ 63 - 1, some (.ErrAtoiRange s))
    else (0, some (.ErrAtoiSyntax s))
  else if neg = false ∧ digitsVal body ≥ 2 ^ 63 then (2 ^ 63 - 1, some (.ErrAtoiRange s))
  else if neg = true ∧ digitsVal body > 2 ^ 63 then (-(2 ^ 63), some (.ErrAtoiRange s))
  else (if neg then -(digitsVal body : Int) else (digitsVal body : Int), none)

/-- The class `\s` of Go regular expressions: tab, newline, form feed,
carriage return, space. -/
def isReSpace (b : Nat) : Bool := b = 9 || b = 10 || b = 12 || b = 13 || b = 32

/-- The class `\w` of Go regular expressions: `[0-9A-Za-z_]`. -/
def isReWord (b : Nat) : Bool :=
  (48 ≤ b && b ≤ 57) || (65 ≤ b && b ≤ 90) || (97 ≤ b && b ≤ 122) || b = 95

/-- A match of `R(\d+)\s+(\w+) Arg1:T(\d+) Arg2:T(\d+)` starting at the first
byte of `s`: the four captured groups.  Every repetition is followed by a byte
outside its class (or is the last item), so the greedy match takes each run
whole and no backtracking is possible. -/
def relationRegex.matchAt (s : GoString) : Option (GoString × GoString × GoString × GoString) :=
  match s with
  | 82 :: t =>
    let d1 := t.takeWhile isDigit
    let t1 := t.dropWhile isDigit
    let ws := t1.takeWhile isReSpace
    let t2 := t1.dropWhile isReSpace
    let name := t2.takeWhile isReWord
    let t3 := t2.dropWhile isReWord
    let t4 := t3.drop 7
    let d2 := t4.takeWhile isDigit
    let t5 := t4.dropWhile isDigit
    let t6 := t5.drop 7
    let d3 := t6.takeWhile isDigit
    if d1 ≠ [] ∧ ws ≠ [] ∧ name ≠ [] ∧ HasPrefix t3 (lit " Arg1:T") = true ∧ d2 ≠ [] ∧
        HasPrefix t5 (lit " Arg2:T") = true ∧ d3 ≠ [] then
      some (d1, name, d2, d3)
    else none
  | _ => none

/-- The first element of `regex.FindAllStringSubmatch(line, -1)` for the regular
expression of `GenNumberRelationArr`: the captured groups of the leftmost
match, `none` when the result is empty. -/
def relationRegex.find : GoString → Option (GoString × GoString × GoString × GoString)
  | [] => none
  | b :: t =>
    match relationRegex.matchAt (b :: t) with
    | some r => some r
    | none => relationRegex.find t

/-! ## Data model -/

/-- Go `CustomRelation`. -/
structure CustomRelation where
  HeadAnnNo : Int
  BeginHead : Int
  EndHead : Int
  TailAnnNo : Int
  BeginTail : Int
  EndTail : Int
  Name : GoString
  deriving DecidableEq, Repr

/-- Go `NumberCustomRelation`. -/
structure NumberCustomRelation where
  TxtAnnNo : Int
  Entity : CustomRelation
  deriving DecidableEq, Repr

/-- Go `AcharyaEntity`. -/
structure AcharyaEntity where
  Begin : Int
  End : Int
  Name : GoString
  deriving DecidableEq, Repr

/-- Go `NumberAcharyaEntity`. -/
structure NumberAcharyaEntity where
  TxtAnnNo : Int
  Entity : AcharyaEntity
  deriving DecidableEq, Repr

/-- The zero value of `NumberAcharyaEntity`, which a Go map gives for a key it
does not hold. -/
def NumberAcharyaEntity.zero : NumberAcharyaEntity := ⟨0, ⟨0, 0, []⟩⟩

/-- A Go `map[string]bool` whose stored values are all `true`: its keys. -/
abbrev StringSet := List GoString

/-- The map read `m[k]` of a `map[string]bool`. -/
def StringSet.get (m : StringSet) (k : GoString) : Bool := m.contains k

/-- The map write `m[k] = true`. -/
def StringSet.set (m : StringSet) (k : GoString) : StringSet :=
  if m.contains k then m else m ++ [k]

/-- A Go `map[int]NumberAcharyaEntity`: its entries, one per key. -/
abbrev EntityMap := List (Int × NumberAcharyaEntity)

/-- The map read `m[k]`: the stored value, or the zero value. -/
def EntityMap.get (m : EntityMap) (k : Int) : NumberAcharyaEntity :=
  match m with
  | [] => NumberAcharyaEntity.zero
  | (k1, v) :: t => if k1 = k then v else EntityMap.get t k

/-- The map write `m[k] = v`: replaces the entry of `k` or adds one. -/
def EntityMap.set (m : EntityMap) (k : Int) (v : NumberAcharyaEntity) : EntityMap :=
  match m with
  | [] => [(k, v)]
  | (k1, v1) :: t => if k1 = k then (k, v) :: t else (k1, v1) :: EntityMap.set t k v

/-! ## The parsers -/

/-- Go `GetTextAnnNum` (lines 228-237). -/
def GetTextAnnNum (ann : GoString) : Int × Option Err :=
  if ann.length > 0 then
    let annSplit := Split ann 9
    if (annSplit.getD 0 []).length > 1 then
      Atoi ((annSplit.getD 0 []).drop 1)
    else (0, some .ErrTxtAnnBadFormat)
  else (0, some .ErrTxtAnnBadFormat)

/-- The body of the scan loop of `GenNumberEntityMap` (lines 249-280) for the
line `text`; `numberEntityMap` is the map built so far.  With an error the
result is the pair the function returns at once; without, the map with which
the loop goes on. -/
def GenNumberEntityMap.body (entFromConf : StringSet) (text : GoString)
    (numberEntityMap : EntityMap) : EntityMap × Option Err :=
  if HasPrefix text (lit "T") then
    let splitAnn := Split text 9
    if splitAnn.length = 3 then
      if Contains (splitAnn.getD 1 []) (lit ";") then
        ([], some .ErrDiscontinuosTextboundAnnNotSupported)
      else
        let entAndPos := Split (splitAnn.getD 1 []) 32
        if entAndPos.length = 3 then
          if entFromConf.get (TrimSpace (entAndPos.getD 0 [])) then
            match Atoi (entAndPos.getD 1 []) with
            | (_, some err) => ([], some err)
            | (b, none) =>
              match Atoi (entAndPos.getD 2 []) with
              | (_, some err) => ([], some err)
              | (e, none) =>
                match GetTextAnnNum text with
                | (_, some err) => ([], some err)
                | (annNo, none) =>
                  (numberEntityMap.set annNo ⟨annNo, ⟨b, e, entAndPos.getD 0 []⟩⟩, none)
          else (numberEntityMap, none)
        else (numberEntityMap, some .ErrBadFormat)
    else (numberEntityMap, some .ErrBadFormatTab)
  else (numberEntityMap, none)

/-- The scan loop of `GenNumberEntityMap` (lines 245-281) over the lines the
scanner delivers: the first error ends it. -/
def GenNumberEntityMap.loop (entFromConf : StringSet) :
    List GoString → EntityMap → EntityMap × Option Err
  | [], numberEntityMap => (numberEntityMap, none)
  | text :: rest, numberEntityMap =>
    match GenNumberEntityMap.body entFromConf text numberEntityMap with
    | (m, none) => GenNumberEntityMap.loop entFromConf rest m
    | (m, some err) => (m, some err)

/-- Go `GenNumberEntityMap` (lines 239-284); `aData` is the content of the file. -/
def GenNumberEntityMap (entFromConf : StringSet) (aData : GoString) : EntityMap × Option Err :=
  GenNumberEntityMap.loop entFromConf (scanLines aData) []

/-- The scan loop of `GenNumberRelationArr` (lines 293-314); `numberRelationArr`
is the slice built so far. -/
def GenNumberRelationArr.loop (numberEntityMap : EntityMap) :
    List GoString → List NumberCustomRelation → List NumberCustomRelation
  | [], numberRelationArr => numberRelationArr
  | text :: rest, numberRelationArr =>
    if HasPrefix text (lit "R") then
      match relationRegex.find text with
      | some (g1, g2, g3, g4) =>
        let rel_num := (Atoi g1).1
        let name := g2
        let arg1 := (Atoi g3).1
        let arg2 := (Atoi g4).1
        let begin_parent := (numberEntityMap.get arg1).Entity.Begin
        let end_parent := (numberEntityMap.get arg1).Entity.End
        let begin_child := (numberEntityMap.get arg2).Entity.Begin
        let end_child := (numberEntityMap.get arg2).Entity.End
        GenNumberRelationArr.loop numberEntityMap rest
          (numberRelationArr ++
            [⟨rel_num, ⟨arg1, begin_parent, end_parent, arg2, begin_child, end_child, name⟩⟩])
      | none => GenNumberRelationArr.loop numberEntityMap rest numberRelationArr
    else GenNumberRelationArr.loop numberEntityMap rest numberRelationArr

/-- Go `GenNumberRelationArr` (lines 286-317): the slice and the error it
returns; `relFromConf` is not read by the body. -/
def GenNumberRelationArr (relFromConf : StringSet) (numberEntityMap : EntityMap)
    (aData : GoString) : List NumberCustomRelation × Option Err :=
  (GenNumberRelationArr.loop numberEntityMap (scanLines aData) [], none)

/-! ## The configuration file -/

/-- The scan loop of `GetEntitiesFromFile` (lines 139-155); a `break` ends it. -/
def GetEntitiesFromFile.loop : List GoString → Bool → StringSet → StringSet
  | [], _, entities => entities
  | text :: rest, startScan, entities =>
    if Contains text (lit "[entities]") then GetEntitiesFromFile.loop rest true entities
    else if startScan then
      if (TrimSpace text).length = 0 then GetEntitiesFromFile.loop rest startScan entities
      else if HasPrefix text (lit "[") then entities
      else if HasPrefix text (lit "#") then GetEntitiesFromFile.loop rest startScan entities
      else GetEntitiesFromFile.loop rest startScan (entities.set (TrimSpace text))
    else GetEntitiesFromFile.loop rest startScan entities

/-- Go `GetEntitiesFromFile` (lines 132-157); `confFile` is the content of the
file. -/
def GetEntitiesFromFile (confFile : GoString) : StringSet :=
  GetEntitiesFromFile.loop (scanLines confFile) false []

/-- The loop of `firstWords` (lines 89-98): `i` is the index of the byte `rest`
starts with.  The `range` statement visits the first byte of every rune, and a
space, tab or newline byte is always one. -/
def firstWords.loop (value : GoString) : GoString → Nat → Int → GoString
  | [], _, _ => value
  | b :: rest, i, count =>
    if b = 32 ∨ b = 9 ∨ b = 10 then
      if count - 1 = 0 then value.take i else firstWords.loop value rest (i + 1) (count - 1)
    else firstWords.loop value rest (i + 1) count

/-- Go `firstWords` (lines 87-101). -/
def firstWords (value : GoString) (count : Int) : GoString := firstWords.loop value value 0 count

/-- The scan loop of `GetRelationsFromFile` (lines 165-182). -/
def GetRelationsFromFile.loop : List GoString → Bool → StringSet → StringSet
  | [], _, relations => relations
  | a :: rest, startScan, relations =>
    if Contains a (lit "[relations]") then GetRelationsFromFile.loop rest true relations
    else if startScan then
      if (TrimSpace a).length = 0 then GetRelationsFromFile.loop rest startScan relations
      else if HasPrefix a (lit "[") then relations
      else if HasPrefix a (lit "#") then GetRelationsFromFile.loop rest startScan relations
      else GetRelationsFromFile.loop rest startScan (relations.set (firstWords (TrimSpace a) 1))
    else GetRelationsFromFile.loop rest startScan relations

/-- Go `GetRelationsFromFile` (lines 159-184). -/
def GetRelationsFromFile (confFile : GoString) : StringSet :=
  GetRelationsFromFile.loop (scanLines confFile) false []

/-! ## The formatter -/

/-- The decimal digits of a natural number, most significant first; the
recursion is bounded by `fuel`, which `natToDec` takes large enough. -/
def natToDec.go : Nat → Nat → GoString → GoString
  | 0, _, acc => acc
  | fuel + 1, n, acc =>
    if n < 10 then (48 + n) :: acc else natToDec.go fuel (n / 10) ((48 + n % 10) :: acc)

/-- The decimal representation of a natural number. -/
def natToDec (n : Nat) : GoString := natToDec.go (n + 1) n []

/-- The verb `%d` of `fmt.Sprintf` for an `int`. -/
def itoa (n : Int) : GoString :=
  if n < 0 then 45 :: natToDec n.natAbs else natToDec n.natAbs

/-- The table `hex` of package `encoding/json`. -/
def hexDigit (n : Nat) : Nat := if n < 10 then 48 + n else 87 + n

/-- The table `htmlSafeSet` of package `encoding/json`: the ASCII bytes written
as they are. -/
def htmlSafe (b : Nat) : Bool :=
  0x20 ≤ b && b < 0x80 && b != 34 && b != 92 && b != 60 && b != 62 && b != 38

/-- The escape `encoding/json` writes for an ASCII byte outside `htmlSafeSet`. -/
def jsonEscapeByte (b : Nat) : GoString :=
  if b = 92 ∨ b = 34 then [92, b]
  else if b = 8 then [92, 98]
  else if b = 12 then [92, 102]
  else if b = 10 then [92, 110]
  else if b = 13 then [92, 114]
  else if b = 9 then [92, 116]
  else [92, 117, 48, 48, hexDigit (b / 16), hexDigit (b % 16)]

/-- The loop of `appendString` of package `encoding/json` with HTML escaping on:
`dst` is the output so far.  The recursion is bounded by the length of the
source, every step consuming at least one byte. -/
def jsonString.go : Nat → GoString → GoString → GoString
  | 0, _, dst => dst
  | _ + 1, [], dst => dst
  | n + 1, b :: t, dst =>
    if b < 0x80 then
      if htmlSafe b then jsonString.go n t (dst ++ [b])
      else jsonString.go n t (dst ++ jsonEscapeByte b)
    else if (DecodeRuneInString (b :: t)).1 = RuneError ∧ (DecodeRuneInString (b :: t)).2 = 1 then
      jsonString.go n t (dst ++ [92, 117, 102, 102, 102, 100])
    else if (DecodeRuneInString (b :: t)).1 = 0x2028 ∨ (DecodeRuneInString (b :: t)).1 = 0x2029 then
      jsonString.go n ((b :: t).drop (DecodeRuneInString (b :: t)).2)
        (dst ++ [92, 117, 50, 48, 50, hexDigit ((DecodeRuneInString (b :: t)).1 % 16)])
    else
      jsonString.go n ((b :: t).drop (DecodeRuneInString (b :: t)).2)
        (dst ++ (b :: t).take (DecodeRuneInString (b :: t)).2)

/-- Go `json.Marshal` of a string: the JSON string literal, in double quotes.
It returns no error for a string.  The escapes are those of `appendString` of
Go 1.22; releases of Go differ in how they write a backspace, a form feed and
a byte that is not valid UTF-8.  The theorems use only that the result holds
no newline. -/
def jsonMarshal (s : GoString) : GoString := [34] ++ jsonString.go s.length s [] ++ [34]

/-- Go `strings.ReplaceAll(s, "\n", "\\n")`: every newline byte is replaced by a
backslash and the letter n. -/
def ReplaceAllNewline : GoString → GoString
  | [] => []
  | b :: t => if b = 10 then 92 :: 110 :: ReplaceAllNewline t else b :: ReplaceAllNewline t

/-- The first loop of `GenerateAcharyaAndStandoff` (lines 335-342) over the
entries of the map in the order the `range` statement visits them; the result
is `(standoff, acharya)`. -/
def GenerateAcharyaAndStandoff.entities (tData : GoString) :
    List NumberAcharyaEntity → GoString → GoString → Except Err (GoString × GoString)
  | [], standoff, acharya => .ok (standoff, acharya)
  | v :: rest, standoff, acharya =>
    match GetSubString tData v.Entity.Begin v.Entity.End with
    | .error err => .error err
    | .ok str =>
      GenerateAcharyaAndStandoff.entities tData rest
        (standoff ++ (lit "T" ++ itoa v.TxtAnnNo ++ lit "\t" ++ v.Entity.Name ++ lit " " ++
          itoa v.Entity.Begin ++ lit " " ++ itoa v.Entity.End ++ lit "\t" ++ str ++ lit "\n"))
        (acharya ++ (lit "[" ++ itoa v.Entity.Begin ++ lit "," ++ itoa v.Entity.End ++
          lit ",\"" ++ v.Entity.Name ++ lit "\"],"))

/-- The second loop of `GenerateAcharyaAndStandoff` (lines 347-350); the result
is `(standoff, acharya)`. -/
def GenerateAcharyaAndStandoff.relations :
    List NumberCustomRelation → GoString → GoString → GoString × GoString
  | [], standoff, acharya => (standoff, acharya)
  | v :: rest, standoff, acharya =>
    GenerateAcharyaAndStandoff.relations rest
      (standoff ++ (lit "R" ++ itoa v.TxtAnnNo ++ lit "\t" ++ v.Entity.Name ++ lit " Arg1:T" ++
        itoa v.Entity.HeadAnnNo ++ lit " Arg2:T" ++ itoa v.Entity.TailAnnNo ++ lit "\t\n"))
      (acharya ++ (lit "\x7b\"head\":[" ++ itoa v.Entity.BeginHead ++ lit "," ++
        itoa v.Entity.EndHead ++ lit "],\"tail\":[" ++ itoa v.Entity.BeginTail ++ lit "," ++
        itoa v.Entity.EndTail ++ lit "],\"name\":\"" ++ v.Entity.Name ++ lit "\"\x7d,"))

/-- Go `GenerateAcharyaAndStandoff` (lines 319-358).  `numberAcharyaEnt` is the
sequence of values of the map in the order in which the `range` statement
visits them: Go leaves that order unspecified and visits every entry once.
The result is `(acharya, standoff)`. -/
def GenerateAcharyaAndStandoff (tData : GoString) (numberAcharyaEnt : List NumberAcharyaEntity)
    (numberRelationArr : List NumberCustomRelation) (article_id : GoString) (isTestFile : Bool) :
    Except Err (GoString × GoString) :=
  let escapedStr := jsonMarshal tData
  let test_str := if isTestFile then lit "\"test\":true," else []
  let acharya0 := lit "\x7b\"id\":\"" ++ article_id ++ lit "\"," ++ test_str ++ lit "\"Data\":" ++
    escapedStr ++ lit ",\"Entities\":["
  match GenerateAcharyaAndStandoff.entities tData numberAcharyaEnt [] acharya0 with
  | .error err => .error err
  | .ok (standoff1, acharya1) =>
    let acharya2 := TrimSuffix acharya1 (lit ",") ++ lit "],\"Relations\":["
    let r := GenerateAcharyaAndStandoff.relations numberRelationArr standoff1 acharya2
    let standoff := TrimSuffix r.1 (lit "\n")
    let acharya := ReplaceAllNewline (TrimSuffix r.2 (lit ",")) ++ lit "]\x7d\n"
    .ok (acharya, standoff)

/-! ## The orchestrator -/

/-- Go `filepath.Base` on a system whose path separator is `/`: the last
element of the path, trailing separators removed. -/
def Base (path : GoString) : GoString :=
  if path = [] then lit "."
  else
    let stripped := (path.reverse.dropWhile (fun b => b == 47)).reverse
    let last := (stripped.reverse.takeWhile (fun b => b != 47)).reverse
    if last = [] then lit "/" else last

/-- Go `filepath.Ext`: the suffix of the last element of the path that begins
at its last dot, empty when it has no dot. -/
def Ext (path : GoString) : GoString :=
  let tail := path.reverse.takeWhile (fun b => b != 47)
  if tail.contains 46 then (tail.takeWhile (fun b => b != 46) ++ [46]).reverse else []

/-- What `handleMain` reads from its surroundings. -/
structure World where
  /-- The content of the file at a path, as `os.Open` and the reads that
  follow give it; `none` when `os.Open` fails. -/
  readFile : GoString → Option GoString
  /-- Whether `os.Stat` finds a file at the path. -/
  fileExists : GoString → Bool
  /-- The result of `GetSubDirectories` (lines 186-226) for a folder. -/
  subDirectories : GoString → Except Err (List GoString × List GoString)
  /-- The order in which the `range` statement of the formatter visits the
  entries of the map of the document with the given index. -/
  rangeOrder : Nat → EntityMap → List NumberAcharyaEntity

/-- What `handleMain` hands over when it returns no error: the text printed by
`fmt.Println`, or the path of the output file with what the file holds once
the text is written. -/
inductive Output where
  | printed (text : GoString)
  | written (path : GoString) (text : GoString)
  deriving DecidableEq, Repr

/-- Go `handleOutput` (lines 360-378); errors of creating and writing the file
are left out.  The file is opened with `O_CREATE|O_WRONLY` and no `O_TRUNC`
(line 367) and the text is written from its first byte on, so what an existing
file held beyond the length of the text stays. -/
def handleOutput (w : World) (outputFile acharya : GoString) (overWrite : Bool) :
    Except Err Output :=
  if overWrite = false ∧ w.fileExists outputFile = true then .error .ErrFlagFileAlreadyExists
  else .ok (.written outputFile
    (acharya ++ ((w.readFile outputFile).getD []).drop acharya.length))

/-- The body of the document loop of `handleMain` (lines 426-465) for the
document with index `i`: `ann` is `annMult[i]` and `txt` is `textMult[i]`,
`none` when the index is beyond the end of `textMult`.  The result is the
Acharya record of the document, or the error `handleMain` returns at once. -/
def handleMain.document (w : World) (entities relations : StringSet) (i : Nat)
    (ann : GoString) (txt : Option GoString) : Except Err GoString :=
  let filename := TrimSuffix (Base ann) (Ext (Base ann))
  let is_test_file := HasPrefix filename (lit "t_")
  match w.readFile (TrimSpace ann) with
  | none => .error (.ErrOpen (TrimSpace ann))
  | some annFile =>
    match txt with
    | none => .error .ErrIndexOutOfRange
    | some txtPath =>
      match w.readFile (TrimSpace txtPath) with
      | none => .error (.ErrOpen (TrimSpace txtPath))
      | some txtFileData =>
        match GenNumberEntityMap entities annFile with
        | (_, some err) => .error err
        | (entityMap, none) =>
          match GenNumberRelationArr relations entityMap annFile with
          | (_, some err) => .error err
          | (relArr, none) =>
            match GenerateAcharyaAndStandoff txtFileData (w.rangeOrder i entityMap) relArr
              filename is_test_file with
            | .error err => .error err
            | .ok (acharya, _) => .ok acharya

/-- The document loop of `handleMain` (lines 425-468): `i` is the index of the
first document of `annMult` still to process, `generatedAcharya` the text built
so far. -/
def handleMain.loop (w : World) (entities relations : StringSet) (textMult : List GoString) :
    Nat → List GoString → GoString → Except Err GoString
  | _, [], generatedAcharya => .ok generatedAcharya
  | i, ann :: rest, generatedAcharya =>
    match handleMain.document w entities relations i ann (textMult.get? i) with
    | .error err => .error err
    | .ok acharya =>
      handleMain.loop w entities relations textMult (i + 1) rest (generatedAcharya ++ acharya)

/-- Lines 423-470 of `handleMain`: the document loop and the removal of the
final newline. -/
def handleMain.generate (w : World) (entities relations : StringSet)
    (annMult textMult : List GoString) : Except Err GoString :=
  match handleMain.loop w entities relations textMult 0 annMult [] with
  | .error err => .error err
  | .ok generatedAcharya => .ok (TrimSuffix generatedAcharya (lit "\n"))

/-- Lines 423-485 of `handleMain`: the document loop, the removal of the final
newline and the output. -/
def handleMain.run (w : World) (entities relations : StringSet)
    (annMult textMult : List GoString) (opFile : GoString) (overwrite : Bool) :
    Except Err Output :=
  match handleMain.generate w entities relations annMult textMult with
  | .error err => .error err
  | .ok generatedAcharya =>
    if opFile = [] then .ok (.printed generatedAcharya)
    else handleOutput w opFile generatedAcharya overwrite

/-- Go `handleMain` (lines 380-485).  Errors of rewinding a file are left out. -/
def handleMain (w : World) (fPath annFiles txtFiles conf opFile : GoString) (overwrite : Bool) :
    Except Err Output :=
  match (if fPath ≠ [] then w.subDirectories fPath else .ok ([], [])) with
  | .error err => .error err
  | .ok (annMult0, textMult0) =>
    let confPath := if fPath ≠ [] then fPath ++ lit "/annotation.conf" else conf
    match w.readFile confPath with
    | none => .error (.ErrOpen confPath)
    | some confFile =>
      let entities := GetEntitiesFromFile confFile
      if entities.length = 0 then .error .ErrNoEntities
      else
        let relations := GetRelationsFromFile confFile
        let annMult := if fPath = [] then Split annFiles 44 else annMult0
        let textMult := if fPath = [] then Split txtFiles 44 else textMult0
        handleMain.run w entities relations annMult textMult opFile overwrite

/-! ## Definitions used to state the claims -/

/-- A Unicode scalar value: a code point that is not a surrogate. -/
def ValidScalar (r : Nat) : Prop := r < 0xD800 ∨ (0xE000 ≤ r ∧ r ≤ 0x10FFFF)

/-- The UTF-8 encoding of a sequence of code points. -/
def utf8Encode : List Nat → GoString
  | [] => []
  | c :: cs => runeToString c ++ utf8Encode cs

/-- The worker of `decodeRunes`, bounded by the number of bytes. -/
def decodeRunes.go : Nat → GoString → List Nat
  | 0, _ => []
  | n + 1, s =>
    match s with
    | [] => []
    | _ :: _ => (DecodeRuneInString s).1 :: decodeRunes.go n (s.drop (DecodeRuneInString s).2)

/-- The code points of a text: the runes that decoding it from its first byte
to its last gives, an invalid byte counting as U+FFFD. -/
def decodeRunes (s : GoString) : List Nat := decodeRunes.go s.length s

/-- The code-point length of a text (Go `utf8.RuneCountInString`). -/
def RuneCountInString (s : GoString) : Nat := (decodeRunes s).length

/-- The code points of a text that are not carriage returns. -/
def logicalRunes (s : GoString) : List Nat := (decodeRunes s).filter (fun r => r != 13)

/-- The carriage returns among the code points `rs` that lie at a logical
position (the number of code points before them that are not carriage returns,
counted from `p`) inside `[startPos, endPos)`. -/
def skippedCR.go : List Nat → Int → Int → Int → Nat
  | [], _, _, _ => 0
  | r :: rs, p, startPos, endPos =>
    if r = 13 then
      (if startPos ≤ p ∧ p < endPos then 1 else 0) + skippedCR.go rs p startPos endPos
    else skippedCR.go rs (p + 1) startPos endPos

/-- The number of carriage returns of the text that fall in the logical range
`[startPos, endPos)`. -/
def skippedCR (s : GoString) (startPos endPos : Int) : Nat :=
  skippedCR.go (decodeRunes s) 0 startPos endPos

/-- The line `line` is `pre`, then a match of the pattern
`R<digits> <name> Arg1:T<digits> Arg2:T<digits>` of `GenNumberRelationArr`, then
`post`: the letter `R`, the digits `d1`, the white space `ws`, the word
characters `name`, the text ` Arg1:T`, the digits `d2`, the text ` Arg2:T` and
the digits `d3`. -/
def RelationMatch (line pre d1 ws name d2 d3 post : GoString) : Prop :=
  line = pre ++ ([82] ++ d1 ++ ws ++ name ++ lit " Arg1:T" ++ d2 ++ lit " Arg2:T" ++ d3 ++ post) ∧
    (d1 ≠ [] ∧ ∀ b ∈ d1, isDigit b = true) ∧ (ws ≠ [] ∧ ∀ b ∈ ws, isReSpace b = true) ∧
    (name ≠ [] ∧ ∀ b ∈ name, isReWord b = true) ∧ (d2 ≠ [] ∧ ∀ b ∈ d2, isDigit b = true) ∧
    (d3 ≠ [] ∧ ∀ b ∈ d3, isDigit b = true)

/-- The line holds a match of the relation pattern. -/
def MatchesRelationPattern (line : GoString) : Prop :=
  ∃ pre d1 ws name d2 d3 post, RelationMatch line pre d1 ws name d2 d3 post

/-- The `int` a run of decimal digits denotes: its value, or the largest `int`
when the value does not fit (the error of `strconv.Atoi` is dropped). -/
def digitsInt (d : GoString) : Int := min (digitsVal d : Int) (2 ^ 63 - 1)

/-- The relation the body of the loop of `GenNumberRelationArr` appends for a
line, if any. -/
def lineRelation (m : EntityMap) (text : GoString) : Option NumberCustomRelation :=
  if HasPrefix text (lit "R") then
    match relationRegex.find text with
    | some (g1, g2, g3, g4) =>
      some ⟨(Atoi g1).1, ⟨(Atoi g3).1, (m.get (Atoi g3).1).Entity.Begin,
        (m.get (Atoi g3).1).Entity.End, (Atoi g4).1, (m.get (Atoi g4).1).Entity.Begin,
        (m.get (Atoi g4).1).Entity.End, g2⟩⟩
    | none => none
  else none

/-- The items of a JSON array, separated by commas. -/
def commaSep : List GoString → GoString
  | [] => []
  | [x] => x
  | x :: y :: t => x ++ [44] ++ commaSep (y :: t)

/-- The text `[b,e,"name"]`. -/
def tupleText (b e : Int) (name : GoString) : GoString :=
  lit "[" ++ itoa b ++ lit "," ++ itoa e ++ lit ",\"" ++ name ++ lit "\"]"

/-- The tuple `[begin,end,"typeName"]` of an entity in the Acharya record; a
newline in the name is written as a backslash and the letter n. -/
def entityTuple (v : NumberAcharyaEntity) : GoString :=
  tupleText v.Entity.Begin v.Entity.End (ReplaceAllNewline v.Entity.Name)

/-- The text `\x7b"head":[bh,eh],"tail":[bt,et],"name":"name"\x7d`. -/
def objectText (bh eh bt et : Int) (name : GoString) : GoString :=
  lit "\x7b\"head\":[" ++ itoa bh ++ lit "," ++ itoa eh ++ lit "],\"tail\":[" ++ itoa bt ++
    lit "," ++ itoa et ++ lit "],\"name\":\"" ++ name ++ lit "\"\x7d"

/-- The object of a relation in the Acharya record; a newline in the name is
written as a backslash and the letter n. -/
def relationObject (v : NumberCustomRelation) : GoString :=
  objectText v.Entity.BeginHead v.Entity.EndHead v.Entity.BeginTail v.Entity.EndTail
    (ReplaceAllNewline v.Entity.Name)

/-- The Acharya record of a document as the claims describe it: the id, the
test flag, the escaped text, the entity tuples in the order `visit` and the
relation objects, closed by `]\x7d` and a newline. -/
def acharyaRecord (tData : GoString) (visit : List NumberAcharyaEntity)
    (rels : List NumberCustomRelation) (article_id : GoString) (isTestFile : Bool) : GoString :=
  lit "\x7b\"id\":\"" ++ ReplaceAllNewline article_id ++ lit "\"," ++
    (if isTestFile then lit "\"test\":true," else []) ++ lit "\"Data\":" ++ jsonMarshal tData ++
    lit ",\"Entities\":[" ++ commaSep (visit.map entityTuple) ++ lit "],\"Relations\":[" ++
    commaSep (rels.map relationObject) ++ lit "]\x7d\n"

/-- The Acharya record as C2 words it: as `acharyaRecord`, with the document id
and the names written as they are. -/
def statedRecord (tData : GoString) (visit : List NumberAcharyaEntity)
    (rels : List NumberCustomRelation) (article_id : GoString) (isTestFile : Bool) : GoString :=
  lit "\x7b\"id\":\"" ++ article_id ++ lit "\"," ++
    (if isTestFile then lit "\"test\":true," else []) ++ lit "\"Data\":" ++ jsonMarshal tData ++
    lit ",\"Entities\":[" ++
    commaSep (visit.map fun v => tupleText v.Entity.Begin v.Entity.End v.Entity.Name) ++
    lit "],\"Relations\":[" ++
    commaSep (rels.map fun v => objectText v.Entity.BeginHead v.Entity.EndHead
      v.Entity.BeginTail v.Entity.EndTail v.Entity.Name) ++ lit "]\x7d\n"

/-- The configuration of the scenario of C3. -/
def scenarioConf : GoString :=
  lit "[entities]\nPERSON\n[relations]\nworks_for Arg1:PERSON Arg2:ORG"

/-- The annotation source of the scenario of C3. -/
def scenarioAnn : GoString :=
  lit "T1\tPERSON 0 4\tJohn\nT2\tORG 14 17\tIBM\nR1\tworks_for Arg1:T1 Arg2:T2"

/-- The text of the scenario of C3. -/
def scenarioText : GoString := lit "John works for IBM"

/-- The token is a decimal integer: an optional sign `+` or `-` followed by
one decimal digit at least. -/
def IsDecimalInteger (s : GoString) : Prop :=
  (if s.head? = some 43 ∨ s.head? = some 45 then s.drop 1 else s) ≠ [] ∧
    ∀ b ∈ (if s.head? = some 43 ∨ s.head? = some 45 then s.drop 1 else s), isDigit b = true

instance (s : GoString) : Decidable (IsDecimalInteger s) := by
  unfold IsDecimalInteger
  infer_instance

/-- The type field of an entity record: the first space-separated token of its
second tab-separated field. -/
def recordType (text : GoString) : GoString :=
  (Split ((Split text 9).getD 1 []) 32).getD 0 []

/-- The annotation number of a record, as `GetTextAnnNum` reads it. -/
def recordNumber (text : GoString) : Int := (GetTextAnnNum text).1

/-- The line is an entity record whose type, trimmed of white space, is in the
whitelist. -/
def whitelistedRecord (w : StringSet) (text : GoString) : Bool :=
  HasPrefix text (lit "T") && w.get (TrimSpace (recordType text))

/-- The line is an entity record whose type, as written, is in the whitelist. -/
def statedWhitelistedRecord (w : StringSet) (text : GoString) : Bool :=
  HasPrefix text (lit "T") && w.get (recordType text)

/-- The line is blank: nothing is left of it once trimmed of white space. -/
def isBlankLine (l : GoString) : Bool := (TrimSpace l).length == 0

/-- The line holds the marker `[entities]`. -/
def isEntitiesMarker (l : GoString) : Bool := Contains l (lit "[entities]")

/-- The `[entities]` section as C17 and C18 word it: the lines after the first
line that holds `[entities]` and before the next line that begins with `[`. -/
def statedSection (lines : List GoString) : List GoString :=
  ((lines.dropWhile (fun l => !isEntitiesMarker l)).drop 1).takeWhile
    (fun l => !HasPrefix l (lit "["))

/-- The entity set as C17 words it: the lines of the section trimmed of white
space, blank lines and lines that begin with `#` left out. -/
def statedEntities (lines : List GoString) : List GoString :=
  ((statedSection lines).filter
    (fun l => !isBlankLine l && !HasPrefix l (lit "#"))).map TrimSpace

/-- The lines of the `[entities]` section as the scan reads it: those after the
first line that holds `[entities]` and before the next line that begins with
`[` and does not hold `[entities]`. -/
def entitySection (lines : List GoString) : List GoString :=
  ((lines.dropWhile (fun l => !isEntitiesMarker l)).drop 1).takeWhile
    (fun l => !(HasPrefix l (lit "[") && !isEntitiesMarker l))

/-- The entity names of the configuration: the lines of the section trimmed of
white space, leaving out the lines that hold `[entities]`, the blank lines
and the lines that begin with `#`. -/
def entityNames (lines : List GoString) : List GoString :=
  ((entitySection lines).filter
    (fun l => !isEntitiesMarker l && !isBlankLine l && !HasPrefix l (lit "#"))).map TrimSpace

/-- A world in which the only file is the configuration `c`, with the given
content. -/
def confOnlyWorld (content : GoString) : World where
  readFile := fun p => if p = lit "c" then some content else none
  fileExists := fun p => p == lit "c"
  subDirectories := fun _ => .ok ([], [])
  rangeOrder := fun _ m => m.map Prod.snd

/-- The results of the documents of `annMult` taken one by one, in input order:
for each its Acharya record or its error. -/
def documentResults (w : World) (entities relations : StringSet)
    (annMult textMult : List GoString) : List (Except Err GoString) :=
  annMult.enum.map fun p => handleMain.document w entities relations p.1 p.2 (textMult.get? p.1)

/-- A world with the annotation file `d.ann` and the text file `d.txt` of the
scenario of C3. -/
def scenarioWorld : World where
  readFile := fun p =>
    if p = lit "d.ann" then some scenarioAnn else if p = lit "d.txt" then some scenarioText
    else none
  fileExists := fun _ => false
  subDirectories := fun _ => .ok ([], [])
  rangeOrder := fun _ m => m.map Prod.snd

/-- The stand-off line `T<id>\t<typeName> <begin> <end>\t<substring>` the
formatter writes for an entity (line 340), without its final newline. -/
def standoffLine (v : NumberAcharyaEntity) (str : GoString) : GoString :=
  lit "T" ++ itoa v.TxtAnnNo ++ lit "\t" ++ v.Entity.Name ++ lit " " ++ itoa v.Entity.Begin ++
    lit " " ++ itoa v.Entity.End ++ lit "\t" ++ str

/-- What holds of every entity `GenNumberEntityMap` stores: its name has no
tab, newline, space or semicolon and is in the whitelist once trimmed, and its
three numbers are `int` values. -/
def StoredEntity (w : StringSet) (v : NumberAcharyaEntity) : Prop :=
  (∀ b ∈ v.Entity.Name, b ≠ 9 ∧ b ≠ 10 ∧ b ≠ 32 ∧ b ≠ 59) ∧
    w.get (TrimSpace v.Entity.Name) = true ∧
    (-(2 ^ 63) ≤ v.TxtAnnNo ∧ v.TxtAnnNo < 2 ^ 63) ∧
    (-(2 ^ 63) ≤ v.Entity.Begin ∧ v.Entity.Begin < 2 ^ 63) ∧
    (-(2 ^ 63) ≤ v.Entity.End ∧ v.Entity.End < 2 ^ 63)

/-- The lines of a text as it is written: the pieces between its newlines;
what follows the last newline is a line when it is not empty. -/
def rawLines (data : GoString) : List GoString :=
  if (Split data 10).getLast? = some [] then (Split data 10).dropLast else Split data 10

/-- The lines of a source as the claims speak of them: every line of the text,
without the carriage return before its newline. -/
def sourceLines (data : GoString) : List GoString := (rawLines data).map dropCR

/-- The lines of a source that reach the program: the lines before the first
line of 65536 bytes or more (its carriage return counted), each without the
carriage return before its newline. -/
def deliveredLines (data : GoString) : List GoString :=
  ((rawLines data).takeWhile (fun l => decide (l.length < 65536))).map dropCR

/-- The stand-off lines of the entities `vs` in their order, each ended by a
newline: what the first loop of the formatter (lines 335-342) adds to the
stand-off text.  An entity whose substring fails has no line: the formatter
returns the error there. -/
def entityLines (tData : GoString) (vs : List NumberAcharyaEntity) : GoString :=
  (vs.map fun v =>
    match GetSubString tData v.Entity.Begin v.Entity.End with
    | .ok str => standoffLine v str ++ lit "\n"
    | .error _ => []).flatten

/-- The stand-off lines of the relations in their order, each ended by a tab
and a newline: what the second loop of the formatter (lines 347-350) adds to
the stand-off text. -/
def relationLines (rels : List NumberCustomRelation) : GoString :=
  (rels.map fun v => lit "R" ++ itoa v.TxtAnnNo ++ lit "\t" ++ v.Entity.Name ++ lit " Arg1:T" ++
    itoa v.Entity.HeadAnnNo ++ lit " Arg2:T" ++ itoa v.Entity.TailAnnNo ++ lit "\t\n").flatten

/-! ## Lemmas -/

theorem DecodeRuneInString_runeToString (r : Nat) (h : ValidScalar r) (rest : GoString) :
    DecodeRuneInString (runeToString r ++ rest) = (r, (runeToString r).length) := by
  unfold ValidScalar at h
  unfold runeToString
  split
  · simp [DecodeRuneInString, *]
  · split
    · simp only [DecodeRuneInString, List.cons_append, List.nil_append, List.length_cons,
        List.length_nil]
      rw [if_neg (by omega), if_neg (by omega), if_pos (by omega), if_neg (by omega)]
      refine Prod.ext ?_ rfl
      simp only
      omega
    · rw [if_neg (by omega)]
      split
      · simp only [DecodeRuneInString, List.cons_append, List.nil_append, List.length_cons,
          List.length_nil]
        rw [if_neg (by omega), if_neg (by omega), if_neg (by omega), if_pos (by omega),
          if_neg (by split <;> split <;> omega), if_neg (by omega)]
        refine Prod.ext ?_ rfl
        simp only
        omega
      · simp only [DecodeRuneInString, List.cons_append, List.nil_append, List.length_cons,
          List.length_nil]
        rw [if_neg (by omega), if_neg (by omega), if_neg (by omega), if_neg (by omega),
          if_pos (by omega), if_neg (by split <;> split <;> omega), if_neg (by omega),
          if_neg (by omega)]
        refine Prod.ext ?_ rfl
        simp only
        omega


theorem DecodeRuneInString_width_pos (s : GoString) (h : s ≠ []) :
    1 ≤ (DecodeRuneInString s).2 := by
  unfold DecodeRuneInString
  split
  · exact absurd rfl h
  · repeat' split
    all_goals simp

theorem DecodeRuneInString_width_le (s : GoString) :
    (DecodeRuneInString s).2 ≤ s.length := by
  unfold DecodeRuneInString
  split
  · simp
  · repeat' split
    all_goals simp

theorem decodeRunes_go_fuel (n m : Nat) (s : GoString) (hn : s.length ≤ n) (hm : s.length ≤ m) :
    decodeRunes.go n s = decodeRunes.go m s := by
  induction n generalizing m s with
  | zero =>
    have : s = [] := List.length_eq_zero.mp (by omega)
    subst this
    cases m <;> simp [decodeRunes.go]
  | succ n ih =>
    cases s with
    | nil => cases m <;> simp [decodeRunes.go]
    | cons b t =>
      cases m with
      | zero => simp at hm
      | succ m =>
        simp only [decodeRunes.go]
        congr 1
        have hp := DecodeRuneInString_width_pos (b :: t) (by simp)
        apply ih
        · simp only [List.length_drop, List.length_cons] at hn ⊢; omega
        · simp only [List.length_drop, List.length_cons] at hm ⊢; omega

theorem decodeRunes_nil : decodeRunes [] = [] := rfl

theorem decodeRunes_cons (b : Nat) (t : GoString) :
    decodeRunes (b :: t) =
      (DecodeRuneInString (b :: t)).1 :: decodeRunes ((b :: t).drop (DecodeRuneInString (b :: t)).2) := by
  unfold decodeRunes
  simp only [List.length_cons, decodeRunes.go]
  congr 1
  have hp := DecodeRuneInString_width_pos (b :: t) (by simp)
  apply decodeRunes_go_fuel
  · simp only [List.length_drop, List.length_cons]; omega
  · exact le_refl _

theorem GetSubString.loop_spec (s : GoString) (startPos endPos : Int) (hse : startPos ≤ endPos) :
    ∀ (n i : Nat) (counter : Int) (val : GoString), s.length - i ≤ n → i ≤ s.length →
      counter ≤ endPos → endPos - counter ≤ (logicalRunes (s.drop i)).length →
      GetSubString.loop s startPos endPos i counter val =
        val ++ utf8Encode (((logicalRunes (s.drop i)).take (endPos - counter).toNat).drop
          (startPos - counter).toNat) := by
  intro n
  induction n with
  | zero =>
    intro i counter val hn hi hc hlen
    have hik : i = s.length := by omega
    subst hik
    simp only [List.drop_length, logicalRunes, decodeRunes_nil, List.filter_nil, List.length_nil,
      List.take_nil, List.drop_nil, utf8Encode, List.append_nil] at hlen ⊢
    rw [GetSubString.loop]
    have h1 : counter ≥ startPos := by simp at hlen; omega
    have h2 : counter ≥ endPos := by simp at hlen; omega
    simp [DecodeRuneInString, RuneError, h1, h2]
  | succ n ih =>
    intro i counter val hn hi hc hlen
    rcases hd : s.drop i with _ | ⟨b, t⟩
    · have hik : i = s.length := by
        have := congrArg List.length hd
        simp at this; omega
      subst hik
      rw [hd] at hlen
      simp only [hd, logicalRunes, decodeRunes_nil, List.filter_nil, List.length_nil,
        List.take_nil, List.drop_nil, utf8Encode, List.append_nil] at hlen ⊢
      rw [GetSubString.loop]
      have h1 : counter ≥ startPos := by simp at hlen; omega
      have h2 : counter ≥ endPos := by simp at hlen; omega
      simp [hd, DecodeRuneInString, RuneError, h1, h2]
    · have hp := DecodeRuneInString_width_pos (b :: t) (by simp)
      have hw := DecodeRuneInString_width_le (b :: t)
      have hlen_d : (b :: t).length = s.length - i := by rw [← hd]; simp
      have hnext : s.drop (i + (DecodeRuneInString (b :: t)).2) =
          (b :: t).drop (DecodeRuneInString (b :: t)).2 := by
        rw [← hd, List.drop_drop]
      have hruns : logicalRunes (b :: t) =
          (if (DecodeRuneInString (b :: t)).1 = 13 then [] else [(DecodeRuneInString (b :: t)).1]) ++
            logicalRunes ((b :: t).drop (DecodeRuneInString (b :: t)).2) := by
        unfold logicalRunes
        rw [decodeRunes_cons]
        by_cases h13 : (DecodeRuneInString (b :: t)).1 = 13 <;> simp [List.filter_cons, h13]
      rw [hd] at hlen
      rw [hruns] at hlen ⊢
      rw [GetSubString.loop]
      rw [dif_pos hi, hd]
      have ih1 := fun c v => ih (i + (DecodeRuneInString (b :: t)).2) c v (by omega) (by omega)
      rw [hnext] at ih1
      by_cases h13 : (DecodeRuneInString (b :: t)).1 = 13
      · rw [dif_pos h13]
        simp only [h13, if_true, List.nil_append] at hlen ⊢
        exact ih1 counter val hc hlen
      · rw [dif_neg h13]
        simp only [h13, if_false, List.singleton_append, List.length_cons] at hlen ⊢
        by_cases hs : counter ≥ startPos
        · rw [dif_pos hs]
          by_cases he : counter ≥ endPos
          · rw [if_pos he]
            have : (endPos - counter).toNat = 0 := by omega
            simp [this, utf8Encode]
          · rw [if_neg he]
            rw [ih1 (counter + 1) _ (by omega) (by omega)]
            have e1 : (endPos - counter).toNat = (endPos - (counter + 1)).toNat + 1 := by omega
            have e2 : (startPos - counter).toNat = 0 := by omega
            have e3 : (startPos - (counter + 1)).toNat = 0 := by omega
            rw [e1, e2, e3]
            simp [utf8Encode, List.append_assoc]
        · rw [dif_neg hs]
          rw [ih1 (counter + 1) _ (by omega) (by omega)]
          have e1 : (endPos - counter).toNat = (endPos - (counter + 1)).toNat + 1 := by omega
          have e2 : (startPos - counter).toNat = (startPos - (counter + 1)).toNat + 1 := by omega
          rw [e1, e2]
          simp


theorem DecodeRuneInString_valid (s : GoString) : ValidScalar (DecodeRuneInString s).1 := by
  unfold DecodeRuneInString ValidScalar
  split
  · simp [RuneError]
  · repeat' split
    all_goals simp only [RuneError]
    all_goals omega

theorem runeToString_length_pos (r : Nat) : 1 ≤ (runeToString r).length := by
  unfold runeToString
  repeat' split
  all_goals simp

theorem runeToString_ne_nil (r : Nat) : runeToString r ≠ [] := by
  intro h
  have := runeToString_length_pos r
  rw [h] at this
  simp at this

theorem utf8Encode_length (cs : List Nat) : cs.length ≤ (utf8Encode cs).length := by
  induction cs with
  | nil => simp [utf8Encode]
  | cons c cs ih =>
    have := runeToString_length_pos c
    simp only [utf8Encode, List.length_append, List.length_cons]
    omega

theorem decodeRunes_utf8Encode (cs : List Nat) (hv : ∀ c ∈ cs, ValidScalar c) :
    decodeRunes (utf8Encode cs) = cs := by
  induction cs with
  | nil => rfl
  | cons c cs ih =>
    have hc := hv c (List.mem_cons_self _ _)
    have hd := DecodeRuneInString_runeToString c hc (utf8Encode cs)
    rcases hs : runeToString c ++ utf8Encode cs with _ | ⟨b, t⟩
    · exact absurd (List.append_eq_nil.mp hs).1 (runeToString_ne_nil c)
    · simp only [utf8Encode, hs]
      rw [decodeRunes_cons, ← hs, hd]
      simp only [List.drop_left]
      rw [ih (fun x hx => hv x (List.mem_cons_of_mem _ hx))]

theorem decodeRunes_valid (s : GoString) : ∀ r ∈ decodeRunes s, ValidScalar r := by
  suffices h : ∀ n (s : GoString), ∀ r ∈ decodeRunes.go n s, ValidScalar r from h _ s
  intro n
  induction n with
  | zero => intro s r hr; simp [decodeRunes.go] at hr
  | succ n ih =>
    intro s r hr
    cases s with
    | nil => simp [decodeRunes.go] at hr
    | cons b t =>
      simp only [decodeRunes.go, List.mem_cons] at hr
      rcases hr with rfl | hr
      · exact DecodeRuneInString_valid _
      · exact ih _ r hr

theorem decodeRunes_length_le (s : GoString) : (decodeRunes s).length ≤ s.length := by
  suffices h : ∀ n (s : GoString), (decodeRunes.go n s).length ≤ s.length from h _ s
  intro n
  induction n with
  | zero => intro s; simp [decodeRunes.go]
  | succ n ih =>
    intro s
    cases s with
    | nil => simp [decodeRunes.go]
    | cons b t =>
      have hp := DecodeRuneInString_width_pos (b :: t) (by simp)
      have := ih ((b :: t).drop (DecodeRuneInString (b :: t)).2)
      simp only [decodeRunes.go, List.length_cons, List.length_drop] at this ⊢
      omega

theorem GetSubString_logical (s : GoString) (startPos endPos : Int) (h0 : 0 ≤ startPos)
    (h1 : startPos ≤ endPos) (h2 : endPos ≤ ((logicalRunes s).length : Int)) :
    GetSubString s startPos endPos =
      .ok (utf8Encode (((logicalRunes s).take endPos.toNat).drop startPos.toNat)) := by
  have hrc : (logicalRunes s).length ≤ s.length :=
    le_trans (List.length_filter_le _ _) (decodeRunes_length_le s)
  unfold GetSubString
  rw [if_neg (by omega), if_neg (by omega), if_neg (by omega)]
  have := GetSubString.loop_spec s startPos endPos h1 s.length 0 0 [] (by omega) (by omega)
    (by omega) (by simpa using h2)
  rw [this]
  simp


theorem EntityMap.get_of_mem (m : EntityMap) (hm : (m.map Prod.fst).Nodup) (k : Int)
    (v : NumberAcharyaEntity) (h : (k, v) ∈ m) : m.get k = v := by
  induction m with
  | nil => simp at h
  | cons e t ih =>
    obtain ⟨k1, v1⟩ := e
    simp only [List.map_cons, List.nodup_cons, List.mem_map, not_exists, not_and] at hm
    simp only [List.mem_cons, Prod.mk.injEq] at h
    unfold EntityMap.get
    rcases h with ⟨rfl, rfl⟩ | h
    · simp
    · have hne : k1 ≠ k := fun hk => hm.1 (k, v) h hk.symm
      simp only [hne, if_false]
      exact ih hm.2 h

theorem EntityMap.get_of_not_mem (m : EntityMap) (k : Int) (h : ∀ v, (k, v) ∉ m) :
    m.get k = NumberAcharyaEntity.zero := by
  induction m with
  | nil => rfl
  | cons e t ih =>
    obtain ⟨k1, v1⟩ := e
    unfold EntityMap.get
    have hne : k1 ≠ k := fun hk => h v1 (by simp [hk])
    simp only [hne, if_false]
    exact ih (fun v hv => h v (List.mem_cons_of_mem _ hv))

theorem EntityMap.mem_set (m : EntityMap) (k : Int) (v : NumberAcharyaEntity)
    (e : Int × NumberAcharyaEntity) (h : e ∈ m.set k v) : e ∈ m ∨ e = (k, v) := by
  induction m with
  | nil => simp [EntityMap.set] at h; exact Or.inr h
  | cons e1 t ih =>
    obtain ⟨k1, v1⟩ := e1
    unfold EntityMap.set at h
    split at h
    · simp only [List.mem_cons] at h ⊢
      rcases h with h | h
      · exact Or.inr h
      · exact Or.inl (Or.inr h)
    · simp only [List.mem_cons] at h ⊢
      rcases h with h | h
      · exact Or.inl (Or.inl h)
      · rcases ih h with h | h
        · exact Or.inl (Or.inr h)
        · exact Or.inr h

/-- The relation the loop of `GenNumberRelationArr` builds from the captured
groups of a match. -/
theorem GenNumberRelationArr.loop_mem (m : EntityMap) (lines : List GoString)
    (acc : List NumberCustomRelation) (r : NumberCustomRelation)
    (h : r ∈ GenNumberRelationArr.loop m lines acc) :
    r ∈ acc ∨ ∃ text ∈ lines, ∃ g1 g2 g3 g4, HasPrefix text (lit "R") = true ∧
      relationRegex.find text = some (g1, g2, g3, g4) ∧
      r = ⟨(Atoi g1).1, ⟨(Atoi g3).1, (m.get (Atoi g3).1).Entity.Begin,
        (m.get (Atoi g3).1).Entity.End, (Atoi g4).1, (m.get (Atoi g4).1).Entity.Begin,
        (m.get (Atoi g4).1).Entity.End, g2⟩⟩ := by
  induction lines generalizing acc with
  | nil => exact Or.inl h
  | cons text rest ih =>
    unfold GenNumberRelationArr.loop at h
    split at h
    · rename_i hp
      split at h
      · rename_i g1 g2 g3 g4 hf
        rcases ih _ h with h1 | ⟨t, ht, h2⟩
        · simp only [List.mem_append, List.mem_singleton] at h1
          rcases h1 with h1 | h1
          · exact Or.inl h1
          · exact Or.inr ⟨text, List.mem_cons_self _ _, g1, g2, g3, g4, hp, hf, h1⟩
        · exact Or.inr ⟨t, List.mem_cons_of_mem _ ht, h2⟩
      · rcases ih _ h with h1 | ⟨t, ht, h2⟩
        · exact Or.inl h1
        · exact Or.inr ⟨t, List.mem_cons_of_mem _ ht, h2⟩
    · rcases ih _ h with h1 | ⟨t, ht, h2⟩
      · exact Or.inl h1
      · exact Or.inr ⟨t, List.mem_cons_of_mem _ ht, h2⟩

theorem GenNumberEntityMap.body_trimmed (w : StringSet) (text : GoString) (m : EntityMap)
    (hm : ∀ e ∈ m, w.get (TrimSpace e.2.Entity.Name) = true) :
    ∀ e ∈ (GenNumberEntityMap.body w text m).1, w.get (TrimSpace e.2.Entity.Name) = true := by
  have hnil : ∀ e ∈ ([] : EntityMap), w.get (TrimSpace e.2.Entity.Name) = true := by
    intro e he; simp at he
  unfold GenNumberEntityMap.body
  by_cases hp : HasPrefix text (lit "T") = true
  · by_cases h3 : (Split text 9).length = 3
    · by_cases hc : Contains ((Split text 9).getD 1 []) (lit ";") = true
      · simp only [hp, h3, hc, ↓reduceIte]; exact hnil
      · by_cases h33 : (Split ((Split text 9).getD 1 []) 32).length = 3
        · by_cases hw : w.get (TrimSpace ((Split ((Split text 9).getD 1 []) 32).getD 0 [])) = true
          · rcases hb : Atoi ((Split ((Split text 9).getD 1 []) 32).getD 1 []) with ⟨b, _ | eb⟩
            · rcases he : Atoi ((Split ((Split text 9).getD 1 []) 32).getD 2 []) with ⟨e, _ | ee⟩
              · rcases hn : GetTextAnnNum text with ⟨n, _ | en⟩
                · simp only [hp, h3, hc, h33, hw, hb, he, hn, ↓reduceIte]
                  intro x hx
                  rcases EntityMap.mem_set _ _ _ _ hx with h | h
                  · exact hm x h
                  · rw [h]; exact hw
                · simp only [hp, h3, hc, h33, hw, hb, he, hn, ↓reduceIte]; exact hnil
              · simp only [hp, h3, hc, h33, hw, hb, he, ↓reduceIte]; exact hnil
            · simp only [hp, h3, hc, h33, hw, hb, ↓reduceIte]; exact hnil
          · simp only [hp, h3, hc, h33, hw, ↓reduceIte]; exact hm
        · simp only [hp, h3, hc, h33, ↓reduceIte]; exact hm
    · simp only [hp, h3, ↓reduceIte]; exact hm
  · simp only [hp, ↓reduceIte]; exact hm

theorem GenNumberEntityMap.loop_cons_ok (w : StringSet) (text : GoString) (rest : List GoString)
    (m m1 : EntityMap) (h : GenNumberEntityMap.body w text m = (m1, none)) :
    GenNumberEntityMap.loop w (text :: rest) m = GenNumberEntityMap.loop w rest m1 := by
  rw [GenNumberEntityMap.loop, h]

theorem GenNumberEntityMap.loop_cons_err (w : StringSet) (text : GoString) (rest : List GoString)
    (m m1 : EntityMap) (err : Err) (h : GenNumberEntityMap.body w text m = (m1, some err)) :
    GenNumberEntityMap.loop w (text :: rest) m = (m1, some err) := by
  rw [GenNumberEntityMap.loop, h]

theorem GenNumberEntityMap.loop_trimmed (w : StringSet) (lines : List GoString) (m : EntityMap)
    (hm : ∀ e ∈ m, w.get (TrimSpace e.2.Entity.Name) = true) :
    ∀ e ∈ (GenNumberEntityMap.loop w lines m).1, w.get (TrimSpace e.2.Entity.Name) = true := by
  induction lines generalizing m with
  | nil => exact hm
  | cons text rest ih =>
    have hb := GenNumberEntityMap.body_trimmed w text m hm
    rcases hbody : GenNumberEntityMap.body w text m with ⟨m1, _ | err⟩
    · rw [GenNumberEntityMap.loop_cons_ok w text rest m m1 hbody]
      rw [hbody] at hb
      exact ih m1 hb
    · rw [GenNumberEntityMap.loop_cons_err w text rest m m1 err hbody]
      rw [hbody] at hb
      exact hb

theorem GenNumberEntityMap.loop_append (w : StringSet) (pre rest : List GoString) (m : EntityMap)
    (h : (GenNumberEntityMap.loop w pre m).2 = none) :
    GenNumberEntityMap.loop w (pre ++ rest) m =
      GenNumberEntityMap.loop w rest (GenNumberEntityMap.loop w pre m).1 := by
  induction pre generalizing m with
  | nil => rfl
  | cons text pre ih =>
    rcases hbody : GenNumberEntityMap.body w text m with ⟨m1, _ | err⟩
    · rw [List.cons_append, GenNumberEntityMap.loop_cons_ok w text _ m m1 hbody,
        GenNumberEntityMap.loop_cons_ok w text _ m m1 hbody]
      rw [GenNumberEntityMap.loop_cons_ok w text _ m m1 hbody] at h
      exact ih m1 h
    · rw [GenNumberEntityMap.loop_cons_err w text _ m m1 err hbody] at h
      simp at h

theorem takeWhile_dropWhile_append (p : Nat → Bool) (d rest : GoString)
    (hd : ∀ b ∈ d, p b = true) (hr : ∀ b, rest.head? = some b → p b = false) :
    (d ++ rest).takeWhile p = d ∧ (d ++ rest).dropWhile p = rest := by
  induction d with
  | nil =>
    cases rest with
    | nil => simp
    | cons b t =>
      have := hr b rfl
      simp [List.takeWhile, List.dropWhile, this]
  | cons b t ih =>
    have hb := hd b (List.mem_cons_self _ _)
    have := ih (fun x hx => hd x (List.mem_cons_of_mem _ hx))
    simp [List.takeWhile, List.dropWhile, hb, this]

theorem head_dropWhile (p : Nat → Bool) (l : GoString) :
    ∀ b, (l.dropWhile p).head? = some b → p b = false := by
  induction l with
  | nil => simp
  | cons a t ih =>
    intro b hb
    by_cases ha : p a = true
    · simp only [List.dropWhile, ha] at hb
      exact ih b hb
    · simp only [Bool.not_eq_true] at ha
      simp only [List.dropWhile, ha, List.head?_cons, Option.some.injEq] at hb
      rw [← hb]; exact ha

theorem head_append_ne_nil (a b : GoString) (h : a ≠ []) : (a ++ b).head? = a.head? := by
  cases a with
  | nil => exact absurd rfl h
  | cons x t => rfl

theorem head_mem (a : GoString) (b : Nat) (h : a.head? = some b) : b ∈ a := by
  cases a with
  | nil => simp at h
  | cons x t => simp at h; simp [h]

theorem HasPrefix_eq_append (s p : GoString) (h : HasPrefix s p = true) :
    s = p ++ s.drop p.length := by
  unfold HasPrefix at h
  rw [List.isPrefixOf_iff_prefix] at h
  obtain ⟨t, ht⟩ := h
  rw [← ht]
  simp

theorem HasPrefix_append (p t : GoString) : HasPrefix (p ++ t) p = true := by
  unfold HasPrefix
  rw [List.isPrefixOf_iff_prefix]
  exact List.prefix_append p t

theorem relationRegex.matchAt_sound (s d1 name d2 d3 : GoString)
    (h : relationRegex.matchAt s = some (d1, name, d2, d3)) :
    ∃ ws post, RelationMatch s [] d1 ws name d2 d3 post ∧
      ∀ b, post.head? = some b → isDigit b = false := by
  unfold relationRegex.matchAt at h
  split at h
  · rename_i t
    simp only at h
    split at h
    · rename_i hc
      obtain ⟨h1, h2, h3, h4, h5, h6, h7⟩ := hc
      simp only [Option.some.injEq, Prod.mk.injEq] at h
      obtain ⟨e1, e2, e3, e4⟩ := h
      refine ⟨(t.dropWhile isDigit).takeWhile isReSpace,
        (((((t.dropWhile isDigit).dropWhile isReSpace).dropWhile isReWord).drop 7).dropWhile
          isDigit).drop 7 |>.dropWhile isDigit, ⟨?_, ?_, ?_, ?_, ?_, ?_⟩, head_dropWhile _ _⟩
      · have a4 := HasPrefix_eq_append _ _ h4
        have a6 := HasPrefix_eq_append _ _ h6
        have l7 : (lit " Arg1:T").length = 7 := by decide
        have l7b : (lit " Arg2:T").length = 7 := by decide
        rw [l7] at a4
        rw [l7b] at a6
        rw [← e1, ← e2, ← e3, ← e4]
        simp only [List.nil_append, List.append_assoc, List.singleton_append, List.cons_append]
        rw [List.takeWhile_append_dropWhile, ← a6, List.takeWhile_append_dropWhile, ← a4,
          List.takeWhile_append_dropWhile, List.takeWhile_append_dropWhile,
          List.takeWhile_append_dropWhile]
      · rw [← e1]; exact ⟨h1, fun b hb => List.mem_takeWhile_imp hb⟩
      · exact ⟨h2, fun b hb => List.mem_takeWhile_imp hb⟩
      · rw [← e2]; exact ⟨h3, fun b hb => List.mem_takeWhile_imp hb⟩
      · rw [← e3]; exact ⟨h5, fun b hb => List.mem_takeWhile_imp hb⟩
      · rw [← e4]; exact ⟨h7, fun b hb => List.mem_takeWhile_imp hb⟩
    · simp at h
  · simp at h

theorem relationRegex.matchAt_R (t : GoString) :
    relationRegex.matchAt (82 :: t) =
      if t.takeWhile isDigit ≠ [] ∧ (t.dropWhile isDigit).takeWhile isReSpace ≠ [] ∧
          ((t.dropWhile isDigit).dropWhile isReSpace).takeWhile isReWord ≠ [] ∧
          HasPrefix (((t.dropWhile isDigit).dropWhile isReSpace).dropWhile isReWord)
            (lit " Arg1:T") = true ∧
          ((((t.dropWhile isDigit).dropWhile isReSpace).dropWhile isReWord).drop 7).takeWhile
            isDigit ≠ [] ∧
          HasPrefix (((((t.dropWhile isDigit).dropWhile isReSpace).dropWhile isReWord).drop
            7).dropWhile isDigit) (lit " Arg2:T") = true ∧
          ((((((t.dropWhile isDigit).dropWhile isReSpace).dropWhile isReWord).drop 7).dropWhile
            isDigit).drop 7).takeWhile isDigit ≠ [] then
        some (t.takeWhile isDigit,
          ((t.dropWhile isDigit).dropWhile isReSpace).takeWhile isReWord,
          ((((t.dropWhile isDigit).dropWhile isReSpace).dropWhile isReWord).drop 7).takeWhile
            isDigit,
          ((((((t.dropWhile isDigit).dropWhile isReSpace).dropWhile isReWord).drop 7).dropWhile
            isDigit).drop 7).takeWhile isDigit)
      else none := rfl

theorem relationRegex.matchAt_complete (d1 ws name d2 d3 post : GoString)
    (h1 : d1 ≠ [] ∧ ∀ b ∈ d1, isDigit b = true) (h2 : ws ≠ [] ∧ ∀ b ∈ ws, isReSpace b = true)
    (h3 : name ≠ [] ∧ ∀ b ∈ name, isReWord b = true) (h4 : d2 ≠ [] ∧ ∀ b ∈ d2, isDigit b = true)
    (h5 : d3 ≠ [] ∧ ∀ b ∈ d3, isDigit b = true) :
    relationRegex.matchAt
        ([82] ++ d1 ++ ws ++ name ++ lit " Arg1:T" ++ d2 ++ lit " Arg2:T" ++ d3 ++ post) =
      some (d1, name, d2, d3 ++ post.takeWhile isDigit) := by
  have hsd : ∀ b, isReSpace b = true → isDigit b = false := by
    intro b hb
    simp only [isReSpace, Bool.or_eq_true, decide_eq_true_eq] at hb
    simp only [isDigit, Bool.and_eq_false_iff, decide_eq_false_iff_not]
    omega
  have hws : ∀ b, isReWord b = true → isReSpace b = false := by
    intro b hb
    simp only [isReWord, Bool.or_eq_true, Bool.and_eq_true, decide_eq_true_eq] at hb
    simp only [isReSpace, Bool.or_eq_false_iff, decide_eq_false_iff_not]
    omega
  -- the digits after the last `T`, with the digits that follow them
  obtain ⟨q3, r3⟩ := takeWhile_dropWhile_append isDigit (d3 ++ post.takeWhile isDigit)
    (post.dropWhile isDigit)
    (by
      intro b hb
      rcases List.mem_append.mp hb with h | h
      · exact h5.2 b h
      · exact List.mem_takeWhile_imp h)
    (head_dropWhile _ _)
  rw [List.append_assoc d3, List.takeWhile_append_dropWhile] at q3 r3
  obtain ⟨q2, r2⟩ := takeWhile_dropWhile_append isDigit d2 (lit " Arg2:T" ++ (d3 ++ post)) h4.2
    (by intro b hb; simp [lit] at hb; subst hb; decide)
  obtain ⟨qn, rn⟩ := takeWhile_dropWhile_append isReWord name
    (lit " Arg1:T" ++ (d2 ++ (lit " Arg2:T" ++ (d3 ++ post)))) h3.2
    (by intro b hb; simp [lit] at hb; subst hb; decide)
  obtain ⟨qw, rw1⟩ := takeWhile_dropWhile_append isReSpace ws
    (name ++ (lit " Arg1:T" ++ (d2 ++ (lit " Arg2:T" ++ (d3 ++ post))))) h2.2
    (by
      intro b hb
      rw [head_append_ne_nil _ _ h3.1] at hb
      exact hws b (h3.2 b (head_mem _ _ hb)))
  obtain ⟨q1, r1⟩ := takeWhile_dropWhile_append isDigit d1
    (ws ++ (name ++ (lit " Arg1:T" ++ (d2 ++ (lit " Arg2:T" ++ (d3 ++ post)))))) h1.2
    (by
      intro b hb
      rw [head_append_ne_nil _ _ h2.1] at hb
      exact hsd b (h2.2 b (head_mem _ _ hb)))
  have l7 : ∀ x : GoString, (lit " Arg1:T" ++ x).drop 7 = x := by
    intro x; rfl
  have l7b : ∀ x : GoString, (lit " Arg2:T" ++ x).drop 7 = x := by
    intro x; rfl
  have hd3 : d3 ++ List.takeWhile isDigit post ≠ [] := by
    intro h
    exact h5.1 (List.append_eq_nil.mp h).1
  simp only [List.append_assoc, List.singleton_append, List.cons_append, List.nil_append]
  rw [relationRegex.matchAt_R]
  simp only [q1, r1, qw, rw1, qn, rn, l7, q2, r2, l7b, q3, HasPrefix_append]
  rw [if_pos ⟨h1.1, h2.1, h3.1, trivial, h4.1, trivial, hd3⟩]

theorem relationRegex.matchAt_nil : relationRegex.matchAt [] = none := rfl

theorem relationRegex.find_none (line : GoString) (h : relationRegex.find line = none) :
    ∀ pre s, line = pre ++ s → relationRegex.matchAt s = none := by
  induction line with
  | nil =>
    intro pre s hs
    have := List.append_eq_nil.mp hs.symm
    rw [this.2]; rfl
  | cons b t ih =>
    intro pre s hs
    unfold relationRegex.find at h
    cases hm : relationRegex.matchAt (b :: t) with
    | some r => rw [hm] at h; simp at h
    | none =>
      rw [hm] at h
      cases pre with
      | nil => simp only [List.nil_append] at hs; rw [← hs]; exact hm
      | cons c pre =>
        simp only [List.cons_append, List.cons.injEq] at hs
        exact ih h pre s hs.2

theorem relationRegex.find_some (line : GoString)
    (g : GoString × GoString × GoString × GoString) (h : relationRegex.find line = some g) :
    ∃ pre s, line = pre ++ s ∧ relationRegex.matchAt s = some g ∧
      ∀ pre2 s2, line = pre2 ++ s2 → pre2.length < pre.length →
        relationRegex.matchAt s2 = none := by
  induction line with
  | nil => simp [relationRegex.find] at h
  | cons b t ih =>
    unfold relationRegex.find at h
    cases hm : relationRegex.matchAt (b :: t) with
    | some r =>
      rw [hm] at h
      simp only [Option.some.injEq] at h
      subst h
      exact ⟨[], b :: t, rfl, hm, fun pre2 s2 _ hl => absurd hl (by simp)⟩
    | none =>
      rw [hm] at h
      obtain ⟨pre, s, hs, hms, hleft⟩ := ih h
      refine ⟨b :: pre, s, by rw [hs]; rfl, hms, ?_⟩
      intro pre2 s2 hs2 hl
      cases pre2 with
      | nil => simp only [List.nil_append] at hs2; rw [← hs2]; exact hm
      | cons c pre2 =>
        simp only [List.cons_append, List.cons.injEq] at hs2
        exact hleft pre2 s2 hs2.2 (by simpa using hl)

theorem relationRegex.find_isSome_iff (line : GoString) :
    (relationRegex.find line).isSome = true ↔ MatchesRelationPattern line := by
  constructor
  · intro h
    obtain ⟨g, hg⟩ := Option.isSome_iff_exists.mp h
    obtain ⟨g1, g2, g3, g4⟩ := g
    obtain ⟨pre, s, hs, hms, _⟩ := relationRegex.find_some line _ hg
    obtain ⟨ws, post, ⟨hm, hrest⟩, _⟩ := relationRegex.matchAt_sound s g1 g2 g3 g4 hms
    refine ⟨pre, g1, ws, g2, g3, g4, post, ?_, hrest⟩
    rw [hs, hm]; simp
  · intro h
    obtain ⟨pre, d1, ws, name, d2, d3, post, hl, h1, h2, h3, h4, h5⟩ := h
    cases hf : relationRegex.find line with
    | some g => rfl
    | none =>
      have := relationRegex.find_none line hf pre _ hl
      rw [relationRegex.matchAt_complete d1 ws name d2 d3 post h1 h2 h3 h4 h5] at this
      simp at this

theorem Atoi_digits (d : GoString) (hd : d ≠ [] ∧ ∀ b ∈ d, isDigit b = true) :
    (Atoi d).1 = digitsInt d := by
  obtain ⟨hne, hall⟩ := hd
  cases d with
  | nil => exact absurd rfl hne
  | cons b t =>
    have hb := hall b (List.mem_cons_self _ _)
    have hb1 : 48 ≤ b ∧ b ≤ 57 := by simpa [isDigit] using hb
    have h45 : ¬ ((b :: t).head? = some 45) := by simp; omega
    have h43 : ¬ ((b :: t).head? = some 43) := by simp; omega
    have hall2 : (b :: t).all isDigit = true := List.all_eq_true.mpr hall
    have hbody : (if (b :: t).head? = some 45 ∨ (b :: t).head? = some 43 then (b :: t).drop 1
        else b :: t) = b :: t := by
      rw [if_neg (by rintro (h | h); exact h45 h; exact h43 h)]
    have hneg : decide ((b :: t).head? = some 45) = false := by simp; omega
    unfold Atoi digitsInt
    simp only [hbody, hneg, hall2]
    rw [if_neg (by simp)]
    by_cases hge : digitsVal (b :: t) ≥ 2 ^ 63
    · rw [if_pos ⟨trivial, hge⟩]
      simp only
      have : ((2 : Int) ^ 63) ≤ (digitsVal (b :: t) : Int) := by exact_mod_cast hge
      omega
    · rw [if_neg (by intro h; exact hge h.2), if_neg (by simp)]
      simp only [Bool.false_eq_true, if_false]
      have : (digitsVal (b :: t) : Int) < 2 ^ 63 := by
        have := Nat.lt_of_not_ge hge
        exact_mod_cast this
      omega

theorem GenNumberRelationArr.loop_eq (m : EntityMap) (lines : List GoString)
    (acc : List NumberCustomRelation) :
    GenNumberRelationArr.loop m lines acc = acc ++ lines.filterMap (lineRelation m) := by
  induction lines generalizing acc with
  | nil => simp [GenNumberRelationArr.loop]
  | cons text rest ih =>
    unfold GenNumberRelationArr.loop
    by_cases hp : HasPrefix text (lit "R") = true
    · cases hf : relationRegex.find text with
      | none =>
        have : lineRelation m text = none := by simp [lineRelation, hp, hf]
        simp only [hp, if_true, List.filterMap_cons, this]
        exact ih acc
      | some g =>
        obtain ⟨g1, g2, g3, g4⟩ := g
        have : lineRelation m text = some ⟨(Atoi g1).1, ⟨(Atoi g3).1,
            (m.get (Atoi g3).1).Entity.Begin, (m.get (Atoi g3).1).Entity.End, (Atoi g4).1,
            (m.get (Atoi g4).1).Entity.Begin, (m.get (Atoi g4).1).Entity.End, g2⟩⟩ := by
          simp [lineRelation, hp, hf]
        simp only [hp, if_true, List.filterMap_cons, this]
        rw [ih]
        simp
    · have : lineRelation m text = none := by simp [lineRelation, hp]
      simp only [hp, List.filterMap_cons, this]
      exact ih acc

theorem ReplaceAllNewline_append (a b : GoString) :
    ReplaceAllNewline (a ++ b) = ReplaceAllNewline a ++ ReplaceAllNewline b := by
  induction a with
  | nil => rfl
  | cons x t ih =>
    by_cases hx : x = 10 <;> simp [ReplaceAllNewline, hx, ih]

theorem ReplaceAllNewline_id (a : GoString) (h : ∀ x ∈ a, x ≠ 10) : ReplaceAllNewline a = a := by
  induction a with
  | nil => rfl
  | cons x t ih =>
    have hx := h x (List.mem_cons_self _ _)
    simp [ReplaceAllNewline, hx, ih (fun y hy => h y (List.mem_cons_of_mem _ hy))]

theorem ReplaceAllNewline_no_newline (a : GoString) : ∀ x ∈ ReplaceAllNewline a, x ≠ 10 := by
  induction a with
  | nil => simp [ReplaceAllNewline]
  | cons y t ih =>
    intro x hx
    by_cases hy : y = 10
    · simp only [ReplaceAllNewline, hy, if_true, List.mem_cons] at hx
      rcases hx with h | h | h
      · omega
      · omega
      · exact ih x h
    · simp only [ReplaceAllNewline, hy, if_false, List.mem_cons] at hx
      rcases hx with h | h
      · omega
      · exact ih x h

theorem natToDec.go_digits (fuel n : Nat) (acc : GoString) :
    ∀ x ∈ natToDec.go fuel n acc, x ∈ acc ∨ (48 ≤ x ∧ x ≤ 57) := by
  induction fuel generalizing n acc with
  | zero => intro x hx; exact Or.inl hx
  | succ fuel ih =>
    intro x hx
    unfold natToDec.go at hx
    split at hx
    · simp only [List.mem_cons] at hx
      rcases hx with h | h
      · right; omega
      · exact Or.inl h
    · rcases ih _ _ x hx with h | h
      · simp only [List.mem_cons] at h
        rcases h with h | h
        · right; omega
        · exact Or.inl h
      · exact Or.inr h

theorem itoa_no_newline (n : Int) : ∀ x ∈ itoa n, x ≠ 10 := by
  intro x hx
  unfold itoa natToDec at hx
  split at hx
  · simp only [List.mem_cons] at hx
    rcases hx with h | h
    · omega
    · rcases natToDec.go_digits _ _ _ x h with h | h
      · simp at h
      · omega
  · rcases natToDec.go_digits _ _ _ x hx with h | h
    · simp at h
    · omega

theorem DecodeRuneInString_take_high (b : Nat) (t : GoString) (hb : 0x80 ≤ b) :
    ∀ x ∈ (b :: t).take (DecodeRuneInString (b :: t)).2, 0x80 ≤ x := by
  rcases t with _ | ⟨s1, _ | ⟨s2, _ | ⟨s3, t3⟩⟩⟩ <;> simp only [DecodeRuneInString] <;>
    split_ifs <;> intro x hx <;>
    simp only [List.take, List.mem_cons, List.mem_nil_iff, List.not_mem_nil, or_false] at hx <;>
    omega

theorem hexDigit_ne (n : Nat) : hexDigit n ≠ 10 := by
  unfold hexDigit; split <;> omega

theorem jsonEscapeByte_no_newline (b : Nat) : ∀ x ∈ jsonEscapeByte b, x ≠ 10 := by
  intro x hx
  unfold jsonEscapeByte at hx
  have h1 := hexDigit_ne (b / 16)
  have h2 := hexDigit_ne (b % 16)
  split_ifs at hx <;> simp at hx <;> omega

theorem jsonString.go_no_newline (n : Nat) (s dst : GoString) (hd : ∀ x ∈ dst, x ≠ 10) :
    ∀ x ∈ jsonString.go n s dst, x ≠ 10 := by
  induction n generalizing s dst with
  | zero => simpa [jsonString.go] using hd
  | succ n ih =>
    cases s with
    | nil => simpa [jsonString.go] using hd
    | cons b t =>
      unfold jsonString.go
      have happ : ∀ extra : GoString, (∀ x ∈ extra, x ≠ 10) → ∀ x ∈ dst ++ extra, x ≠ 10 := by
        intro extra he x hx
        rcases List.mem_append.mp hx with h | h
        · exact hd x h
        · exact he x h
      split
      · split
        · rename_i hsafe
          apply ih
          apply happ
          intro x hx
          simp only [List.mem_singleton] at hx
          subst hx
          simp only [htmlSafe, Bool.and_eq_true, decide_eq_true_eq] at hsafe
          omega
        · apply ih
          exact happ _ (jsonEscapeByte_no_newline b)
      · split
        · apply ih
          apply happ
          intro x hx
          simp at hx
          omega
        · split
          · apply ih
            apply happ
            intro x hx
            have := hexDigit_ne ((DecodeRuneInString (b :: t)).1 % 16)
            simp at hx
            omega
          · apply ih
            apply happ
            intro x hx
            have := DecodeRuneInString_take_high b t (by omega) x hx
            omega

theorem jsonMarshal_no_newline (s : GoString) : ∀ x ∈ jsonMarshal s, x ≠ 10 := by
  intro x hx
  unfold jsonMarshal at hx
  rcases List.mem_append.mp hx with h | h
  · rcases List.mem_append.mp h with h | h
    · simp only [List.mem_singleton] at h; omega
    · exact jsonString.go_no_newline _ _ [] (by simp) x h
  · simp only [List.mem_singleton] at h; omega

theorem TrimSuffix_append_singleton (x : GoString) (c : Nat) : TrimSuffix (x ++ [c]) [c] = x := by
  unfold TrimSuffix
  have : ([c] : GoString).isSuffixOf (x ++ [c]) = true := by
    rw [List.isSuffixOf_iff_suffix]
    exact List.suffix_append x [c]
  simp [this]

theorem TrimSuffix_of_getLast (x : GoString) (c : Nat) (h : x.getLast? ≠ some c) :
    TrimSuffix x [c] = x := by
  unfold TrimSuffix
  have : ([c] : GoString).isSuffixOf x = false := by
    rw [Bool.eq_false_iff]
    intro hs
    rw [List.isSuffixOf_iff_suffix] at hs
    obtain ⟨t, ht⟩ := hs
    apply h
    rw [← ht]
    simp
  simp [this]

theorem flatten_comma (xs : List GoString) (h : xs ≠ []) :
    (xs.map (fun x => x ++ [44])).flatten = commaSep xs ++ [44] := by
  induction xs with
  | nil => exact absurd rfl h
  | cons x t ih =>
    cases t with
    | nil => simp [commaSep]
    | cons y t =>
      have := ih (by simp)
      simp only [List.map_cons, List.flatten_cons] at this ⊢
      rw [this]
      simp [commaSep]

theorem TrimSuffix_flatten (pre : GoString) (xs : List GoString) (hpre : pre.getLast? ≠ some 44) :
    TrimSuffix (pre ++ (xs.map (fun x => x ++ [44])).flatten) [44] = pre ++ commaSep xs := by
  cases xs with
  | nil => simpa [commaSep] using TrimSuffix_of_getLast pre 44 hpre
  | cons x t =>
    rw [flatten_comma (x :: t) (by simp), ← List.append_assoc, TrimSuffix_append_singleton]

theorem TrimSuffix_flatten_map {α : Type} (pre : GoString) (f : α → GoString) (vs : List α)
    (hpre : pre.getLast? ≠ some 44) :
    TrimSuffix (pre ++ (vs.map (fun v => f v ++ [44])).flatten) (lit ",") =
      pre ++ commaSep (vs.map f) := by
  have hc : lit "," = [44] := by decide
  have := TrimSuffix_flatten pre (vs.map f) hpre
  rw [List.map_map] at this
  rw [hc]
  exact this

theorem ReplaceAllNewline_commaSep (xs : List GoString) :
    ReplaceAllNewline (commaSep xs) = commaSep (xs.map ReplaceAllNewline) := by
  induction xs with
  | nil => rfl
  | cons x t ih =>
    cases t with
    | nil => simp [commaSep]
    | cons y t =>
      have c : ReplaceAllNewline [44] = [44] := by decide
      simp only [commaSep, List.map_cons, ReplaceAllNewline_append, c] at ih ⊢
      rw [ih]

theorem ReplaceAllNewline_tupleText (b e : Int) (name : GoString) :
    ReplaceAllNewline (tupleText b e name) = tupleText b e (ReplaceAllNewline name) := by
  have hb := ReplaceAllNewline_id _ (itoa_no_newline b)
  have he := ReplaceAllNewline_id _ (itoa_no_newline e)
  have c1 : ReplaceAllNewline (lit "[") = lit "[" := by decide
  have c2 : ReplaceAllNewline (lit ",") = lit "," := by decide
  have c3 : ReplaceAllNewline (lit ",\"") = lit ",\"" := by decide
  have c4 : ReplaceAllNewline (lit "\"]") = lit "\"]" := by decide
  simp only [tupleText, ReplaceAllNewline_append, hb, he, c1, c2, c3, c4]

theorem ReplaceAllNewline_objectText (bh eh bt et : Int) (name : GoString) :
    ReplaceAllNewline (objectText bh eh bt et name) =
      objectText bh eh bt et (ReplaceAllNewline name) := by
  have h1 := ReplaceAllNewline_id _ (itoa_no_newline bh)
  have h2 := ReplaceAllNewline_id _ (itoa_no_newline eh)
  have h3 := ReplaceAllNewline_id _ (itoa_no_newline bt)
  have h4 := ReplaceAllNewline_id _ (itoa_no_newline et)
  have c1 : ReplaceAllNewline (lit "\x7b\"head\":[") = lit "\x7b\"head\":[" := by decide
  have c2 : ReplaceAllNewline (lit ",") = lit "," := by decide
  have c3 : ReplaceAllNewline (lit "],\"tail\":[") = lit "],\"tail\":[" := by decide
  have c4 : ReplaceAllNewline (lit "],\"name\":\"") = lit "],\"name\":\"" := by decide
  have c5 : ReplaceAllNewline (lit "\"\x7d") = lit "\"\x7d" := by decide
  simp only [objectText, ReplaceAllNewline_append, h1, h2, h3, h4, c1, c2, c3, c4, c5]

theorem GenerateAcharyaAndStandoff.entities_acharya (tData : GoString)
    (es : List NumberAcharyaEntity) (standoff acharya s1 a1 : GoString)
    (h : GenerateAcharyaAndStandoff.entities tData es standoff acharya = .ok (s1, a1)) :
    a1 = acharya ++ (es.map (fun v =>
      tupleText v.Entity.Begin v.Entity.End v.Entity.Name ++ [44])).flatten := by
  induction es generalizing standoff acharya with
  | nil =>
    simp only [GenerateAcharyaAndStandoff.entities, Except.ok.injEq, Prod.mk.injEq] at h
    simp [h.2]
  | cons v rest ih =>
    unfold GenerateAcharyaAndStandoff.entities at h
    cases hg : GetSubString tData v.Entity.Begin v.Entity.End with
    | error err => rw [hg] at h; simp at h
    | ok str =>
      rw [hg] at h
      simp only at h
      rw [ih _ _ h]
      have c4 : lit "\"]," = lit "\"]" ++ [44] := by decide
      simp only [tupleText, c4, List.map_cons, List.flatten_cons, List.append_assoc]

theorem GenerateAcharyaAndStandoff.entities_ok (tData : GoString)
    (es : List NumberAcharyaEntity) (standoff acharya : GoString)
    (h : ∀ v ∈ es, ∃ str, GetSubString tData v.Entity.Begin v.Entity.End = .ok str) :
    ∃ s1 a1, GenerateAcharyaAndStandoff.entities tData es standoff acharya = .ok (s1, a1) := by
  induction es generalizing standoff acharya with
  | nil => exact ⟨_, _, rfl⟩
  | cons v rest ih =>
    obtain ⟨str, hstr⟩ := h v (List.mem_cons_self _ _)
    unfold GenerateAcharyaAndStandoff.entities
    rw [hstr]
    exact ih _ _ (fun x hx => h x (List.mem_cons_of_mem _ hx))

theorem GenerateAcharyaAndStandoff.relations_acharya (rels : List NumberCustomRelation)
    (standoff acharya : GoString) :
    (GenerateAcharyaAndStandoff.relations rels standoff acharya).2 =
      acharya ++ (rels.map (fun v => objectText v.Entity.BeginHead v.Entity.EndHead
        v.Entity.BeginTail v.Entity.EndTail v.Entity.Name ++ [44])).flatten := by
  induction rels generalizing standoff acharya with
  | nil => simp [GenerateAcharyaAndStandoff.relations]
  | cons v rest ih =>
    unfold GenerateAcharyaAndStandoff.relations
    rw [ih]
    have c5 : lit "\"\x7d," = lit "\"\x7d" ++ [44] := by decide
    simp only [objectText, c5, List.map_cons, List.flatten_cons, List.append_assoc]

theorem getLast_append_lit (x c : GoString) (hc : c ≠ []) : (x ++ c).getLast? = c.getLast? := by
  rw [List.getLast?_append]
  cases h : c.getLast? with
  | none => rw [List.getLast?_eq_none_iff] at h; exact absurd h hc
  | some a => rfl

theorem GenerateAcharyaAndStandoff_acharya (tData : GoString) (visit : List NumberAcharyaEntity)
    (rels : List NumberCustomRelation) (article_id : GoString) (isTestFile : Bool)
    (acharya standoff : GoString)
    (h : GenerateAcharyaAndStandoff tData visit rels article_id isTestFile =
      .ok (acharya, standoff)) :
    acharya = acharyaRecord tData visit rels article_id isTestFile := by
  unfold GenerateAcharyaAndStandoff at h
  simp only at h
  split at h
  · simp at h
  · rename_i standoff1 acharya1 hent
    simp only [Except.ok.injEq, Prod.mk.injEq] at h
    rw [← h.1]
    have ha1 := GenerateAcharyaAndStandoff.entities_acharya _ _ _ _ _ _ hent
    rw [GenerateAcharyaAndStandoff.relations_acharya, ha1]
    rw [TrimSuffix_flatten_map _ (fun v => tupleText v.Entity.Begin v.Entity.End v.Entity.Name)
      visit (by rw [getLast_append_lit _ _ (by decide)]; decide)]
    rw [TrimSuffix_flatten_map _ (fun v => objectText v.Entity.BeginHead v.Entity.EndHead
      v.Entity.BeginTail v.Entity.EndTail v.Entity.Name) rels
      (by rw [getLast_append_lit _ _ (by decide)]; decide)]
    have hj := ReplaceAllNewline_id _ (jsonMarshal_no_newline tData)
    have c1 : ReplaceAllNewline (lit "\x7b\"id\":\"") = lit "\x7b\"id\":\"" := by decide
    have c2 : ReplaceAllNewline (lit "\",") = lit "\"," := by decide
    have c3 : ReplaceAllNewline (lit "\"Data\":") = lit "\"Data\":" := by decide
    have c4 : ReplaceAllNewline (lit ",\"Entities\":[") = lit ",\"Entities\":[" := by decide
    have c5 : ReplaceAllNewline (lit "],\"Relations\":[") = lit "],\"Relations\":[" := by decide
    have c6 : ReplaceAllNewline (if isTestFile = true then lit "\"test\":true," else []) =
        (if isTestFile = true then lit "\"test\":true," else []) := by
      cases isTestFile <;> decide
    simp only [acharyaRecord, ReplaceAllNewline_append, ReplaceAllNewline_commaSep, hj, c1, c2,
      c3, c4, c5, c6, List.map_map, List.append_assoc]
    have e1 : (ReplaceAllNewline ∘ fun v : NumberAcharyaEntity =>
        tupleText v.Entity.Begin v.Entity.End v.Entity.Name) = entityTuple := by
      funext v
      simp only [Function.comp, ReplaceAllNewline_tupleText, entityTuple]
    have e2 : (ReplaceAllNewline ∘ fun v : NumberCustomRelation =>
        objectText v.Entity.BeginHead v.Entity.EndHead v.Entity.BeginTail v.Entity.EndTail
          v.Entity.Name) = relationObject := by
      funext v
      simp only [Function.comp, ReplaceAllNewline_objectText, relationObject]
    rw [e1, e2]

theorem GenerateAcharyaAndStandoff_ok (tData : GoString) (visit : List NumberAcharyaEntity)
    (rels : List NumberCustomRelation) (article_id : GoString) (isTestFile : Bool)
    (h : ∀ v ∈ visit, ∃ str, GetSubString tData v.Entity.Begin v.Entity.End = .ok str) :
    ∃ standoff, GenerateAcharyaAndStandoff tData visit rels article_id isTestFile =
      .ok (acharyaRecord tData visit rels article_id isTestFile, standoff) := by
  have hex : ∃ a s, GenerateAcharyaAndStandoff tData visit rels article_id isTestFile =
      .ok (a, s) := by
    unfold GenerateAcharyaAndStandoff
    simp only
    obtain ⟨s1, a1, h1⟩ := GenerateAcharyaAndStandoff.entities_ok tData visit []
      (lit "\x7b\"id\":\"" ++ article_id ++ lit "\"," ++
        (if isTestFile = true then lit "\"test\":true," else []) ++ lit "\"Data\":" ++
        jsonMarshal tData ++ lit ",\"Entities\":[") h
    rw [h1]
    exact ⟨_, _, rfl⟩
  obtain ⟨a, s, has⟩ := hex
  have := GenerateAcharyaAndStandoff_acharya _ _ _ _ _ _ _ has
  rw [this] at has
  exact ⟨s, has⟩

/-! The recursions bounded by a counter have counter enough: a larger one gives
the same result. -/

theorem natToDec_go_fuel (fuel m n : Nat) (acc : GoString) (hf : n < fuel) (hm : n < m) :
    natToDec.go fuel n acc = natToDec.go m n acc := by
  induction fuel generalizing m n acc with
  | zero => omega
  | succ fuel ih =>
    cases m with
    | zero => omega
    | succ m =>
      unfold natToDec.go
      split
      · rfl
      · exact ih m (n / 10) _ (by omega) (by omega)

theorem jsonString_go_fuel (n m : Nat) (s dst : GoString) (hn : s.length ≤ n)
    (hm : s.length ≤ m) : jsonString.go n s dst = jsonString.go m s dst := by
  induction n generalizing m s dst with
  | zero =>
    have : s = [] := List.length_eq_zero.mp (by omega)
    subst this
    cases m <;> simp [jsonString.go]
  | succ n ih =>
    cases s with
    | nil => cases m <;> simp [jsonString.go]
    | cons b t =>
      cases m with
      | zero => simp at hm
      | succ m =>
        have hp := DecodeRuneInString_width_pos (b :: t) (by simp)
        simp only [List.length_cons] at hn hm
        have h1 : ∀ d, jsonString.go n t d = jsonString.go m t d :=
          fun d => ih m t d (by omega) (by omega)
        have h2 : ∀ d, jsonString.go n ((b :: t).drop (DecodeRuneInString (b :: t)).2) d =
            jsonString.go m ((b :: t).drop (DecodeRuneInString (b :: t)).2) d :=
          fun d => ih m _ d (by simp only [List.length_drop, List.length_cons]; omega)
            (by simp only [List.length_drop, List.length_cons]; omega)
        simp only [jsonString.go, h1, h2]

theorem TrimLeftSpace_go_fuel (n m : Nat) (s : GoString) (hn : s.length ≤ n)
    (hm : s.length ≤ m) : TrimLeftSpace.go n s = TrimLeftSpace.go m s := by
  induction n generalizing m s with
  | zero =>
    have : s = [] := List.length_eq_zero.mp (by omega)
    subst this
    cases m <;> simp [TrimLeftSpace.go]
  | succ n ih =>
    cases s with
    | nil => cases m <;> simp [TrimLeftSpace.go]
    | cons b t =>
      cases m with
      | zero => simp at hm
      | succ m =>
        have hp := DecodeRuneInString_width_pos (b :: t) (by simp)
        simp only [List.length_cons] at hn hm
        simp only [TrimLeftSpace.go]
        rw [ih m _ (by simp only [List.length_drop, List.length_cons]; omega)
          (by simp only [List.length_drop, List.length_cons]; omega)]

theorem DecodeLastRuneInString_width_pos (s : GoString) (h : s ≠ []) :
    1 ≤ (DecodeLastRuneInString s).2 := by
  have hl : 0 < s.length := List.length_pos.mpr h
  have key : ∀ start : Nat, start < s.length →
      1 ≤ (if start + (DecodeRuneInString (s.drop start)).2 ≠ s.length then (RuneError, 1)
        else DecodeRuneInString (s.drop start)).2 := by
    intro start hs
    split
    · simp
    · apply DecodeRuneInString_width_pos
      intro hd
      have := congrArg List.length hd
      simp only [List.length_drop, List.length_nil] at this
      omega
  unfold DecodeLastRuneInString
  simp only
  rw [if_neg (by omega)]
  split
  · simp
  · apply key
    split_ifs <;> omega

theorem TrimRightSpace_go_fuel (s : GoString) (n m i : Nat) (hn : i ≤ n) (hm : i ≤ m)
    (hi : i ≤ s.length) : TrimRightSpace.go s n i = TrimRightSpace.go s m i := by
  induction n generalizing m i with
  | zero =>
    have : i = 0 := by omega
    subst this
    cases m <;> simp [TrimRightSpace.go]
  | succ n ih =>
    cases m with
    | zero =>
      have : i = 0 := by omega
      subst this
      simp [TrimRightSpace.go]
    | succ m =>
      unfold TrimRightSpace.go
      by_cases h0 : i = 0
      · simp [h0]
      · have hne : s.take i ≠ [] := by
          intro h
          have := congrArg List.length h
          simp only [List.length_take, List.length_nil] at this
          omega
        have hp := DecodeLastRuneInString_width_pos (s.take i) hne
        simp only [h0, if_false]
        rw [ih m _ (by omega) (by omega) (by omega)]

theorem GetSubString_scenario_John : GetSubString scenarioText 0 4 = .ok (lit "John") := by
  rw [GetSubString_logical scenarioText 0 4 (by decide) (by decide) (by decide)]
  exact congrArg Except.ok (by decide)

set_option maxRecDepth 100000 in
theorem GenerateAcharyaAndStandoff_scenario :
    GenerateAcharyaAndStandoff scenarioText [⟨1, ⟨0, 4, lit "PERSON"⟩⟩]
        [⟨1, ⟨1, 0, 4, 2, 0, 0, lit "works_for"⟩⟩] (lit "doc") false =
      .ok (lit "\x7b\"id\":\"doc\",\"Data\":\"John works for IBM\",\"Entities\":[[0,4,\"PERSON\"]],\"Relations\":[\x7b\"head\":[0,4],\"tail\":[0,0],\"name\":\"works_for\"\x7d]\x7d\n",
        lit "T1\tPERSON 0 4\tJohn\nR1\tworks_for Arg1:T1 Arg2:T2\t") := by
  unfold GenerateAcharyaAndStandoff
  simp only [GenerateAcharyaAndStandoff.entities, GetSubString_scenario_John]
  exact congrArg Except.ok (by decide)

theorem GenerateAcharyaAndStandoff.entities_error_iff (tData : GoString)
    (es : List NumberAcharyaEntity) (standoff acharya : GoString) :
    (∃ err, GenerateAcharyaAndStandoff.entities tData es standoff acharya = .error err) ↔
      ∃ v ∈ es, ∃ err, GetSubString tData v.Entity.Begin v.Entity.End = .error err := by
  induction es generalizing standoff acharya with
  | nil => simp [GenerateAcharyaAndStandoff.entities]
  | cons v rest ih =>
    unfold GenerateAcharyaAndStandoff.entities
    cases hg : GetSubString tData v.Entity.Begin v.Entity.End with
    | error err =>
      simp only [List.mem_cons, exists_eq_or_imp]
      constructor
      · intro _; exact Or.inl ⟨err, hg⟩
      · intro _; exact ⟨err, rfl⟩
    | ok str =>
      simp only [ih, List.mem_cons, exists_eq_or_imp, hg]
      constructor
      · intro h; exact Or.inr h
      · rintro (⟨e, he⟩ | h)
        · cases he
        · exact h

theorem GenerateAcharyaAndStandoff_error_iff (tData : GoString)
    (visit : List NumberAcharyaEntity) (rels : List NumberCustomRelation) (article_id : GoString)
    (isTestFile : Bool) :
    (∃ err, GenerateAcharyaAndStandoff tData visit rels article_id isTestFile = .error err) ↔
      ∃ v ∈ visit, ∃ err, GetSubString tData v.Entity.Begin v.Entity.End = .error err := by
  rw [← GenerateAcharyaAndStandoff.entities_error_iff tData visit []
    (lit "\x7b\"id\":\"" ++ article_id ++ lit "\"," ++
      (if isTestFile = true then lit "\"test\":true," else []) ++ lit "\"Data\":" ++
      jsonMarshal tData ++ lit ",\"Entities\":[")]
  unfold GenerateAcharyaAndStandoff
  simp only
  split
  · rename_i err hent
    exact ⟨fun _ => ⟨err, hent⟩, fun _ => ⟨err, rfl⟩⟩
  · rename_i s1 a1 hent
    constructor
    · rintro ⟨e, he⟩
      cases he
    · rintro ⟨e, he⟩
      rw [hent] at he
      cases he

theorem GetSubString_error_iff (originalString : GoString) (startPos endPos : Int) :
    (∃ err, GetSubString originalString startPos endPos = .error err) ↔
      (startPos < 0 ∨ endPos < startPos ∨ endPos > originalString.length) := by
  unfold GetSubString
  by_cases h1 : startPos < 0
  · simp [h1]
  · by_cases h2 : endPos < startPos
    · simp [h1, h2]
    · by_cases h3 : endPos > originalString.length
      · simp [h1, h2, h3]
      · simp [h1, h2, h3]

theorem GenerateAcharyaAndStandoff_newline (tData : GoString)
    (visit : List NumberAcharyaEntity) (rels : List NumberCustomRelation) (article_id : GoString)
    (isTestFile : Bool) (acharya standoff : GoString)
    (h : GenerateAcharyaAndStandoff tData visit rels article_id isTestFile =
      .ok (acharya, standoff)) :
    ∃ raw, acharya = (ReplaceAllNewline raw ++ lit "]\x7d") ++ [10] := by
  unfold GenerateAcharyaAndStandoff at h
  simp only at h
  split at h
  · simp at h
  · rename_i standoff1 acharya1 hent
    simp only [Except.ok.injEq, Prod.mk.injEq] at h
    refine ⟨TrimSuffix (GenerateAcharyaAndStandoff.relations rels standoff1
      (TrimSuffix acharya1 (lit ",") ++ lit "],\"Relations\":[")).2 (lit ","), ?_⟩
    rw [← h.1]
    have : lit "]\x7d\n" = lit "]\x7d" ++ [10] := by decide
    rw [this, List.append_assoc]

theorem GenNumberEntityMap.loop_error_of_mem (w : StringSet) (text : GoString)
    (hbody : ∀ m, ∃ err, (GenNumberEntityMap.body w text m).2 = some err)
    (lines : List GoString) (hmem : text ∈ lines) (m : EntityMap) :
    ∃ err, (GenNumberEntityMap.loop w lines m).2 = some err := by
  induction lines generalizing m with
  | nil => simp at hmem
  | cons l rest ih =>
    rcases hb : GenNumberEntityMap.body w l m with ⟨m1, _ | err⟩
    · rw [GenNumberEntityMap.loop_cons_ok w l rest m m1 hb]
      rcases List.mem_cons.mp hmem with h | h
      · obtain ⟨err, herr⟩ := hbody m
        rw [h, hb] at herr
        simp at herr
      · exact ih h m1
    · rw [GenNumberEntityMap.loop_cons_err w l rest m m1 err hb]
      exact ⟨err, rfl⟩

theorem Atoi_not_integer (s : GoString) (h : ¬ IsDecimalInteger s) :
    ∃ err, (Atoi s).2 = some err := by
  unfold IsDecimalInteger at h
  unfold Atoi
  have hb : (if s.head? = some 45 ∨ s.head? = some 43 then s.drop 1 else s) =
      (if s.head? = some 43 ∨ s.head? = some 45 then s.drop 1 else s) := by
    by_cases h1 : s.head? = some 45 <;> by_cases h2 : s.head? = some 43 <;> simp [h1, h2]
  simp only [hb]
  generalize (if s.head? = some 43 ∨ s.head? = some 45 then s.drop 1 else s) = body at h ⊢
  by_cases hc : body = [] ∨ body.all isDigit = false
  · rw [if_pos hc]
    split <;> exact ⟨_, rfl⟩
  · exfalso
    apply h
    simp only [not_or, Bool.not_eq_false] at hc
    exact ⟨hc.1, fun b hb => (List.all_eq_true.mp hc.2) b hb⟩

theorem GenNumberEntityMap.body_bad_fields (w : StringSet) (text : GoString) (m : EntityMap)
    (hT : HasPrefix text (lit "T") = true)
    (hbad : (Split text 9).length ≠ 3 ∨ (Split ((Split text 9).getD 1 []) 32).length ≠ 3) :
    ∃ err, (GenNumberEntityMap.body w text m).2 = some err := by
  unfold GenNumberEntityMap.body
  by_cases h3 : (Split text 9).length = 3
  · by_cases hc : Contains ((Split text 9).getD 1 []) (lit ";") = true
    · simp only [hT, h3, hc, ↓reduceIte]; exact ⟨_, rfl⟩
    · have h33 : ¬ (Split ((Split text 9).getD 1 []) 32).length = 3 := by
        rcases hbad with h | h
        · exact absurd h3 h
        · exact h
      simp only [hT, h3, hc, h33, ↓reduceIte]; exact ⟨_, rfl⟩
  · simp only [hT, h3, ↓reduceIte]; exact ⟨_, rfl⟩

theorem GenNumberEntityMap.body_bad_numbers (w : StringSet) (text : GoString) (m : EntityMap)
    (hT : HasPrefix text (lit "T") = true) (h3 : (Split text 9).length = 3)
    (h33 : (Split ((Split text 9).getD 1 []) 32).length = 3)
    (hw : w.get (TrimSpace ((Split ((Split text 9).getD 1 []) 32).getD 0 [])) = true)
    (hbad : ((Split text 9).getD 0 []).length ≤ 1 ∨
      ¬ IsDecimalInteger ((Split ((Split text 9).getD 1 []) 32).getD 1 []) ∨
      ¬ IsDecimalInteger ((Split ((Split text 9).getD 1 []) 32).getD 2 [])) :
    ∃ err, (GenNumberEntityMap.body w text m).2 = some err := by
  unfold GenNumberEntityMap.body
  by_cases hc : Contains ((Split text 9).getD 1 []) (lit ";") = true
  · simp only [hT, h3, hc, ↓reduceIte]; exact ⟨_, rfl⟩
  · rcases hb : Atoi ((Split ((Split text 9).getD 1 []) 32).getD 1 []) with ⟨b, _ | eb⟩
    · rcases he : Atoi ((Split ((Split text 9).getD 1 []) 32).getD 2 []) with ⟨e, _ | ee⟩
      · rcases hn : GetTextAnnNum text with ⟨n, _ | en⟩
        · exfalso
          rcases hbad with h | h | h
          · unfold GetTextAnnNum at hn
            have hl : ¬ ((Split text 9).getD 0 []).length > 1 := by omega
            simp only [hl, ↓reduceIte] at hn
            split at hn <;> simp at hn
          · obtain ⟨err, herr⟩ := Atoi_not_integer _ h
            rw [hb] at herr
            simp at herr
          · obtain ⟨err, herr⟩ := Atoi_not_integer _ h
            rw [he] at herr
            simp at herr
        · simp only [hT, h3, hc, h33, hw, hb, he, hn, ↓reduceIte]; exact ⟨_, rfl⟩
      · simp only [hT, h3, hc, h33, hw, hb, he, ↓reduceIte]; exact ⟨_, rfl⟩
    · simp only [hT, h3, hc, h33, hw, hb, ↓reduceIte]; exact ⟨_, rfl⟩

theorem EntityMap.mem_keys_set (m : EntityMap) (k : Int) (v : NumberAcharyaEntity) (x : Int) :
    x ∈ (m.set k v).map Prod.fst ↔ x ∈ m.map Prod.fst ∨ x = k := by
  induction m with
  | nil => simp [EntityMap.set]
  | cons e t ih =>
    obtain ⟨k1, v1⟩ := e
    unfold EntityMap.set
    by_cases hk : k1 = k
    · simp only [hk, if_true, List.map_cons, List.mem_cons]
      tauto
    · simp only [hk, if_false, List.map_cons, List.mem_cons, ih]
      tauto

theorem EntityMap.nodup_keys_set (m : EntityMap) (k : Int) (v : NumberAcharyaEntity)
    (h : (m.map Prod.fst).Nodup) : ((m.set k v).map Prod.fst).Nodup := by
  induction m with
  | nil => simp [EntityMap.set]
  | cons e t ih =>
    obtain ⟨k1, v1⟩ := e
    simp only [List.map_cons, List.nodup_cons] at h
    unfold EntityMap.set
    by_cases hk : k1 = k
    · simp only [hk, if_true, List.map_cons, List.nodup_cons]
      rw [← hk]
      exact h
    · simp only [hk, if_false, List.map_cons, List.nodup_cons]
      refine ⟨?_, ih h.2⟩
      rw [EntityMap.mem_keys_set]
      rintro (h1 | h1)
      · exact h.1 h1
      · exact hk h1

theorem GenNumberEntityMap.body_ok (w : StringSet) (text : GoString) (m m1 : EntityMap)
    (h : GenNumberEntityMap.body w text m = (m1, none)) :
    (whitelistedRecord w text = true ∧
        ∃ b e, m1 = m.set (recordNumber text) ⟨recordNumber text, ⟨b, e, recordType text⟩⟩) ∨
      (whitelistedRecord w text = false ∧ m1 = m) := by
  unfold GenNumberEntityMap.body at h
  unfold whitelistedRecord recordType recordNumber
  by_cases hp : HasPrefix text (lit "T") = true
  · by_cases h3 : (Split text 9).length = 3
    · by_cases hc : Contains ((Split text 9).getD 1 []) (lit ";") = true
      · simp only [hp, h3, hc, Bool.false_eq_true, ↓reduceIte, Prod.mk.injEq] at h
        exact absurd h.2 (by simp)
      · by_cases h33 : (Split ((Split text 9).getD 1 []) 32).length = 3
        · by_cases hw : w.get (TrimSpace ((Split ((Split text 9).getD 1 []) 32).getD 0 [])) = true
          · rcases hb : Atoi ((Split ((Split text 9).getD 1 []) 32).getD 1 []) with ⟨b, _ | eb⟩
            · rcases he : Atoi ((Split ((Split text 9).getD 1 []) 32).getD 2 []) with ⟨e, _ | ee⟩
              · rcases hn : GetTextAnnNum text with ⟨n, _ | en⟩
                · simp only [hp, h3, hc, h33, hw, hb, he, hn, Bool.false_eq_true, ↓reduceIte, Prod.mk.injEq,
                    and_true] at h
                  left
                  exact ⟨by rw [hp, hw]; rfl, b, e, h.symm⟩
                · simp only [hp, h3, hc, h33, hw, hb, he, hn, Bool.false_eq_true, ↓reduceIte, Prod.mk.injEq] at h
                  exact absurd h.2 (by simp)
              · simp only [hp, h3, hc, h33, hw, hb, he, Bool.false_eq_true, ↓reduceIte, Prod.mk.injEq] at h
                exact absurd h.2 (by simp)
            · simp only [hp, h3, hc, h33, hw, hb, Bool.false_eq_true, ↓reduceIte, Prod.mk.injEq] at h
              exact absurd h.2 (by simp)
          · simp only [hp, h3, hc, h33, hw, Bool.false_eq_true, ↓reduceIte, Prod.mk.injEq, and_true] at h
            right
            exact ⟨by rw [hp, Bool.eq_false_iff.mpr hw]; rfl, h.symm⟩
        · simp only [hp, h3, hc, h33, Bool.false_eq_true, ↓reduceIte, Prod.mk.injEq] at h
          exact absurd h.2 (by simp)
    · simp only [hp, h3, Bool.false_eq_true, ↓reduceIte, Prod.mk.injEq] at h
      exact absurd h.2 (by simp)
  · simp only [hp, Bool.false_eq_true, ↓reduceIte, Prod.mk.injEq, and_true] at h
    right
    exact ⟨by rw [Bool.eq_false_iff.mpr hp]; rfl, h.symm⟩

theorem GenNumberEntityMap.loop_keys (w : StringSet) (lines : List GoString) (m m1 : EntityMap)
    (hm : (m.map Prod.fst).Nodup) (h : GenNumberEntityMap.loop w lines m = (m1, none)) :
    (m1.map Prod.fst).Nodup ∧ ∀ x, x ∈ m1.map Prod.fst ↔
      (x ∈ m.map Prod.fst ∨ x ∈ (lines.filter (whitelistedRecord w)).map recordNumber) := by
  induction lines generalizing m with
  | nil =>
    simp only [GenNumberEntityMap.loop, Prod.mk.injEq, and_true] at h
    subst h
    simp [hm]
  | cons text rest ih =>
    rcases hb : GenNumberEntityMap.body w text m with ⟨m2, _ | err⟩
    · rw [GenNumberEntityMap.loop_cons_ok w text rest m m2 hb] at h
      rcases GenNumberEntityMap.body_ok w text m m2 hb with ⟨hacc, b, e, hset⟩ | ⟨hacc, hset⟩
      · have hm2 : (m2.map Prod.fst).Nodup := by
          rw [hset]; exact EntityMap.nodup_keys_set m _ _ hm
        obtain ⟨hn, hmem⟩ := ih m2 hm2 h
        refine ⟨hn, fun x => ?_⟩
        rw [hmem, hset, EntityMap.mem_keys_set]
        simp only [List.filter_cons, hacc, if_true, List.map_cons, List.mem_cons]
        tauto
      · subst hset
        obtain ⟨hn, hmem⟩ := ih m2 hm h
        refine ⟨hn, fun x => ?_⟩
        rw [hmem]
        simp [List.filter_cons, hacc]
    · rw [GenNumberEntityMap.loop_cons_err w text rest m m2 err hb] at h
      simp at h

theorem StringSet_mem_set (m : StringSet) (k x : GoString) :
    x ∈ m.set k ↔ x ∈ m ∨ x = k := by
  unfold StringSet.set
  by_cases h : m.contains k = true
  · simp only [h, if_true]
    have hk : k ∈ m := by simpa using h
    constructor
    · exact Or.inl
    · rintro (h1 | h1)
      · exact h1
      · rw [h1]; exact hk
  · simp only [h, if_false, List.mem_append, List.mem_singleton, Bool.false_eq_true]

theorem StringSet.nodup_set (m : StringSet) (k : GoString) (h : m.Nodup) : (m.set k).Nodup := by
  unfold StringSet.set
  by_cases hc : m.contains k = true
  · simp only [hc, if_true]; exact h
  · simp only [hc, if_false, Bool.false_eq_true]
    have hk : k ∉ m := by simpa using hc
    rw [List.nodup_append]
    refine ⟨h, by simp, ?_⟩
    intro a ha hb
    simp only [List.mem_singleton] at hb
    subst hb
    exact hk ha

theorem DecodeLastRuneInString_space_lt (b : Nat) (t : GoString) (hb : b < 0x80)
    (hs : IsSpace b = false)
    (hsp : IsSpace (DecodeLastRuneInString (b :: t)).1 = true) :
    (DecodeLastRuneInString (b :: t)).2 < (b :: t).length := by
  have key : ∀ start : Nat,
      IsSpace (if start + (DecodeRuneInString ((b :: t).drop start)).2 ≠ (b :: t).length then
        (RuneError, 1) else DecodeRuneInString ((b :: t).drop start)).1 = true →
      (if start + (DecodeRuneInString ((b :: t).drop start)).2 ≠ (b :: t).length then
        (RuneError, 1) else DecodeRuneInString ((b :: t).drop start)).2 < (b :: t).length := by
    intro start
    split
    · intro h
      have : IsSpace RuneError = false := by decide
      simp only [this] at h
      exact absurd h (by simp)
    · rename_i heq
      simp only [ne_eq, not_not] at heq
      intro h
      cases start with
      | zero =>
        have hd : DecodeRuneInString (b :: t) = (b, 1) := by
          simp [DecodeRuneInString, hb]
        simp only [List.drop_zero, hd, hs] at h
        exact absurd h (by simp)
      | succ k => omega
  unfold DecodeLastRuneInString at hsp ⊢
  simp only at hsp ⊢
  rw [if_neg (by simp)] at hsp ⊢
  split at hsp
  · rename_i hlast
    rw [if_pos hlast]
    simp only
    cases t with
    | nil =>
      simp only [List.length_cons, List.length_nil, zero_add, Nat.sub_self, List.getD_cons_zero,
        hs] at hsp
      exact absurd hsp (by simp)
    | cons c t => simp
  · rename_i hlast
    rw [if_neg hlast]
    exact key _ hsp

theorem TrimRightSpace.go_ne_nil (b : Nat) (t : GoString) (hb : b < 0x80)
    (hs : IsSpace b = false) (n i : Nat) (hi1 : 1 ≤ i) (hin : i ≤ n)
    (hil : i ≤ (b :: t).length) : TrimRightSpace.go (b :: t) n i ≠ [] := by
  induction n generalizing i with
  | zero => omega
  | succ n ih =>
    unfold TrimRightSpace.go
    rw [if_neg (by omega)]
    simp only
    have htake : (b :: t).take i = b :: t.take (i - 1) := by
      cases i with
      | zero => omega
      | succ k => simp
    have hpos := DecodeLastRuneInString_width_pos ((b :: t).take i) (by rw [htake]; simp)
    split
    · rename_i hsp
      have hlt := DecodeLastRuneInString_space_lt b (t.take (i - 1)) hb hs (by rw [← htake]; exact hsp)
      rw [← htake] at hlt
      have hlen : ((b :: t).take i).length = i := by
        rw [List.length_take]; omega
      rw [hlen] at hlt
      exact ih _ (by omega) (by omega) (by omega)
    · split
      · intro h
        have := congrArg List.length h
        have hj : i - (DecodeLastRuneInString ((b :: t).take i)).2 < (b :: t).length := by omega
        have hw := DecodeRuneInString_width_pos
          ((b :: t).drop (i - (DecodeLastRuneInString ((b :: t).take i)).2))
          (by
            intro hd
            have := congrArg List.length hd
            simp only [List.length_drop, List.length_nil] at this
            omega)
        simp only [List.length_take, List.length_nil] at this
        omega
      · intro h
        have := congrArg List.length h
        simp only [List.length_take, List.length_nil, List.length_cons] at this
        omega

theorem header_not_blank (l : GoString) (h : HasPrefix l (lit "[") = true) :
    isBlankLine l = false := by
  have hl := HasPrefix_eq_append l (lit "[") h
  have h91 : lit "[" = [91] := by decide
  rw [h91] at hl
  simp only [List.singleton_append, List.length_singleton] at hl
  generalize l.drop 1 = t at hl
  subst hl
  have hleft : TrimLeftSpace (91 :: t) = 91 :: t := by
    simp [TrimLeftSpace, TrimLeftSpace.go, DecodeRuneInString, IsSpace]
  unfold isBlankLine TrimSpace
  rw [hleft]
  have := TrimRightSpace.go_ne_nil 91 t (by decide) (by decide) (91 :: t).length (91 :: t).length
    (by simp) (le_refl _) (le_refl _)
  unfold TrimRightSpace
  cases hr : TrimRightSpace.go (91 :: t) (91 :: t).length (91 :: t).length with
  | nil => exact absurd hr this
  | cons c r => simp

theorem GetEntitiesFromFile.loop_started (lines : List GoString) (acc : StringSet) (x : GoString) :
    x ∈ GetEntitiesFromFile.loop lines true acc ↔
      x ∈ acc ∨ x ∈ ((lines.takeWhile
        (fun l => !(HasPrefix l (lit "[") && !isEntitiesMarker l))).filter
        (fun l => !isEntitiesMarker l && !isBlankLine l && !HasPrefix l (lit "#"))).map
        TrimSpace := by
  induction lines generalizing acc with
  | nil => simp [GetEntitiesFromFile.loop]
  | cons l rest ih =>
    unfold GetEntitiesFromFile.loop
    by_cases hm : Contains l (lit "[entities]") = true
    · have hm2 : isEntitiesMarker l = true := hm
      simp only [hm, if_true, ih, List.takeWhile_cons, hm2, Bool.not_true, Bool.and_false,
        Bool.not_false, List.filter_cons, Bool.false_and, Bool.false_eq_true, if_false]
    · have hm2 : isEntitiesMarker l = false := by
        simpa [isEntitiesMarker] using hm
      simp only [hm, if_false, if_true, Bool.false_eq_true]
      by_cases hb : (TrimSpace l).length = 0
      · have hb2 : isBlankLine l = true := by simp [isBlankLine, hb]
        have hh : HasPrefix l (lit "[") = false := by
          cases hp : HasPrefix l (lit "[") with
          | false => rfl
          | true =>
            have := header_not_blank l hp
            rw [hb2] at this
            cases this
        simp only [hb, if_true, ih, List.takeWhile_cons, hm2, hh, hb2, Bool.not_true,
          Bool.not_false, Bool.and_false, Bool.false_and, Bool.and_true, Bool.true_and,
          List.filter_cons, Bool.false_eq_true, if_false]
      · have hb2 : isBlankLine l = false := by simp [isBlankLine, hb]
        by_cases hh : HasPrefix l (lit "[") = true
        · simp only [hb, if_false, hh, if_true, List.takeWhile_cons, hm2, Bool.not_false,
            Bool.and_true, Bool.not_true, Bool.false_eq_true, List.filter_nil, List.map_nil,
            List.not_mem_nil, or_false]
        · have hh2 : HasPrefix l (lit "[") = false := by simpa using hh
          by_cases hc : HasPrefix l (lit "#") = true
          · simp only [hb, if_false, hh2, Bool.false_eq_true, hc, if_true, ih,
              List.takeWhile_cons, hm2, Bool.not_false, Bool.and_true, Bool.false_and,
              Bool.not_true, Bool.and_false, List.filter_cons]
          · have hc2 : HasPrefix l (lit "#") = false := by simpa using hc
            simp only [hb, if_false, hh2, Bool.false_eq_true, hc2, ih, StringSet_mem_set,
              List.takeWhile_cons, hm2, hb2, Bool.not_false, Bool.and_true, Bool.false_and,
              if_true, List.filter_cons, Bool.and_self, List.map_cons, List.mem_cons]
            tauto

theorem GetEntitiesFromFile.loop_not_started (lines : List GoString) (acc : StringSet)
    (x : GoString) :
    x ∈ GetEntitiesFromFile.loop lines false acc ↔ x ∈ acc ∨ x ∈ entityNames lines := by
  induction lines generalizing acc with
  | nil => simp [GetEntitiesFromFile.loop, entityNames, entitySection]
  | cons l rest ih =>
    unfold GetEntitiesFromFile.loop
    by_cases hm : Contains l (lit "[entities]") = true
    · have hm2 : isEntitiesMarker l = true := hm
      simp only [hm, if_true, GetEntitiesFromFile.loop_started, entityNames, entitySection,
        List.dropWhile_cons, hm2, Bool.not_true, Bool.false_eq_true, if_false, List.drop_succ_cons,
        List.drop_zero]
    · have hm2 : isEntitiesMarker l = false := by
        simpa [isEntitiesMarker] using hm
      simp only [hm, if_false, Bool.false_eq_true, ih, entityNames, entitySection,
        List.dropWhile_cons, hm2, Bool.not_false, if_true]

theorem GetEntitiesFromFile.loop_nodup (lines : List GoString) (started : Bool) (acc : StringSet)
    (h : acc.Nodup) : (GetEntitiesFromFile.loop lines started acc).Nodup := by
  induction lines generalizing started acc with
  | nil => simpa [GetEntitiesFromFile.loop] using h
  | cons l rest ih =>
    unfold GetEntitiesFromFile.loop
    split
    · exact ih _ _ h
    · split
      · split
        · exact ih _ _ h
        · split
          · exact h
          · split
            · exact ih _ _ h
            · exact ih _ _ (StringSet.nodup_set _ _ h)
      · exact ih _ _ h

theorem handleMain.loop_ok (w : World) (entities relations : StringSet)
    (textMult : List GoString) (i : Nat) (annMult : List GoString) (acc : GoString)
    (records : List GoString)
    (h : (annMult.enumFrom i).map (fun p =>
      handleMain.document w entities relations p.1 p.2 (textMult.get? p.1)) =
        records.map Except.ok) :
    handleMain.loop w entities relations textMult i annMult acc = .ok (acc ++ records.flatten) := by
  induction annMult generalizing i acc records with
  | nil =>
    have : records = [] := by
      simpa using h.symm
    subst this
    simp [handleMain.loop]
  | cons ann rest ih =>
    cases records with
    | nil => simp at h
    | cons r rs =>
      simp only [List.enumFrom_cons, List.map_cons, List.cons.injEq] at h
      unfold handleMain.loop
      rw [h.1]
      simp only
      rw [ih (i + 1) (acc ++ r) rs h.2]
      simp

theorem handleMain.loop_error (w : World) (entities relations : StringSet)
    (textMult : List GoString) (i : Nat) (annMult : List GoString) (acc : GoString)
    (finished : List GoString) (err : Err) (rest : List (Except Err GoString))
    (h : (annMult.enumFrom i).map (fun p =>
      handleMain.document w entities relations p.1 p.2 (textMult.get? p.1)) =
        finished.map Except.ok ++ Except.error err :: rest) :
    handleMain.loop w entities relations textMult i annMult acc = .error err := by
  induction annMult generalizing i acc finished with
  | nil => simp at h
  | cons ann tail ih =>
    simp only [List.enumFrom_cons, List.map_cons] at h
    unfold handleMain.loop
    cases finished with
    | nil =>
      simp only [List.map_nil, List.nil_append, List.cons.injEq] at h
      rw [h.1]
    | cons r rs =>
      simp only [List.map_cons, List.cons_append, List.cons.injEq] at h
      rw [h.1]
      simp only
      exact ih (i + 1) (acc ++ r) rs h.2

theorem handleMain.document_newline (w : World) (entities relations : StringSet) (i : Nat)
    (ann : GoString) (txt : Option GoString) (acharya : GoString)
    (h : handleMain.document w entities relations i ann txt = .ok acharya) :
    ∃ body, acharya = body ++ [10] := by
  unfold handleMain.document at h
  simp only at h
  split at h
  · cases h
  · split at h
    · cases h
    · split at h
      · cases h
      · split at h
        · cases h
        · split at h
          · cases h
          · split at h
            · cases h
            · rename_i a s hg
              simp only [Except.ok.injEq] at h
              subst h
              obtain ⟨raw, hraw⟩ := GenerateAcharyaAndStandoff_newline _ _ _ _ _ _ _ hg
              exact ⟨_, hraw⟩

theorem flatten_ends_newline (records : List GoString) (hne : records ≠ [])
    (h : ∀ r ∈ records, ∃ body, r = body ++ [10]) :
    ∃ body, records.flatten = body ++ [10] := by
  induction records with
  | nil => exact absurd rfl hne
  | cons r rs ih =>
    cases rs with
    | nil =>
      obtain ⟨b, hb⟩ := h r (List.mem_cons_self _ _)
      exact ⟨b, by simp [hb]⟩
    | cons r2 rs =>
      obtain ⟨b, hb⟩ := ih (by simp) (fun x hx => h x (List.mem_cons_of_mem _ hx))
      refine ⟨r ++ b, ?_⟩
      rw [List.flatten_cons, hb, List.append_assoc]

theorem handleMain.document_scenario (i : Nat) :
    handleMain.document scenarioWorld [lit "PERSON"] [] i (lit "d.ann") (some (lit "d.txt")) =
      .ok (acharyaRecord scenarioText [⟨1, ⟨0, 4, lit "PERSON"⟩⟩]
        [⟨1, ⟨1, 0, 4, 2, 0, 0, lit "works_for"⟩⟩] (lit "d") false) := by
  have h1 : scenarioWorld.readFile (TrimSpace (lit "d.ann")) = some scenarioAnn := by decide
  have h2 : scenarioWorld.readFile (TrimSpace (lit "d.txt")) = some scenarioText := by decide
  have h3 : GenNumberEntityMap [lit "PERSON"] scenarioAnn =
      ([(1, ⟨1, ⟨0, 4, lit "PERSON"⟩⟩)], none) := by decide
  have h4 : GenNumberRelationArr [] [(1, ⟨1, ⟨0, 4, lit "PERSON"⟩⟩)] scenarioAnn =
      ([⟨1, ⟨1, 0, 4, 2, 0, 0, lit "works_for"⟩⟩], none) := by decide
  have h5 : TrimSuffix (Base (lit "d.ann")) (Ext (Base (lit "d.ann"))) = lit "d" := by decide
  have h6 : HasPrefix (lit "d") (lit "t_") = false := by decide
  have h7 : scenarioWorld.rangeOrder i [(1, ⟨1, ⟨0, 4, lit "PERSON"⟩⟩)] =
      [⟨1, ⟨0, 4, lit "PERSON"⟩⟩] := rfl
  obtain ⟨standoff, hs⟩ := GenerateAcharyaAndStandoff_ok scenarioText
    [⟨1, ⟨0, 4, lit "PERSON"⟩⟩] [⟨1, ⟨1, 0, 4, 2, 0, 0, lit "works_for"⟩⟩] (lit "d") false
    (by
      intro v hv
      simp only [List.mem_singleton] at hv
      subst hv
      exact ⟨_, GetSubString_scenario_John⟩)
  unfold handleMain.document
  simp only [h1, h2, h3, h4, h5, h6, h7, hs]

theorem dropCR_subset (l : GoString) : ∀ b ∈ dropCR l, b ∈ l := by
  intro b hb
  unfold dropCR at hb
  split at hb
  · exact List.mem_of_mem_dropLast hb
  · exact hb

theorem scanLines_go_no_newline (s cur : GoString) (hc : ∀ b ∈ cur, b ≠ 10) :
    ∀ l ∈ scanLines.go s cur, ∀ b ∈ l, b ≠ 10 := by
  induction s generalizing cur with
  | nil =>
    intro l hl b hb
    rw [scanLines.go] at hl
    split at hl
    · simp at hl
    · simp only [List.mem_singleton] at hl
      subst hl
      exact hc b (dropCR_subset _ b hb)
  | cons x rest ih =>
    intro l hl b hb
    rw [scanLines.go] at hl
    by_cases hx : x = 10
    · rw [if_pos hx] at hl
      by_cases hlen : MaxScanTokenSize ≤ cur.length
      · rw [if_pos hlen] at hl
        simp at hl
      · rw [if_neg hlen] at hl
        simp only [List.mem_cons] at hl
        rcases hl with h | h
        · subst h
          exact hc b (dropCR_subset _ b hb)
        · exact ih [] (by simp) l h b hb
    · rw [if_neg hx] at hl
      refine ih (cur ++ [x]) ?_ l hl b hb
      intro y hy
      rcases List.mem_append.mp hy with h | h
      · exact hc y h
      · simp only [List.mem_singleton] at h
        rw [h]; exact hx

theorem scanLines_no_newline (s : GoString) : ∀ l ∈ scanLines s, ∀ b ∈ l, b ≠ 10 :=
  scanLines_go_no_newline s [] (by simp)

theorem scanLines.go_line (a cur : GoString) (ha : ∀ b ∈ a, b ≠ 10) :
    scanLines.go a cur =
      if cur ++ a = [] ∨ MaxScanTokenSize ≤ (cur ++ a).length then [] else [dropCR (cur ++ a)] := by
  induction a generalizing cur with
  | nil => simp [scanLines.go]
  | cons x rest ih =>
    have hx := ha x (List.mem_cons_self _ _)
    rw [scanLines.go, if_neg hx, ih (cur ++ [x]) (fun b hb => ha b (List.mem_cons_of_mem _ hb))]
    simp

theorem scanLines_single (s : GoString) (hne : s ≠ []) (hs : ∀ b ∈ s, b ≠ 10)
    (hlast : s.getLast? ≠ some 13) (hlen : s.length < MaxScanTokenSize) : scanLines s = [s] := by
  unfold scanLines
  rw [scanLines.go_line s [] hs]
  have hlen2 : ¬ MaxScanTokenSize ≤ s.length := by omega
  simp only [List.nil_append, hne, hlen2, or_self, if_false]
  unfold dropCR
  rw [if_neg hlast]

theorem Split.go_mem (sep : Nat) (s cur : GoString) (p : Nat → Prop)
    (hs : ∀ b ∈ s, p b) (hc : ∀ b ∈ cur, p b ∧ b ≠ sep) :
    ∀ f ∈ Split.go sep s cur, ∀ b ∈ f, p b ∧ b ≠ sep := by
  induction s generalizing cur with
  | nil =>
    intro f hf
    simp only [Split.go, List.mem_singleton] at hf
    subst hf
    exact hc
  | cons x rest ih =>
    intro f hf
    unfold Split.go at hf
    have hrest : ∀ b ∈ rest, p b := fun b hb => hs b (List.mem_cons_of_mem _ hb)
    split at hf
    · simp only [List.mem_cons] at hf
      rcases hf with h | h
      · subst h; exact hc
      · exact ih [] hrest (by simp) f h
    · rename_i hx
      refine ih (cur ++ [x]) hrest ?_ f hf
      intro y hy
      rcases List.mem_append.mp hy with h | h
      · exact hc y h
      · simp only [List.mem_singleton] at h
        rw [h]; exact ⟨hs x (List.mem_cons_self _ _), hx⟩

theorem Split_mem (s : GoString) (sep : Nat) (p : Nat → Prop) (hs : ∀ b ∈ s, p b) :
    ∀ f ∈ Split s sep, ∀ b ∈ f, p b ∧ b ≠ sep :=
  Split.go_mem sep s [] p hs (by simp)

theorem Split_getD_mem (s : GoString) (sep : Nat) (i : Nat) (p : Nat → Prop)
    (hs : ∀ b ∈ s, p b) : ∀ b ∈ (Split s sep).getD i [], p b ∧ b ≠ sep := by
  intro b hb
  by_cases hi : i < (Split s sep).length
  · rw [List.getD_eq_getElem _ _ hi] at hb
    exact Split_mem s sep p hs _ (List.getElem_mem hi) b hb
  · rw [List.getD_eq_default _ _ (by omega)] at hb
    simp at hb

theorem Split.go_cons (sep x : Nat) (r cur : GoString) :
    Split.go sep (x :: r) cur =
      if x = sep then cur :: Split.go sep r [] else Split.go sep r (cur ++ [x]) := rfl

theorem Split.go_append (sep : Nat) (a rest cur : GoString) (ha : ∀ b ∈ a, b ≠ sep) :
    Split.go sep (a ++ rest) cur = Split.go sep rest (cur ++ a) := by
  induction a generalizing cur with
  | nil => simp
  | cons x t ih =>
    have hx := ha x (List.mem_cons_self _ _)
    simp only [List.cons_append]
    rw [Split.go_cons, if_neg hx, ih (cur ++ [x]) (fun b hb => ha b (List.mem_cons_of_mem _ hb))]
    simp

theorem Split_append_sep (sep : Nat) (a rest : GoString) (ha : ∀ b ∈ a, b ≠ sep) :
    Split (a ++ sep :: rest) sep = a :: Split rest sep := by
  unfold Split
  rw [Split.go_append sep a _ [] ha, Split.go_cons]
  simp

theorem Split_no_sep (sep : Nat) (a : GoString) (ha : ∀ b ∈ a, b ≠ sep) : Split a sep = [a] := by
  unfold Split
  have := Split.go_append sep a [] [] ha
  simp only [List.append_nil, List.nil_append] at this
  rw [this]
  simp [Split.go]

theorem Contains_singleton (s : GoString) (c : Nat) : Contains s [c] = true ↔ c ∈ s := by
  induction s with
  | nil => simp [Contains, List.isPrefixOf]
  | cons x t ih =>
    unfold Contains
    simp only [Bool.or_eq_true, ih, List.mem_cons]
    have : List.isPrefixOf [c] (x :: t) = true ↔ c = x := by
      simp [List.isPrefixOf]
    rw [this]

theorem itoa_bytes (n : Int) : ∀ x ∈ itoa n, x = 45 ∨ (48 ≤ x ∧ x ≤ 57) := by
  intro x hx
  unfold itoa natToDec at hx
  split at hx
  · simp only [List.mem_cons] at hx
    rcases hx with h | h
    · exact Or.inl h
    · rcases natToDec.go_digits _ _ _ x h with h | h
      · simp at h
      · exact Or.inr h
  · rcases natToDec.go_digits _ _ _ x hx with h | h
    · simp at h
    · exact Or.inr h

theorem digitsVal_append (xs ys : GoString) :
    digitsVal (xs ++ ys) = digitsVal xs * 10 ^ ys.length + digitsVal ys := by
  unfold digitsVal
  rw [List.foldl_append]
  generalize List.foldl (fun n ch => n * 10 + (ch - 48)) 0 xs = a
  induction ys using List.reverseRecOn with
  | nil => simp
  | append_singleton t y ih =>
    rw [List.foldl_append, List.foldl_append]
    simp only [List.foldl_cons, List.foldl_nil, List.length_append, List.length_singleton]
    rw [ih, pow_succ]
    ring

theorem natToDec.go_spec (fuel n : Nat) (acc : GoString) (h : n < fuel) :
    ∃ ds, natToDec.go fuel n acc = ds ++ acc ∧ ds ≠ [] ∧ (∀ d ∈ ds, isDigit d = true) ∧
      digitsVal ds = n := by
  induction fuel generalizing n acc with
  | zero => omega
  | succ fuel ih =>
    unfold natToDec.go
    split
    · rename_i hlt
      refine ⟨[48 + n], rfl, by simp, ?_, ?_⟩
      · intro d hd
        simp only [List.mem_singleton] at hd
        subst hd
        simp only [isDigit, Bool.and_eq_true, decide_eq_true_eq]
        omega
      · simp [digitsVal]
    · rename_i hge
      obtain ⟨ds, hds, hne, hall, hval⟩ := ih (n / 10) ((48 + n % 10) :: acc) (by omega)
      refine ⟨ds ++ [48 + n % 10], ?_, by simp, ?_, ?_⟩
      · rw [hds]; simp
      · intro d hd
        rcases List.mem_append.mp hd with h1 | h1
        · exact hall d h1
        · simp only [List.mem_singleton] at h1
          subst h1
          simp only [isDigit, Bool.and_eq_true, decide_eq_true_eq]
          omega
      · rw [digitsVal_append, hval]
        simp only [List.length_singleton, pow_one, digitsVal, List.foldl_cons, List.foldl_nil,
          zero_mul, zero_add, Nat.add_sub_cancel_left]
        omega

theorem natToDec_spec (n : Nat) :
    natToDec n ≠ [] ∧ (∀ d ∈ natToDec n, isDigit d = true) ∧ digitsVal (natToDec n) = n := by
  obtain ⟨ds, hds, hne, hall, hval⟩ := natToDec.go_spec (n + 1) n [] (by omega)
  unfold natToDec
  rw [hds, List.append_nil]
  exact ⟨hne, hall, hval⟩

theorem Atoi_range (s : GoString) (v : Int) (h : Atoi s = (v, none)) :
    -(2 ^ 63) ≤ v ∧ v < 2 ^ 63 := by
  have key : ∀ (neg : Bool) (body : GoString),
      (if body = [] ∨ body.all isDigit = false then
          (if 2 ^ 64 ≤ digitsVal (body.takeWhile isDigit) then
            ((if neg then -(2 ^ 63) else 2 ^ 63 - 1 : Int), some (Err.ErrAtoiRange s))
          else ((0 : Int), some (Err.ErrAtoiSyntax s)))
        else if neg = false ∧ digitsVal body ≥ 2 ^ 63 then (2 ^ 63 - 1, some (.ErrAtoiRange s))
        else if neg = true ∧ digitsVal body > 2 ^ 63 then (-(2 ^ 63), some (.ErrAtoiRange s))
        else (if neg then -(digitsVal body : Int) else (digitsVal body : Int), none)) =
        (v, none) → -(2 ^ 63) ≤ v ∧ v < 2 ^ 63 := by
    intro neg body hk
    by_cases c1 : body = [] ∨ body.all isDigit = false
    · rw [if_pos c1] at hk
      split at hk <;> simp at hk
    · rw [if_neg c1] at hk
      by_cases c2 : neg = false ∧ digitsVal body ≥ 2 ^ 63
      · rw [if_pos c2] at hk
        simp at hk
      · rw [if_neg c2] at hk
        by_cases c3 : neg = true ∧ digitsVal body > 2 ^ 63
        · rw [if_pos c3] at hk
          simp at hk
        · rw [if_neg c3] at hk
          simp only [Prod.mk.injEq, and_true] at hk
          subst hk
          cases neg with
          | false =>
            simp only [true_and, ge_iff_le, not_le] at c2
            have : (digitsVal body : Int) < 2 ^ 63 := by exact_mod_cast c2
            simp only [Bool.false_eq_true, if_false]
            omega
          | true =>
            simp only [true_and, gt_iff_lt, not_lt] at c3
            have : (digitsVal body : Int) ≤ 2 ^ 63 := by exact_mod_cast c3
            simp only [if_true]
            omega
  exact key _ _ h

theorem Atoi_itoa (v : Int) (h1 : -(2 ^ 63) ≤ v) (h2 : v < 2 ^ 63) : Atoi (itoa v) = (v, none) := by
  obtain ⟨hne, hall, hval⟩ := natToDec_spec v.natAbs
  have hall2 : (natToDec v.natAbs).all isDigit = true := List.all_eq_true.mpr hall
  obtain ⟨d, ds, hd⟩ := List.exists_cons_of_ne_nil hne
  have hdig : isDigit d = true := hall d (by rw [hd]; exact List.mem_cons_self _ _)
  have hd1 : 48 ≤ d ∧ d ≤ 57 := by simpa [isDigit] using hdig
  unfold itoa
  by_cases hneg : v < 0
  · rw [if_pos hneg]
    unfold Atoi
    simp only [List.head?_cons, true_or, if_true, List.drop_succ_cons, List.drop_zero,
      decide_True, hne, hall2, false_or, Bool.true_eq_false, if_false, false_and, true_and, hval]
    rw [if_neg (by omega)]
    simp only [Prod.mk.injEq, and_true]
    omega
  · rw [if_neg hneg, hd]
    have h45 : ¬ (d = 45) := by omega
    have h43 : ¬ (d = 43) := by omega
    unfold Atoi
    simp only [List.head?_cons, Option.some.injEq, h45, h43, or_self, if_false, decide_False,
      List.cons_ne_nil, false_or, true_and, false_and, Bool.false_eq_true]
    rw [← hd]
    simp only [hall2, Bool.true_eq_false, if_false, hval]
    rw [if_neg (by omega)]
    simp only [Prod.mk.injEq, and_true]
    omega

theorem runeToString_no_cr (r : Nat) (h : r ≠ 13) : ∀ b ∈ runeToString r, b ≠ 13 := by
  intro b hb
  unfold runeToString at hb
  split_ifs at hb <;> simp at hb <;> omega

theorem GetSubString.loop_no_cr (s : GoString) (startPos endPos : Int) (i : Nat) (counter : Int)
    (val : GoString) (hval : ∀ b ∈ val, b ≠ 13) :
    ∀ b ∈ GetSubString.loop s startPos endPos i counter val, b ≠ 13 := by
  induction i, counter, val using GetSubString.loop.induct s startPos endPos with
  | case1 i counter val hi hr ih =>
    rw [GetSubString.loop, dif_pos hi, dif_pos hr]
    exact ih hval
  | case2 i counter val hi hr hs he =>
    rw [GetSubString.loop, dif_pos hi, dif_neg hr, dif_pos hs, if_pos he]
    exact hval
  | case3 i counter val hi hr hs he ih =>
    rw [GetSubString.loop, dif_pos hi, dif_neg hr, dif_pos hs, if_neg he]
    apply ih
    intro b hb
    rcases List.mem_append.mp hb with h | h
    · exact hval b h
    · exact runeToString_no_cr _ hr b h
  | case4 i counter val hi hr hs ih =>
    rw [GetSubString.loop, dif_pos hi, dif_neg hr, dif_neg hs]
    exact ih hval
  | case5 i counter val hi =>
    rw [GetSubString.loop, dif_neg hi]
    exact hval

theorem GetSubString_no_cr (s : GoString) (startPos endPos : Int) (str : GoString)
    (h : GetSubString s startPos endPos = .ok str) : ∀ b ∈ str, b ≠ 13 := by
  unfold GetSubString at h
  split_ifs at h
  simp only [Except.ok.injEq] at h
  rw [← h]
  exact GetSubString.loop_no_cr s startPos endPos 0 0 [] (by simp)

theorem GetTextAnnNum_range (text : GoString) (n : Int) (h : GetTextAnnNum text = (n, none)) :
    -(2 ^ 63) ≤ n ∧ n < 2 ^ 63 := by
  unfold GetTextAnnNum at h
  split at h
  · simp only at h
    split at h
    · exact Atoi_range _ _ h
    · simp at h
  · simp at h

theorem GenNumberEntityMap.body_stored (w : StringSet) (text : GoString) (m : EntityMap)
    (htext : ∀ b ∈ text, b ≠ 10) (hm : ∀ e ∈ m, StoredEntity w e.2) :
    ∀ e ∈ (GenNumberEntityMap.body w text m).1, StoredEntity w e.2 := by
  have hnil : ∀ e ∈ ([] : EntityMap), StoredEntity w e.2 := by
    intro e he; simp at he
  unfold GenNumberEntityMap.body
  by_cases hp : HasPrefix text (lit "T") = true
  · by_cases h3 : (Split text 9).length = 3
    · by_cases hc : Contains ((Split text 9).getD 1 []) (lit ";") = true
      · simp only [hp, h3, hc, ↓reduceIte]; exact hnil
      · by_cases h33 : (Split ((Split text 9).getD 1 []) 32).length = 3
        · by_cases hw : w.get (TrimSpace ((Split ((Split text 9).getD 1 []) 32).getD 0 [])) = true
          · rcases hb : Atoi ((Split ((Split text 9).getD 1 []) 32).getD 1 []) with ⟨b, _ | eb⟩
            · rcases he : Atoi ((Split ((Split text 9).getD 1 []) 32).getD 2 []) with ⟨e, _ | ee⟩
              · rcases hn : GetTextAnnNum text with ⟨n, _ | en⟩
                · simp only [hp, h3, hc, h33, hw, hb, he, hn, ↓reduceIte]
                  intro x hx
                  rcases EntityMap.mem_set _ _ _ _ hx with h | h
                  · exact hm x h
                  · rw [h]
                    refine ⟨?_, hw, GetTextAnnNum_range text n hn, Atoi_range _ _ hb,
                      Atoi_range _ _ he⟩
                    intro y hy
                    have hfield : ∀ c ∈ (Split text 9).getD 1 [], (c ≠ 10 ∧ c ≠ 59) ∧ c ≠ 9 := by
                      intro c hcm
                      have h1 := Split_getD_mem text 9 1 (fun c => c ≠ 10) htext c hcm
                      refine ⟨⟨h1.1, ?_⟩, h1.2⟩
                      intro h59
                      apply hc
                      have hl : lit ";" = [59] := by decide
                      rw [hl, Contains_singleton, ← h59]
                      exact hcm
                    have h2 := Split_getD_mem ((Split text 9).getD 1 []) 32 0
                      (fun c => (c ≠ 10 ∧ c ≠ 59) ∧ c ≠ 9) hfield y hy
                    exact ⟨h2.1.2, h2.1.1.1, h2.2, h2.1.1.2⟩
                · simp only [hp, h3, hc, h33, hw, hb, he, hn, ↓reduceIte]; exact hnil
              · simp only [hp, h3, hc, h33, hw, hb, he, ↓reduceIte]; exact hnil
            · simp only [hp, h3, hc, h33, hw, hb, ↓reduceIte]; exact hnil
          · simp only [hp, h3, hc, h33, hw, ↓reduceIte]; exact hm
        · simp only [hp, h3, hc, h33, ↓reduceIte]; exact hm
    · simp only [hp, h3, ↓reduceIte]; exact hm
  · simp only [hp, ↓reduceIte]; exact hm

theorem GenNumberEntityMap.loop_stored (w : StringSet) (lines : List GoString) (m : EntityMap)
    (hlines : ∀ l ∈ lines, ∀ b ∈ l, b ≠ 10) (hm : ∀ e ∈ m, StoredEntity w e.2) :
    ∀ e ∈ (GenNumberEntityMap.loop w lines m).1, StoredEntity w e.2 := by
  induction lines generalizing m with
  | nil => exact hm
  | cons text rest ih =>
    have hb := GenNumberEntityMap.body_stored w text m (hlines text (List.mem_cons_self _ _)) hm
    rcases hbody : GenNumberEntityMap.body w text m with ⟨m1, _ | err⟩
    · rw [GenNumberEntityMap.loop_cons_ok w text rest m m1 hbody]
      rw [hbody] at hb
      exact ih m1 (fun l hl => hlines l (List.mem_cons_of_mem _ hl)) hb
    · rw [GenNumberEntityMap.loop_cons_err w text rest m m1 err hbody]
      rw [hbody] at hb
      exact hb

theorem GenNumberEntityMap_stored (w : StringSet) (aData : GoString) :
    ∀ e ∈ (GenNumberEntityMap w aData).1, StoredEntity w e.2 :=
  GenNumberEntityMap.loop_stored w (scanLines aData) [] (scanLines_no_newline aData)
    (by intro e he; simp at he)

theorem itoa_plain (k : Int) :
    ∀ x ∈ itoa k, x ≠ 9 ∧ x ≠ 10 ∧ x ≠ 13 ∧ x ≠ 32 ∧ x ≠ 59 := by
  intro x hx
  rcases itoa_bytes k x hx with h | h <;> omega

theorem itoa_ne_nil (k : Int) : itoa k ≠ [] := by
  unfold itoa
  split
  · simp
  · exact (natToDec_spec k.natAbs).1

theorem standoffLine_eq (v : NumberAcharyaEntity) (str : GoString) :
    standoffLine v str = (84 :: itoa v.TxtAnnNo) ++ 9 ::
      ((v.Entity.Name ++ 32 :: (itoa v.Entity.Begin ++ 32 :: itoa v.Entity.End)) ++ 9 :: str) := by
  have hT : lit "T" = [84] := by decide
  have ht : lit "\t" = [9] := by decide
  have hs : lit " " = [32] := by decide
  unfold standoffLine
  rw [hT, ht, hs]
  simp only [List.append_assoc, List.cons_append, List.nil_append]

theorem standoffLine_no_newline (v : NumberAcharyaEntity) (str : GoString)
    (hname : ∀ b ∈ v.Entity.Name, b ≠ 10) (hstr : ∀ b ∈ str, b ≠ 10) :
    ∀ b ∈ standoffLine v str, b ≠ 10 := by
  rw [standoffLine_eq]
  intro b hb1
  simp only [List.mem_append, List.mem_cons] at hb1
  rcases hb1 with (h | h) | h | (h | h | h | h | h) | h | h
  · omega
  · exact (itoa_plain _ b h).2.1
  · omega
  · exact hname b h
  · omega
  · exact (itoa_plain _ b h).2.1
  · omega
  · exact (itoa_plain _ b h).2.1
  · omega
  · exact hstr b h

theorem standoffLine_ne_nil (v : NumberAcharyaEntity) (str : GoString) :
    standoffLine v str ≠ [] := by
  rw [standoffLine_eq]; simp

theorem standoffLine_getLast (v : NumberAcharyaEntity) (str : GoString)
    (hcr : ∀ b ∈ str, b ≠ 13) : (standoffLine v str).getLast? ≠ some 13 := by
  rw [standoffLine_eq]
  rcases List.eq_nil_or_concat str with h | ⟨s1, c, h⟩
  · subst h
    have : (84 :: itoa v.TxtAnnNo) ++ 9 ::
        ((v.Entity.Name ++ 32 :: (itoa v.Entity.Begin ++ 32 :: itoa v.Entity.End)) ++ [9]) =
        ((84 :: itoa v.TxtAnnNo) ++ 9 ::
          (v.Entity.Name ++ 32 :: (itoa v.Entity.Begin ++ 32 :: itoa v.Entity.End))) ++ [9] := by
      simp
    rw [this, List.getLast?_append]
    simp
  · rw [List.concat_eq_append] at h
    subst h
    have : (84 :: itoa v.TxtAnnNo) ++ 9 ::
        ((v.Entity.Name ++ 32 :: (itoa v.Entity.Begin ++ 32 :: itoa v.Entity.End)) ++ 9 ::
          (s1 ++ [c])) =
        ((84 :: itoa v.TxtAnnNo) ++ 9 ::
          ((v.Entity.Name ++ 32 :: (itoa v.Entity.Begin ++ 32 :: itoa v.Entity.End)) ++
            9 :: s1)) ++ [c] := by
      simp
    rw [this, List.getLast?_append]
    simp only [List.getLast?_singleton, Option.or, ne_eq, Option.some.injEq]
    exact hcr c (by simp)

theorem GenNumberEntityMap.body_standoffLine (w : StringSet) (v : NumberAcharyaEntity)
    (str : GoString) (hv : StoredEntity w v) (hstr : ∀ b ∈ str, b ≠ 9) :
    GenNumberEntityMap.body w (standoffLine v str) [] = ([(v.TxtAnnNo, v)], none) := by
  obtain ⟨hname, hw, hn, hb, he⟩ := hv
  rcases v with ⟨n, ⟨B, E, name⟩⟩
  simp only at hname hw hn hb he
  have ha1 : ∀ b ∈ (84 :: itoa n), b ≠ 9 ∧ b ≠ 10 := by
    intro b hb1
    simp only [List.mem_cons] at hb1
    rcases hb1 with h | h
    · omega
    · have := itoa_plain n b h; omega
  have ha2 : ∀ b ∈ name ++ 32 :: (itoa B ++ 32 :: itoa E), b ≠ 9 ∧ b ≠ 10 ∧ b ≠ 59 := by
    intro b hb1
    simp only [List.mem_append, List.mem_cons] at hb1
    rcases hb1 with h | h | h | h | h
    · have := hname b h; omega
    · omega
    · have := itoa_plain B b h; omega
    · omega
    · have := itoa_plain E b h; omega
  have hline := standoffLine_eq ⟨n, ⟨B, E, name⟩⟩ str
  simp only at hline
  have hsplit : Split (standoffLine ⟨n, ⟨B, E, name⟩⟩ str) 9 =
      [84 :: itoa n, name ++ 32 :: (itoa B ++ 32 :: itoa E), str] := by
    rw [hline, Split_append_sep 9 _ _ (fun b hb1 => (ha1 b hb1).1),
      Split_append_sep 9 _ _ (fun b hb1 => (ha2 b hb1).1),
      Split_no_sep 9 str hstr]
  have hsplit2 : Split (name ++ 32 :: (itoa B ++ 32 :: itoa E)) 32 = [name, itoa B, itoa E] := by
    rw [Split_append_sep 32 _ _ (fun b hb1 => (hname b hb1).2.2.1),
      Split_append_sep 32 _ _ (fun b hb1 => (itoa_plain B b hb1).2.2.2.1),
      Split_no_sep 32 _ (fun b hb1 => (itoa_plain E b hb1).2.2.2.1)]
  have hpre : HasPrefix (standoffLine ⟨n, ⟨B, E, name⟩⟩ str) (lit "T") = true := by
    rw [hline]
    have hT : lit "T" = [84] := by decide
    rw [hT]
    exact HasPrefix_append [84] _
  have hsemi : Contains (name ++ 32 :: (itoa B ++ 32 :: itoa E)) (lit ";") = false := by
    have hl : lit ";" = [59] := by decide
    rw [hl]
    apply Bool.eq_false_iff.mpr
    intro h
    rw [Contains_singleton] at h
    exact (ha2 59 h).2.2 rfl
  have hlen : (standoffLine ⟨n, ⟨B, E, name⟩⟩ str).length > 0 := by
    rw [hline]; simp
  have hann : GetTextAnnNum (standoffLine ⟨n, ⟨B, E, name⟩⟩ str) = (n, none) := by
    unfold GetTextAnnNum
    rw [if_pos hlen]
    simp only [hsplit, List.getD_cons_zero]
    have hl : (84 :: itoa n).length > 1 := by
      have := itoa_ne_nil n
      rcases hi : itoa n with _ | ⟨d, ds⟩
      · exact absurd hi this
      · simp
    rw [if_pos hl]
    simp only [List.drop_succ_cons, List.drop_zero]
    exact Atoi_itoa n hn.1 hn.2
  unfold GenNumberEntityMap.body
  simp only [hpre, hsplit, hsplit2, hsemi, hw, hann, Atoi_itoa B hb.1 hb.2,
    Atoi_itoa E he.1 he.2, List.length_cons, List.length_nil, List.getD_cons_zero,
    List.getD_cons_succ, Bool.false_eq_true, ↓reduceIte, EntityMap.set]

theorem GenNumberEntityMap.body_no_tab (w : StringSet) (text : GoString) (m : EntityMap)
    (h : ∀ b ∈ text, b ≠ 9) : (GenNumberEntityMap.body w text m).1 = m := by
  unfold GenNumberEntityMap.body
  rw [Split_no_sep 9 text h]
  by_cases hp : HasPrefix text (lit "T") = true
  · simp [hp]
  · simp [hp]

theorem GenNumberEntityMap.loop_no_tab (w : StringSet) (lines : List GoString) (m : EntityMap)
    (h : ∀ l ∈ lines, ∀ b ∈ l, b ≠ 9) : (GenNumberEntityMap.loop w lines m).1 = m := by
  induction lines generalizing m with
  | nil => rfl
  | cons text rest ih =>
    have hb := GenNumberEntityMap.body_no_tab w text m (h text (List.mem_cons_self _ _))
    rcases hbody : GenNumberEntityMap.body w text m with ⟨m1, _ | err⟩
    · rw [GenNumberEntityMap.loop_cons_ok w text rest m m1 hbody]
      rw [hbody] at hb
      simp only at hb
      rw [ih m1 (fun l hl => h l (List.mem_cons_of_mem _ hl)), hb]
    · rw [GenNumberEntityMap.loop_cons_err w text rest m m1 err hbody]
      rw [hbody] at hb
      exact hb

theorem scanLines.go_forall (p : Nat → Prop) (s cur : GoString) (hs : ∀ b ∈ s, p b)
    (hc : ∀ b ∈ cur, p b) : ∀ l ∈ scanLines.go s cur, ∀ b ∈ l, p b := by
  induction s generalizing cur with
  | nil =>
    intro l hl b hb
    rw [scanLines.go] at hl
    split at hl
    · simp at hl
    · simp only [List.mem_singleton] at hl
      subst hl
      exact hc b (dropCR_subset _ b hb)
  | cons x rest ih =>
    intro l hl b hb
    rw [scanLines.go] at hl
    by_cases hx : x = 10
    · rw [if_pos hx] at hl
      by_cases hlen : MaxScanTokenSize ≤ cur.length
      · rw [if_pos hlen] at hl
        simp at hl
      · rw [if_neg hlen] at hl
        simp only [List.mem_cons] at hl
        rcases hl with h | h
        · subst h
          exact hc b (dropCR_subset _ b hb)
        · exact ih [] (fun y hy => hs y (List.mem_cons_of_mem _ hy)) (by simp) l h b hb
    · rw [if_neg hx] at hl
      refine ih (cur ++ [x]) (fun y hy => hs y (List.mem_cons_of_mem _ hy)) ?_ l hl b hb
      intro y hy
      simp only [List.mem_append, List.mem_singleton] at hy
      rcases hy with h | h
      · exact hc y h
      · subst h; exact hs y (List.mem_cons_self _ _)

theorem scanLines.go_append_newline (a r cur : GoString) (ha : ∀ b ∈ a, b ≠ 10)
    (hlen : (cur ++ a).length < MaxScanTokenSize) :
    scanLines.go (a ++ 10 :: r) cur = dropCR (cur ++ a) :: scanLines.go r [] := by
  induction a generalizing cur with
  | nil =>
    have h2 : ¬ MaxScanTokenSize ≤ cur.length := by simpa using hlen
    simp [scanLines.go, h2]
  | cons x rest ih =>
    have hx := ha x (List.mem_cons_self _ _)
    rw [List.cons_append, scanLines.go, if_neg hx,
      ih (cur ++ [x]) (fun b hb => ha b (List.mem_cons_of_mem _ hb)) (by simpa using hlen)]
    simp

theorem scanLines.go_too_long (a r cur : GoString) (ha : ∀ b ∈ a, b ≠ 10)
    (hlen : MaxScanTokenSize ≤ (cur ++ a).length) : scanLines.go (a ++ 10 :: r) cur = [] := by
  induction a generalizing cur with
  | nil =>
    have h2 : MaxScanTokenSize ≤ cur.length := by simpa using hlen
    simp [scanLines.go, h2]
  | cons x rest ih =>
    have hx := ha x (List.mem_cons_self _ _)
    rw [List.cons_append, scanLines.go, if_neg hx,
      ih (cur ++ [x]) (fun b hb => ha b (List.mem_cons_of_mem _ hb)) (by simpa using hlen)]

theorem Split_go_ne_nil (sep : Nat) (s cur : GoString) : Split.go sep s cur ≠ [] := by
  induction s generalizing cur with
  | nil => simp [Split.go]
  | cons x rest ih =>
    rw [Split.go]
    split
    · simp
    · exact ih _

theorem scanLines.go_eq (s cur : GoString) :
    scanLines.go s cur =
      ((if (Split.go 10 s cur).getLast? = some [] then (Split.go 10 s cur).dropLast
        else Split.go 10 s cur).takeWhile (fun l => decide (l.length < 65536))).map dropCR := by
  induction s generalizing cur with
  | nil =>
    rw [scanLines.go, Split.go]
    by_cases hc : cur = []
    · simp [hc]
    · have h1 : ¬ (some cur = some ([] : GoString)) := by simpa using hc
      by_cases hlen : MaxScanTokenSize ≤ cur.length
      · have h2 : ¬ cur.length < 65536 := by unfold MaxScanTokenSize at hlen; omega
        simp [hc, hlen, h2]
      · have h2 : cur.length < 65536 := by unfold MaxScanTokenSize at hlen; omega
        simp [hc, hlen, h2]
  | cons x rest ih =>
    rw [scanLines.go, Split.go]
    by_cases hx : x = 10
    · rw [if_pos hx, if_pos hx]
      obtain ⟨y, ys, hy⟩ := List.exists_cons_of_ne_nil (Split_go_ne_nil 10 rest [])
      have hih := ih []
      rw [hy] at hih ⊢
      rw [List.getLast?_cons_cons, List.dropLast_cons₂]
      by_cases hlen : MaxScanTokenSize ≤ cur.length
      · have h2 : ¬ cur.length < 65536 := by unfold MaxScanTokenSize at hlen; omega
        rw [if_pos hlen]
        split <;> simp [h2]
      · have h2 : cur.length < 65536 := by unfold MaxScanTokenSize at hlen; omega
        rw [if_neg hlen, hih]
        split <;> simp [h2]
    · rw [if_neg hx, if_neg hx]
      exact ih _

theorem scanLines_eq_deliveredLines (data : GoString) : scanLines data = deliveredLines data :=
  scanLines.go_eq data []

theorem deliveredLines_subset (data : GoString) :
    ∀ l ∈ deliveredLines data, l ∈ sourceLines data := by
  intro l hl
  unfold deliveredLines at hl
  unfold sourceLines
  obtain ⟨r, hr, rfl⟩ := List.mem_map.mp hl
  exact List.mem_map_of_mem _ ((List.takeWhile_sublist _).subset hr)

theorem rawLines_cons (a r : GoString) (ha : ∀ b ∈ a, b ≠ 10) :
    rawLines (a ++ 10 :: r) = a :: rawLines r := by
  unfold rawLines
  rw [Split_append_sep 10 a r ha]
  obtain ⟨y, ys, hy⟩ := List.exists_cons_of_ne_nil (Split_go_ne_nil 10 r [])
  have hy2 : Split r 10 = y :: ys := hy
  rw [hy2, List.getLast?_cons_cons, List.dropLast_cons₂]
  split <;> rfl

theorem sourceLines_cons (a r : GoString) (ha : ∀ b ∈ a, b ≠ 10) :
    sourceLines (a ++ 10 :: r) = dropCR a :: sourceLines r := by
  unfold sourceLines
  rw [rawLines_cons a r ha]
  rfl

theorem replicate_no_newline (n : Nat) : ∀ b ∈ List.replicate n 120, b ≠ 10 := by
  intro b hb
  rw [List.eq_of_mem_replicate hb]
  decide

theorem dropCR_replicate (n : Nat) : dropCR (List.replicate n 120) = List.replicate n 120 := by
  unfold dropCR
  rw [if_neg]
  intro h
  have hm := List.mem_of_getLast?_eq_some h
  have := List.eq_of_mem_replicate hm
  omega

theorem scanLines_long (n : Nat) (r : GoString) (h : 65536 ≤ n) :
    scanLines (List.replicate n 120 ++ 10 :: r) = [] := by
  unfold scanLines
  apply scanLines.go_too_long _ _ _ (replicate_no_newline n)
  unfold MaxScanTokenSize
  simpa using h

theorem HasPrefix_replicate (n c : Nat) (hc : c ≠ 120) :
    HasPrefix (List.replicate n 120) [c] = false := by
  unfold HasPrefix
  cases n with
  | zero => rfl
  | succ k => simp [List.replicate, List.isPrefixOf, hc]

theorem Contains_eq_false (s : GoString) (c : Nat) (sub : GoString) (h : c ∉ s) :
    Contains s (c :: sub) = false := by
  induction s with
  | nil => simp [Contains, List.isPrefixOf]
  | cons b t ih =>
    have hb : ¬ c = b := fun e => h (e ▸ List.mem_cons_self _ _)
    have ht : c ∉ t := fun e => h (List.mem_cons_of_mem _ e)
    rw [Contains, ih ht]
    simp [List.isPrefixOf, hb]

theorem exists_first_newline (s : GoString) (h : 10 ∈ s) :
    ∃ a r, s = a ++ 10 :: r ∧ ∀ b ∈ a, b ≠ 10 := by
  induction s with
  | nil => simp at h
  | cons x rest ih =>
    by_cases hx : x = 10
    · exact ⟨[], rest, by simp [hx], by simp⟩
    · have h1 : 10 ∈ rest := by
        simp only [List.mem_cons] at h
        rcases h with h | h
        · exact absurd h.symm hx
        · exact h
      obtain ⟨a, r, hs, ha⟩ := ih h1
      refine ⟨x :: a, r, by simp [hs], ?_⟩
      intro b hb
      simp only [List.mem_cons] at hb
      rcases hb with h | h
      · rw [h]; exact hx
      · exact ha b h

theorem standoffLine_append (v : NumberAcharyaEntity) (a r : GoString) :
    standoffLine v (a ++ r) = standoffLine v a ++ r := by
  unfold standoffLine
  simp only [List.append_assoc]

theorem GenNumberEntityMap_standoffLine (w : StringSet) (v : NumberAcharyaEntity)
    (str : GoString) (hv : StoredEntity w v) (hstr : ∀ b ∈ str, b ≠ 9)
    (hcr : ∀ b ∈ str, b ≠ 13) (hlen : (standoffLine v str).length < 65536) :
    (GenNumberEntityMap w (standoffLine v str)).1 = [(v.TxtAnnNo, v)] ∧
      ((∀ b ∈ str, b ≠ 10) → (GenNumberEntityMap w (standoffLine v str)).2 = none) := by
  have hname : ∀ b ∈ v.Entity.Name, b ≠ 10 := fun b hb => (hv.1 b hb).2.1
  have hlen2 : (standoffLine v str).length < MaxScanTokenSize := hlen
  have single : (∀ b ∈ str, b ≠ 10) →
      GenNumberEntityMap w (standoffLine v str) = ([(v.TxtAnnNo, v)], none) := by
    intro hnl
    unfold GenNumberEntityMap
    rw [scanLines_single _ (standoffLine_ne_nil v str)
      (standoffLine_no_newline v str hname hnl) (standoffLine_getLast v str hcr) hlen2,
      GenNumberEntityMap.loop_cons_ok w _ [] [] _
        (GenNumberEntityMap.body_standoffLine w v str hv hstr)]
    rfl
  refine ⟨?_, fun hnl => by rw [single hnl]⟩
  by_cases h10 : 10 ∈ str
  · obtain ⟨a, r, hs, ha⟩ := exists_first_newline str h10
    subst hs
    have ha9 : ∀ b ∈ a, b ≠ 9 := fun b hb => hstr b (by simp [hb])
    have ha13 : ∀ b ∈ a, b ≠ 13 := fun b hb => hcr b (by simp [hb])
    have hr9 : ∀ b ∈ r, b ≠ 9 := fun b hb => hstr b (by simp [hb])
    have hlen3 : ([] ++ standoffLine v a).length < MaxScanTokenSize := by
      rw [standoffLine_append] at hlen2
      simp only [List.length_append, List.nil_append] at hlen2 ⊢
      omega
    unfold GenNumberEntityMap scanLines
    rw [standoffLine_append, scanLines.go_append_newline _ r []
      (standoffLine_no_newline v a hname ha) hlen3, List.nil_append]
    have hd : dropCR (standoffLine v a) = standoffLine v a := by
      unfold dropCR
      rw [if_neg (standoffLine_getLast v a ha13)]
    rw [hd, GenNumberEntityMap.loop_cons_ok w _ _ [] _
      (GenNumberEntityMap.body_standoffLine w v a hv ha9)]
    exact GenNumberEntityMap.loop_no_tab w _ _
      (scanLines.go_forall (fun b => b ≠ 9) r [] hr9 (by simp))
  · have hnl : ∀ b ∈ str, b ≠ 10 := fun b hb hb10 => h10 (hb10 ▸ hb)
    rw [single hnl]

theorem entityLines_cons_ok (tData : GoString) (v : NumberAcharyaEntity)
    (rest : List NumberAcharyaEntity) (str : GoString)
    (h : GetSubString tData v.Entity.Begin v.Entity.End = .ok str) :
    entityLines tData (v :: rest) = (standoffLine v str ++ lit "\n") ++ entityLines tData rest := by
  unfold entityLines
  rw [List.map_cons, List.flatten_cons, h]

theorem entityLines_append (tData : GoString) (pre post : List NumberAcharyaEntity) :
    entityLines tData (pre ++ post) = entityLines tData pre ++ entityLines tData post := by
  unfold entityLines
  rw [List.map_append, List.flatten_append]

theorem GenerateAcharyaAndStandoff.entities_standoff (tData : GoString)
    (vs : List NumberAcharyaEntity) (s a s1 a1 : GoString)
    (h : GenerateAcharyaAndStandoff.entities tData vs s a = .ok (s1, a1)) :
    s1 = s ++ entityLines tData vs := by
  induction vs generalizing s a with
  | nil =>
    simp only [GenerateAcharyaAndStandoff.entities, Except.ok.injEq, Prod.mk.injEq] at h
    rw [← h.1]
    simp [entityLines]
  | cons v rest ih =>
    rw [GenerateAcharyaAndStandoff.entities] at h
    cases hsub : GetSubString tData v.Entity.Begin v.Entity.End with
    | error err => rw [hsub] at h; simp at h
    | ok str =>
      rw [hsub] at h
      simp only at h
      rw [ih _ _ h, entityLines_cons_ok tData v rest str hsub]
      unfold standoffLine
      simp only [List.append_assoc]

theorem GenerateAcharyaAndStandoff.relations_standoff (rels : List NumberCustomRelation)
    (s a : GoString) :
    (GenerateAcharyaAndStandoff.relations rels s a).1 = s ++ relationLines rels := by
  induction rels generalizing s a with
  | nil => simp [GenerateAcharyaAndStandoff.relations, relationLines]
  | cons v rest ih =>
    rw [GenerateAcharyaAndStandoff.relations, ih]
    unfold relationLines
    rw [List.map_cons, List.flatten_cons]
    simp only [List.append_assoc]

theorem flatten_nil_or_newline (records : List GoString)
    (h : ∀ r ∈ records, r = [] ∨ ∃ body, r = body ++ [10]) :
    records.flatten = [] ∨ ∃ body, records.flatten = body ++ [10] := by
  induction records with
  | nil => exact Or.inl rfl
  | cons r rs ih =>
    rw [List.flatten_cons]
    rcases ih (fun x hx => h x (List.mem_cons_of_mem _ hx)) with h1 | ⟨b, hb⟩
    · rw [h1, List.append_nil]
      exact h r (List.mem_cons_self _ _)
    · exact Or.inr ⟨r ++ b, by rw [hb, List.append_assoc]⟩

theorem entityLines_nil_or_newline (tData : GoString) (vs : List NumberAcharyaEntity) :
    entityLines tData vs = [] ∨ ∃ body, entityLines tData vs = body ++ [10] := by
  unfold entityLines
  apply flatten_nil_or_newline
  intro r hr
  obtain ⟨v, _, rfl⟩ := List.mem_map.mp hr
  cases GetSubString tData v.Entity.Begin v.Entity.End with
  | error err => exact Or.inl rfl
  | ok str => exact Or.inr ⟨standoffLine v str, rfl⟩

theorem relationLines_nil_or_newline (rels : List NumberCustomRelation) :
    relationLines rels = [] ∨ ∃ body, relationLines rels = body ++ [10] := by
  unfold relationLines
  apply flatten_nil_or_newline
  intro r hr
  obtain ⟨v, _, rfl⟩ := List.mem_map.mp hr
  refine Or.inr ⟨lit "R" ++ itoa v.TxtAnnNo ++ lit "\t" ++ v.Entity.Name ++ lit " Arg1:T" ++
    itoa v.Entity.HeadAnnNo ++ lit " Arg2:T" ++ itoa v.Entity.TailAnnNo ++ lit "\t", ?_⟩
  have h1 : lit "\t\n" = lit "\t" ++ [10] := by decide
  rw [h1]
  simp only [List.append_assoc]

theorem GenerateAcharyaAndStandoff_standoff (tData : GoString)
    (pre post : List NumberAcharyaEntity) (v : NumberAcharyaEntity) (str : GoString)
    (rels : List NumberCustomRelation) (article_id : GoString) (isTestFile : Bool)
    (acharya standoff : GoString)
    (hsub : GetSubString tData v.Entity.Begin v.Entity.End = .ok str)
    (h : GenerateAcharyaAndStandoff tData (pre ++ v :: post) rels article_id isTestFile =
      .ok (acharya, standoff)) :
    standoff ++ lit "\n" = entityLines tData pre ++ (standoffLine v str ++ lit "\n") ++
      entityLines tData post ++ relationLines rels := by
  have hl : lit "\n" = [10] := by decide
  unfold GenerateAcharyaAndStandoff at h
  simp only at h
  split at h
  · simp at h
  · rename_i s1 a1 hent
    simp only [Except.ok.injEq, Prod.mk.injEq] at h
    have hs1 := GenerateAcharyaAndStandoff.entities_standoff _ _ _ _ _ _ hent
    rw [List.nil_append, entityLines_append, entityLines_cons_ok tData v post str hsub] at hs1
    have htot : ∃ body, entityLines tData pre ++ (standoffLine v str ++ lit "\n") ++
        entityLines tData post ++ relationLines rels = body ++ [10] := by
      rw [hl]
      rcases relationLines_nil_or_newline rels with hr | ⟨br, hr⟩
      · rcases entityLines_nil_or_newline tData post with hp | ⟨bp, hp⟩
        · exact ⟨entityLines tData pre ++ standoffLine v str, by rw [hr, hp]; simp⟩
        · exact ⟨entityLines tData pre ++ (standoffLine v str ++ [10]) ++ bp, by
            rw [hr, hp]; simp⟩
      · exact ⟨entityLines tData pre ++ (standoffLine v str ++ [10]) ++ entityLines tData post ++
          br, by rw [hr]; simp⟩
    obtain ⟨body, hbody⟩ := htot
    rw [← h.2, GenerateAcharyaAndStandoff.relations_standoff, hs1]
    have e1 : entityLines tData pre ++ ((standoffLine v str ++ lit "\n") ++ entityLines tData post) ++
        relationLines rels = body ++ [10] := by
      rw [← hbody]; simp only [List.append_assoc]
    rw [e1, hl, TrimSuffix_append_singleton]
    rw [hl] at hbody
    exact hbody.symm

theorem scanLines_long_line (s : GoString) (hs : ∀ b ∈ s, b ≠ 10) (hlen : 65536 ≤ s.length) :
    scanLines s = [] := by
  unfold scanLines
  rw [scanLines.go_line s [] hs]
  have h2 : MaxScanTokenSize ≤ s.length := hlen
  simp [h2]

theorem utf8Encode_replicate (n : Nat) :
    utf8Encode (List.replicate n 120) = List.replicate n 120 := by
  induction n with
  | zero => rfl
  | succ k ih =>
    rw [List.replicate_succ, utf8Encode, ih]
    rfl

theorem GetSubString_replicate (n : Nat) (k : Int) (hk : k = (n : Int)) :
    GetSubString (List.replicate n 120) 0 k = .ok (List.replicate n 120) := by
  subst hk
  have hd : decodeRunes (List.replicate n 120) = List.replicate n 120 := by
    have h := decodeRunes_utf8Encode (List.replicate n 120) (by
      intro c hc
      rw [List.eq_of_mem_replicate hc]
      unfold ValidScalar
      omega)
    rw [utf8Encode_replicate] at h
    exact h
  have hlog : logicalRunes (List.replicate n 120) = List.replicate n 120 := by
    unfold logicalRunes
    rw [hd, List.filter_eq_self]
    intro a ha
    rw [List.eq_of_mem_replicate ha]
    decide
  rw [GetSubString_logical _ 0 n (le_refl _) (by omega) (by rw [hlog]; simp)]
  rw [hlog]
  simp only [Int.toNat_ofNat, Int.toNat_zero, List.drop_zero]
  rw [List.take_of_length_le (by simp), utf8Encode_replicate]

theorem standoffLine_length_ge (v : NumberAcharyaEntity) (str : GoString) :
    str.length ≤ (standoffLine v str).length := by
  rw [standoffLine_eq]
  simp only [List.length_append, List.length_cons]
  omega

theorem GetSubString_scenario_IBM : GetSubString scenarioText 15 18 = .ok (lit "IBM") := by
  rw [GetSubString_logical scenarioText 15 18 (by decide) (by decide) (by decide)]
  exact congrArg Except.ok (by decide)

/-! ## Claims -/

/-- C1: for a valid UTF-8 text (the encoding of the scalar values `cps`) and
`0 ≤ startPos ≤ endPos ≤ n`, with `n` the number of code points that are not
carriage returns, `GetSubString` succeeds and returns the code points at
positions `startPos .. endPos - 1` of the text with every carriage return
removed; two texts that differ only in carriage returns give the same result. -/
theorem C1_GetSubString_code_points (cps : List Nat) (hv : ∀ c ∈ cps, ValidScalar c)
    (startPos endPos : Int) (h0 : 0 ≤ startPos) (h1 : startPos ≤ endPos)
    (h2 : endPos ≤ ((cps.filter (fun r => r != 13)).length : Int)) :
    GetSubString (utf8Encode cps) startPos endPos =
        .ok (utf8Encode (((cps.filter (fun r => r != 13)).take endPos.toNat).drop startPos.toNat)) ∧
      ∀ cps2 : List Nat, (∀ c ∈ cps2, ValidScalar c) →
        cps2.filter (fun r => r != 13) = cps.filter (fun r => r != 13) →
        GetSubString (utf8Encode cps2) startPos endPos = GetSubString (utf8Encode cps) startPos endPos := by
  have key : ∀ xs : List Nat, (∀ c ∈ xs, ValidScalar c) →
      endPos ≤ ((xs.filter (fun r => r != 13)).length : Int) →
      GetSubString (utf8Encode xs) startPos endPos =
        .ok (utf8Encode (((xs.filter (fun r => r != 13)).take endPos.toNat).drop startPos.toNat)) := by
    intro xs hx hlen
    have hl : logicalRunes (utf8Encode xs) = xs.filter (fun r => r != 13) := by
      unfold logicalRunes
      rw [decodeRunes_utf8Encode xs hx]
    have := GetSubString_logical (utf8Encode xs) startPos endPos h0 h1 (by rw [hl]; exact hlen)
    rw [this, hl]
  refine ⟨key cps hv h2, ?_⟩
  intro cps2 hv2 hf
  rw [key cps hv h2, key cps2 hv2 (by rw [hf]; exact h2), hf]

/-- Witness of C1 on the text `a, CR, LF, é` with the range `[1, 3)`: the result
is `LF, é`. -/
theorem C1_GetSubString_code_points_witness :
    GetSubString (utf8Encode [97, 13, 10, 233]) 1 3 = .ok (utf8Encode [10, 233]) :=
  (C1_GetSubString_code_points [97, 13, 10, 233]
    (by intro c hc; simp at hc; unfold ValidScalar; omega) 1 3 (by decide) (by decide)
    (by decide)).1

/-- C2 as stated fails for a document id that holds a newline: the record has a
backslash and the letter n in its place. -/
theorem C2_counterexample :
    GenerateAcharyaAndStandoff [] [] [] (lit "a\nb") false =
        .ok (lit "\x7b\"id\":\"a\\nb\",\"Data\":\"\",\"Entities\":[],\"Relations\":[]\x7d\n", []) ∧
      lit "\x7b\"id\":\"a\\nb\",\"Data\":\"\",\"Entities\":[],\"Relations\":[]\x7d\n" ≠
        statedRecord [] [] [] (lit "a\nb") false := by
  refine ⟨rfl, by decide⟩

/-- C2 as amended: when `GenerateAcharyaAndStandoff` succeeds, visiting the
entities of the map in the order `visit`, the Acharya record is the text
`acharyaRecord`: the id, the test flag when set, the escaped text, one tuple
for each entity of the map, one object for each relation in the order of the
list, the items separated by commas, then `]\x7d` and a newline; a newline in
the id or in a name is written as a backslash and the letter n. -/
theorem C2_acharya_record (tData : GoString) (numberAcharyaEnt : EntityMap)
    (visit : List NumberAcharyaEntity) (hvisit : visit.Perm (numberAcharyaEnt.map Prod.snd))
    (rels : List NumberCustomRelation) (article_id : GoString) (isTestFile : Bool)
    (acharya standoff : GoString)
    (h : GenerateAcharyaAndStandoff tData visit rels article_id isTestFile =
      .ok (acharya, standoff)) :
    acharya = acharyaRecord tData visit rels article_id isTestFile ∧
      (visit.map entityTuple).Perm ((numberAcharyaEnt.map Prod.snd).map entityTuple) :=
  ⟨GenerateAcharyaAndStandoff_acharya tData visit rels article_id isTestFile acharya standoff h,
    hvisit.map entityTuple⟩

/-- Witness of C2 on the document of the scenario of C3. -/
theorem C2_acharya_record_witness :
    lit "\x7b\"id\":\"doc\",\"Data\":\"John works for IBM\",\"Entities\":[[0,4,\"PERSON\"]],\"Relations\":[\x7b\"head\":[0,4],\"tail\":[0,0],\"name\":\"works_for\"\x7d]\x7d\n" =
        acharyaRecord scenarioText [⟨1, ⟨0, 4, lit "PERSON"⟩⟩]
          [⟨1, ⟨1, 0, 4, 2, 0, 0, lit "works_for"⟩⟩] (lit "doc") false ∧
      (([⟨1, ⟨0, 4, lit "PERSON"⟩⟩] : List NumberAcharyaEntity).map entityTuple).Perm
        ((([(1, ⟨1, ⟨0, 4, lit "PERSON"⟩⟩)] : EntityMap).map Prod.snd).map entityTuple) :=
  C2_acharya_record scenarioText [(1, ⟨1, ⟨0, 4, lit "PERSON"⟩⟩)] [⟨1, ⟨0, 4, lit "PERSON"⟩⟩]
    (List.Perm.refl _) [⟨1, ⟨1, 0, 4, 2, 0, 0, lit "works_for"⟩⟩] (lit "doc") false _ _
    GenerateAcharyaAndStandoff_scenario

/-- C3 as stated fails: `ORG` is not in the `[entities]` section of the
configuration, so entity `T2` is dropped; the record holds the tuple of `T1`
alone, and the tail of the relation, absent from the map, has the span
`[0,0]`. -/
theorem C3_counterexample :
    GetEntitiesFromFile scenarioConf = [lit "PERSON"] ∧
      GenNumberEntityMap (GetEntitiesFromFile scenarioConf) scenarioAnn =
        ([(1, ⟨1, ⟨0, 4, lit "PERSON"⟩⟩)], none) ∧
      GenNumberRelationArr (GetRelationsFromFile scenarioConf)
          (GenNumberEntityMap (GetEntitiesFromFile scenarioConf) scenarioAnn).1 scenarioAnn =
        ([⟨1, ⟨1, 0, 4, 2, 0, 0, lit "works_for"⟩⟩], none) ∧
      GenerateAcharyaAndStandoff scenarioText [⟨1, ⟨0, 4, lit "PERSON"⟩⟩]
          [⟨1, ⟨1, 0, 4, 2, 0, 0, lit "works_for"⟩⟩] (lit "doc") false =
        .ok (lit "\x7b\"id\":\"doc\",\"Data\":\"John works for IBM\",\"Entities\":[[0,4,\"PERSON\"]],\"Relations\":[\x7b\"head\":[0,4],\"tail\":[0,0],\"name\":\"works_for\"\x7d]\x7d\n",
          lit "T1\tPERSON 0 4\tJohn\nR1\tworks_for Arg1:T1 Arg2:T2\t") ∧
      Contains (lit "\x7b\"id\":\"doc\",\"Data\":\"John works for IBM\",\"Entities\":[[0,4,\"PERSON\"]],\"Relations\":[\x7b\"head\":[0,4],\"tail\":[0,0],\"name\":\"works_for\"\x7d]\x7d\n")
        (lit "[[0,4,\"PERSON\"],[14,17,\"ORG\"]]") = false ∧
      Contains (lit "\x7b\"id\":\"doc\",\"Data\":\"John works for IBM\",\"Entities\":[[0,4,\"PERSON\"]],\"Relations\":[\x7b\"head\":[0,4],\"tail\":[0,0],\"name\":\"works_for\"\x7d]\x7d\n")
        (lit "\"tail\":[14,17]") = false := by
  refine ⟨by decide, by decide, by decide, GenerateAcharyaAndStandoff_scenario, by decide,
    by decide⟩

/-- C3 as amended: in the scenario the Acharya record has the Entities array
`[[0,4,"PERSON"]]` and the Relations array
`[\x7b"head":[0,4],"tail":[0,0],"name":"works_for"\x7d]`, for every document id, test
flag and relation whitelist. -/
theorem C3_scenario_record (relFromConf : StringSet) (article_id : GoString) (isTestFile : Bool)
    (visit : List NumberAcharyaEntity)
    (hvisit : visit.Perm
      ((GenNumberEntityMap (GetEntitiesFromFile scenarioConf) scenarioAnn).1.map Prod.snd)) :
    ∃ standoff, GenerateAcharyaAndStandoff scenarioText visit
        (GenNumberRelationArr relFromConf
          (GenNumberEntityMap (GetEntitiesFromFile scenarioConf) scenarioAnn).1 scenarioAnn).1
        article_id isTestFile =
      .ok (lit "\x7b\"id\":\"" ++ ReplaceAllNewline article_id ++ lit "\"," ++
        (if isTestFile then lit "\"test\":true," else []) ++
        lit "\"Data\":\"John works for IBM\",\"Entities\":[[0,4,\"PERSON\"]],\"Relations\":[\x7b\"head\":[0,4],\"tail\":[0,0],\"name\":\"works_for\"\x7d]\x7d\n",
        standoff) := by
  have hm : (GenNumberEntityMap (GetEntitiesFromFile scenarioConf) scenarioAnn).1.map Prod.snd =
      [⟨1, ⟨0, 4, lit "PERSON"⟩⟩] := by decide
  have hr : (GenNumberRelationArr relFromConf
      (GenNumberEntityMap (GetEntitiesFromFile scenarioConf) scenarioAnn).1 scenarioAnn).1 =
      [⟨1, ⟨1, 0, 4, 2, 0, 0, lit "works_for"⟩⟩] := by
    show (GenNumberRelationArr []
      (GenNumberEntityMap (GetEntitiesFromFile scenarioConf) scenarioAnn).1 scenarioAnn).1 = _
    decide
  rw [hm] at hvisit
  rw [List.perm_singleton.mp hvisit, hr]
  obtain ⟨standoff, hs⟩ := GenerateAcharyaAndStandoff_ok scenarioText [⟨1, ⟨0, 4, lit "PERSON"⟩⟩]
    [⟨1, ⟨1, 0, 4, 2, 0, 0, lit "works_for"⟩⟩] article_id isTestFile
    (by
      intro v hv
      simp only [List.mem_singleton] at hv
      subst hv
      exact ⟨_, GetSubString_scenario_John⟩)
  refine ⟨standoff, ?_⟩
  rw [hs]
  have htail : lit "\"Data\":" ++ (jsonMarshal scenarioText ++ (lit ",\"Entities\":[" ++
      (commaSep (([⟨1, ⟨0, 4, lit "PERSON"⟩⟩] : List NumberAcharyaEntity).map entityTuple) ++
      (lit "],\"Relations\":[" ++ (commaSep
        (([⟨1, ⟨1, 0, 4, 2, 0, 0, lit "works_for"⟩⟩] : List NumberCustomRelation).map
          relationObject) ++ lit "]\x7d\n"))))) =
      lit "\"Data\":\"John works for IBM\",\"Entities\":[[0,4,\"PERSON\"]],\"Relations\":[\x7b\"head\":[0,4],\"tail\":[0,0],\"name\":\"works_for\"\x7d]\x7d\n" := by
    decide
  simp only [acharyaRecord, List.append_assoc, htail]

/-- Witness of C3 as amended: the document id `doc`, no test flag, an empty
relation whitelist. -/
theorem C3_scenario_record_witness :
    ∃ standoff, GenerateAcharyaAndStandoff scenarioText [⟨1, ⟨0, 4, lit "PERSON"⟩⟩]
        (GenNumberRelationArr []
          (GenNumberEntityMap (GetEntitiesFromFile scenarioConf) scenarioAnn).1 scenarioAnn).1
        (lit "doc") false =
      .ok (lit "\x7b\"id\":\"" ++ ReplaceAllNewline (lit "doc") ++ lit "\"," ++
        (if false = true then lit "\"test\":true," else []) ++
        lit "\"Data\":\"John works for IBM\",\"Entities\":[[0,4,\"PERSON\"]],\"Relations\":[\x7b\"head\":[0,4],\"tail\":[0,0],\"name\":\"works_for\"\x7d]\x7d\n",
        standoff) :=
  C3_scenario_record [] (lit "doc") false [⟨1, ⟨0, 4, lit "PERSON"⟩⟩] (by decide)

/-- C4: `GenNumberRelationArr` returns no error, and every relation it returns
has as head span the `(Begin, End)` of the entity the map holds under its head
id and as tail span those of the entity under its tail id; a span is `(0, 0)`
when the map holds no entity under the id. -/
theorem C4_relation_spans (relFromConf : StringSet) (m : EntityMap)
    (hm : (m.map Prod.fst).Nodup) (aData : GoString) :
    (GenNumberRelationArr relFromConf m aData).2 = none ∧
      ∀ r ∈ (GenNumberRelationArr relFromConf m aData).1,
        (∀ v, (r.Entity.HeadAnnNo, v) ∈ m →
          r.Entity.BeginHead = v.Entity.Begin ∧ r.Entity.EndHead = v.Entity.End) ∧
        (∀ v, (r.Entity.TailAnnNo, v) ∈ m →
          r.Entity.BeginTail = v.Entity.Begin ∧ r.Entity.EndTail = v.Entity.End) ∧
        ((∀ v, (r.Entity.HeadAnnNo, v) ∉ m) →
          r.Entity.BeginHead = 0 ∧ r.Entity.EndHead = 0) ∧
        ((∀ v, (r.Entity.TailAnnNo, v) ∉ m) →
          r.Entity.BeginTail = 0 ∧ r.Entity.EndTail = 0) := by
  refine ⟨rfl, ?_⟩
  intro r hr
  rcases GenNumberRelationArr.loop_mem m _ [] r hr with h | ⟨text, _, g1, g2, g3, g4, _, _, h⟩
  · simp at h
  · subst h
    refine ⟨?_, ?_, ?_, ?_⟩
    · intro v hv
      simp only [EntityMap.get_of_mem m hm _ v hv, and_self]
    · intro v hv
      simp only [EntityMap.get_of_mem m hm _ v hv, and_self]
    · intro hv
      simp only [EntityMap.get_of_not_mem m _ hv, NumberAcharyaEntity.zero, and_self]
    · intro hv
      simp only [EntityMap.get_of_not_mem m _ hv, NumberAcharyaEntity.zero, and_self]

/-- Witness of C4: a map holding entity 1 only and a relation from entity 1 to
entity 2. -/
theorem C4_relation_spans_witness :
    (GenNumberRelationArr [] [(1, ⟨1, ⟨0, 4, lit "PERSON"⟩⟩)]
        (lit "R1\tworks_for Arg1:T1 Arg2:T2")).2 = none ∧
      ∀ r ∈ (GenNumberRelationArr [] [(1, ⟨1, ⟨0, 4, lit "PERSON"⟩⟩)]
          (lit "R1\tworks_for Arg1:T1 Arg2:T2")).1,
        (∀ v, (r.Entity.HeadAnnNo, v) ∈ [((1 : Int), (⟨1, ⟨0, 4, lit "PERSON"⟩⟩ : NumberAcharyaEntity))] →
          r.Entity.BeginHead = v.Entity.Begin ∧ r.Entity.EndHead = v.Entity.End) ∧
        (∀ v, (r.Entity.TailAnnNo, v) ∈ [((1 : Int), (⟨1, ⟨0, 4, lit "PERSON"⟩⟩ : NumberAcharyaEntity))] →
          r.Entity.BeginTail = v.Entity.Begin ∧ r.Entity.EndTail = v.Entity.End) ∧
        ((∀ v, (r.Entity.HeadAnnNo, v) ∉ [((1 : Int), (⟨1, ⟨0, 4, lit "PERSON"⟩⟩ : NumberAcharyaEntity))]) →
          r.Entity.BeginHead = 0 ∧ r.Entity.EndHead = 0) ∧
        ((∀ v, (r.Entity.TailAnnNo, v) ∉ [((1 : Int), (⟨1, ⟨0, 4, lit "PERSON"⟩⟩ : NumberAcharyaEntity))]) →
          r.Entity.BeginTail = 0 ∧ r.Entity.EndTail = 0) :=
  C4_relation_spans [] [(1, ⟨1, ⟨0, 4, lit "PERSON"⟩⟩)] (by decide) (lit "R1\tworks_for Arg1:T1 Arg2:T2")

/-- C5 as stated fails: with the whitelist `PERSON`, the record whose type field
is a vertical tab followed by `PERSON` passes the lookup, which trims the name,
and is stored under the untrimmed name, which the whitelist does not hold. -/
theorem C5_counterexample :
    GenNumberEntityMap [lit "PERSON"] (lit "T1\t\x0bPERSON 0 4\tJohn") =
        ([(1, ⟨1, ⟨0, 4, lit "\x0bPERSON"⟩⟩)], none) ∧
      StringSet.get [lit "PERSON"] (lit "\x0bPERSON") = false := by
  decide

/-- C5 as amended: every entity stored in the map `GenNumberEntityMap` returns
has a type name whose form trimmed of white space is a member of the
whitelist. -/
theorem C5_stored_type_trimmed_in_whitelist (entFromConf : StringSet) (aData : GoString) :
    ∀ e ∈ (GenNumberEntityMap entFromConf aData).1,
      entFromConf.get (TrimSpace e.2.Entity.Name) = true :=
  GenNumberEntityMap.loop_trimmed entFromConf (scanLines aData) [] (by intro e he; simp at he)

/-- Witness of C5 as amended: the stored name, a vertical tab followed by
`PERSON`, trims to a member of the whitelist. -/
theorem C5_stored_type_trimmed_in_whitelist_witness :
    StringSet.get [lit "PERSON"] (TrimSpace (lit "\x0bPERSON")) = true :=
  C5_stored_type_trimmed_in_whitelist [lit "PERSON"] (lit "T1\t\x0bPERSON 0 4\tJohn")
    (1, ⟨1, ⟨0, 4, lit "\x0bPERSON"⟩⟩) (by decide)

/-- C6 as stated fails: `GenNumberRelationArr` reads the source with a scanner
that stops at the first line of 65536 bytes or more.  The source here is a line
of 65536 letters `x` and then the line `R1\tworks_for Arg1:T1 Arg2:T2`, which
begins with `R` and matches the pattern; the list returned is empty. -/
theorem C6_counterexample :
    lit "R1\tworks_for Arg1:T1 Arg2:T2" ∈
        sourceLines (List.replicate 65536 120 ++ 10 :: lit "R1\tworks_for Arg1:T1 Arg2:T2") ∧
      HasPrefix (lit "R1\tworks_for Arg1:T1 Arg2:T2") (lit "R") = true ∧
      MatchesRelationPattern (lit "R1\tworks_for Arg1:T1 Arg2:T2") ∧
      GenNumberRelationArr [] []
        (List.replicate 65536 120 ++ 10 :: lit "R1\tworks_for Arg1:T1 Arg2:T2") = ([], none) := by
  refine ⟨?_, by decide, ?_, ?_⟩
  · rw [sourceLines_cons _ _ (replicate_no_newline _)]
    exact List.mem_cons_of_mem _ (by decide)
  · refine ⟨[], lit "1", lit "\t", lit "works_for", lit "1", lit "2", [], ?_⟩
    unfold RelationMatch
    decide
  · unfold GenNumberRelationArr
    rw [scanLines_long _ _ (Nat.le_refl _)]
    rfl

/-- C6 as amended: `GenNumberRelationArr` returns no error, and its list is, in
the order of the lines of the source that come before its first line of 65536
bytes or more, one relation for each of those lines that begins with `R` and
holds a match of the pattern `R<digits> <name> Arg1:T<digits> Arg2:T<digits>`,
every other line giving nothing.  The relation of a line takes its id, name and
argument ids from the leftmost match, with the last run of digits taken whole;
a number too large for an `int` is stored as the largest `int`. -/
theorem C6_relations_in_line_order (relFromConf : StringSet) (m : EntityMap) (aData : GoString) :
    (GenNumberRelationArr relFromConf m aData).2 = none ∧
      (GenNumberRelationArr relFromConf m aData).1 =
        (deliveredLines aData).filterMap (lineRelation m) ∧
      ∀ line : GoString,
        ((lineRelation m line).isSome = true ↔
          (HasPrefix line (lit "R") = true ∧ MatchesRelationPattern line)) ∧
        ∀ r, lineRelation m line = some r →
          ∃ pre d1 ws name d2 d3 post, RelationMatch line pre d1 ws name d2 d3 post ∧
            (∀ b, post.head? = some b → isDigit b = false) ∧
            (∀ pre2 e1 ws2 n2 e2 e3 post2, RelationMatch line pre2 e1 ws2 n2 e2 e3 post2 →
              pre.length ≤ pre2.length) ∧
            r.TxtAnnNo = digitsInt d1 ∧ r.Entity.Name = name ∧
            r.Entity.HeadAnnNo = digitsInt d2 ∧ r.Entity.TailAnnNo = digitsInt d3 := by
  refine ⟨rfl, ?_, ?_⟩
  · unfold GenNumberRelationArr
    simp only
    rw [GenNumberRelationArr.loop_eq, scanLines_eq_deliveredLines]
    simp
  · intro line
    constructor
    · rw [← relationRegex.find_isSome_iff]
      unfold lineRelation
      by_cases hp : HasPrefix line (lit "R") = true
      · cases hf : relationRegex.find line with
        | none => simp [hp]
        | some g => obtain ⟨g1, g2, g3, g4⟩ := g; simp [hp]
      · simp [hp]
    · intro r hr
      unfold lineRelation at hr
      by_cases hp : HasPrefix line (lit "R") = true
      · cases hf : relationRegex.find line with
        | none => simp [hp, hf] at hr
        | some g =>
          obtain ⟨g1, g2, g3, g4⟩ := g
          simp only [hp, hf, if_true, Option.some.injEq] at hr
          obtain ⟨pre, s, hs, hms, hleft⟩ := relationRegex.find_some line _ hf
          obtain ⟨ws, post, ⟨hm, h1, h2, h3, h4, h5⟩, hpost⟩ :=
            relationRegex.matchAt_sound s g1 g2 g3 g4 hms
          refine ⟨pre, g1, ws, g2, g3, g4, post, ⟨?_, h1, h2, h3, h4, h5⟩, hpost, ?_, ?_⟩
          · rw [hs, hm]; simp
          · intro pre2 e1 ws2 n2 e2 e3 post2 hm2
            obtain ⟨hl2, k1, k2, k3, k4, k5⟩ := hm2
            by_contra hlt
            have := hleft pre2 _ hl2 (by omega)
            rw [relationRegex.matchAt_complete e1 ws2 n2 e2 e3 post2 k1 k2 k3 k4 k5] at this
            simp at this
          · rw [← hr]
            exact ⟨Atoi_digits g1 h1, rfl, Atoi_digits g3 h4, Atoi_digits g4 h5⟩
      · simp [hp] at hr

/-- C7 as stated fails: with an empty relation whitelist the relation
`works_for` is returned all the same. -/
theorem C7_counterexample :
    (GenNumberRelationArr [] [] (lit "R1\tworks_for Arg1:T1 Arg2:T2")).1 =
        [⟨1, ⟨1, 0, 0, 2, 0, 0, lit "works_for"⟩⟩] ∧
      StringSet.get [] (lit "works_for") = false := by
  decide

/-- C7 as amended: the result of `GenNumberRelationArr` is the same for every
relation whitelist, and every relation it returns has as name a run of word
characters, one at least, as the pattern of the line requires. -/
theorem C7_relations_ignore_whitelist (relFromConf relFromConf2 : StringSet) (m : EntityMap)
    (aData : GoString) :
    GenNumberRelationArr relFromConf m aData = GenNumberRelationArr relFromConf2 m aData ∧
      ∀ r ∈ (GenNumberRelationArr relFromConf m aData).1,
        r.Entity.Name ≠ [] ∧ ∀ b ∈ r.Entity.Name, isReWord b = true := by
  refine ⟨rfl, ?_⟩
  intro r hr
  rcases GenNumberRelationArr.loop_mem m _ [] r hr with h | ⟨text, _, g1, g2, g3, g4, _, hf, h⟩
  · simp at h
  · obtain ⟨pre, s, _, hms, _⟩ := relationRegex.find_some text _ hf
    obtain ⟨ws, post, ⟨_, _, _, h3, _, _⟩, _⟩ := relationRegex.matchAt_sound s g1 g2 g3 g4 hms
    rw [h]
    exact h3

/-- C8: on the two-byte text `é` (one code point) with the range `[0, 2)` the end
position exceeds the code-point length, yet `GetSubString` returns no error: the
guard compares with the byte length, and the result is `é` followed by U+FFFD. -/
theorem C8_GetSubString_end_beyond_code_points :
    RuneCountInString [0xC3, 0xA9] = 1 ∧
      GetSubString [0xC3, 0xA9] 0 2 = .ok [0xC3, 0xA9, 0xEF, 0xBF, 0xBD] := by
  refine ⟨by decide, ?_⟩
  simp [GetSubString, GetSubString.loop, DecodeRuneInString, runeToString, RuneError]

/-- C9 as stated fails on the text `a, CR, b` with the range `[0, 2)`: one
carriage return is skipped inside the range, and the result `ab` has code-point
length 2, not 2 - 1. -/
theorem C9_counterexample :
    (2 : Int) ≤ RuneCountInString (lit "a\rb") ∧
      GetSubString (lit "a\rb") 0 2 = .ok (lit "ab") ∧
      skippedCR (lit "a\rb") 0 2 = 1 ∧
      (RuneCountInString (lit "ab") : Int) ≠ 2 - 0 - (skippedCR (lit "a\rb") 0 2 : Int) := by
  refine ⟨by decide, ?_, by decide, by decide⟩
  simp [GetSubString, GetSubString.loop, DecodeRuneInString, runeToString, RuneError, lit]

/-- C9 as amended: for `0 ≤ startPos ≤ endPos ≤ n`, with `n` the number of code
points of the text that are not carriage returns, the string `GetSubString`
returns has code-point length exactly `endPos - startPos`; skipped carriage
returns take up no position. -/
theorem C9_GetSubString_length (s : GoString) (startPos endPos : Int) (h0 : 0 ≤ startPos)
    (h1 : startPos ≤ endPos) (h2 : endPos ≤ ((logicalRunes s).length : Int)) :
    ∃ v, GetSubString s startPos endPos = .ok v ∧
      (RuneCountInString v : Int) = endPos - startPos := by
  refine ⟨_, GetSubString_logical s startPos endPos h0 h1 h2, ?_⟩
  unfold RuneCountInString
  rw [decodeRunes_utf8Encode]
  · simp only [List.length_drop, List.length_take]
    omega
  · intro c hc
    have hc1 := List.mem_of_mem_take (List.mem_of_mem_drop hc)
    unfold logicalRunes at hc1
    exact decodeRunes_valid s c (List.mem_of_mem_filter hc1)

/-- Witness of C9 on the text `a, CR, b` with the range `[0, 2)`. -/
theorem C9_GetSubString_length_witness :
    ∃ v, GetSubString (lit "a\rb") 0 2 = .ok v ∧ (RuneCountInString v : Int) = 2 - 0 :=
  C9_GetSubString_length (lit "a\rb") 0 2 (by decide) (by decide) (by decide)

/-- C10 as stated fails: a line beginning with `T` whose second field contains
a semicolon gives the tab-format error when it has two fields only, an earlier
malformed record gives its own error first, and after a line of 65536 bytes or
more the scanner has stopped, so the record is not read and no error is
returned. -/
theorem C10_counterexample :
    GenNumberEntityMap [lit "PERSON"] (lit "T1\tPERSON 0 1;3 4") =
        ([], some .ErrBadFormatTab) ∧
      GenNumberEntityMap [lit "PERSON"] (lit "T1\tPERSON 0\tx\nT2\tPERSON 0 1;3 4\ty") =
        ([], some .ErrBadFormat) ∧
      lit "T1\tA 0 1;2 3\ty" ∈
        sourceLines (List.replicate 65536 120 ++ 10 :: lit "T1\tA 0 1;2 3\ty") ∧
      GenNumberEntityMap [lit "PERSON"]
        (List.replicate 65536 120 ++ 10 :: lit "T1\tA 0 1;2 3\ty") = ([], none) := by
  refine ⟨by decide, by decide, ?_, ?_⟩
  · rw [sourceLines_cons _ _ (replicate_no_newline _)]
    exact List.mem_cons_of_mem _ (by decide)
  · unfold GenNumberEntityMap
    rw [scanLines_long _ _ (Nat.le_refl _)]
    rfl

/-- C10 as amended: when a line of the source begins with `T`, splits into
exactly three tab-separated fields and has a semicolon in the second, the line
and the lines before it are shorter than 65536 bytes, and the lines before it
are parsed without error, `GenNumberEntityMap` fails with the error for
discontinuous text-bound annotations and returns an empty map, whatever follows
the line. -/
theorem C10_semicolon_unsupported (entFromConf : StringSet) (aData : GoString)
    (before after : List GoString) (text : GoString)
    (hsrc : deliveredLines aData = before ++ text :: after)
    (hbefore : (GenNumberEntityMap.loop entFromConf before []).2 = none)
    (hT : HasPrefix text (lit "T") = true) (h3 : (Split text 9).length = 3)
    (hsemi : Contains ((Split text 9).getD 1 []) (lit ";") = true) :
    GenNumberEntityMap entFromConf aData = ([], some .ErrDiscontinuosTextboundAnnNotSupported) := by
  unfold GenNumberEntityMap
  rw [scanLines_eq_deliveredLines, hsrc,
    GenNumberEntityMap.loop_append entFromConf before _ [] hbefore]
  apply GenNumberEntityMap.loop_cons_err
  unfold GenNumberEntityMap.body
  simp only [hT, h3, hsemi, ↓reduceIte]

/-- Witness of C10: the second record has a discontinuous span; the whitelist
is empty. -/
theorem C10_semicolon_unsupported_witness :
    GenNumberEntityMap [] (lit "T1\tPERSON 0 4\tJohn\nT2\tORG 5 7;9 12\tab cd\nT3\tbad") =
      ([], some .ErrDiscontinuosTextboundAnnNotSupported) :=
  C10_semicolon_unsupported [] (lit "T1\tPERSON 0 4\tJohn\nT2\tORG 5 7;9 12\tab cd\nT3\tbad")
    [lit "T1\tPERSON 0 4\tJohn"] [lit "T3\tbad"] (lit "T2\tORG 5 7;9 12\tab cd")
    (by decide) (by decide) (by decide) (by decide) (by decide)

/-- C11 as stated fails: the scanner stops at the first line of 65536 bytes or
more.  The source here is a line of 65536 letters `x` and then the record
`T1\tPERSON 0\tx`, whose second field has two tokens; the record is not read and
`GenNumberEntityMap` returns an empty map and no error. -/
theorem C11_counterexample :
    lit "T1\tPERSON 0\tx" ∈
        sourceLines (List.replicate 65536 120 ++ 10 :: lit "T1\tPERSON 0\tx") ∧
      HasPrefix (lit "T1\tPERSON 0\tx") (lit "T") = true ∧
      (Split ((Split (lit "T1\tPERSON 0\tx") 9).getD 1 []) 32).length ≠ 3 ∧
      GenNumberEntityMap [lit "PERSON"]
        (List.replicate 65536 120 ++ 10 :: lit "T1\tPERSON 0\tx") = ([], none) := by
  refine ⟨?_, by decide, by decide, ?_⟩
  · rw [sourceLines_cons _ _ (replicate_no_newline _)]
    exact List.mem_cons_of_mem _ (by decide)
  · unfold GenNumberEntityMap
    rw [scanLines_long _ _ (Nat.le_refl _)]
    rfl

/-- C11 as amended: when the source holds, before its first line of 65536 bytes
or more, a line beginning with `T` that does not split into exactly three
tab-separated fields, or whose second field does not split into exactly three
space-separated tokens, `GenNumberEntityMap` returns an error, for every
whitelist. -/
theorem C11_malformed_record_error (entFromConf : StringSet) (aData text : GoString)
    (hmem : text ∈ deliveredLines aData) (hT : HasPrefix text (lit "T") = true)
    (hbad : (Split text 9).length ≠ 3 ∨ (Split ((Split text 9).getD 1 []) 32).length ≠ 3) :
    ∃ err, (GenNumberEntityMap entFromConf aData).2 = some err := by
  unfold GenNumberEntityMap
  rw [scanLines_eq_deliveredLines]
  exact GenNumberEntityMap.loop_error_of_mem entFromConf text
    (fun m => GenNumberEntityMap.body_bad_fields entFromConf text m hT hbad)
    (deliveredLines aData) hmem []

/-- Witness of C11: the second record has two space-separated tokens, and its
type is not in the whitelist. -/
theorem C11_malformed_record_error_witness :
    ∃ err, (GenNumberEntityMap [lit "PERSON"]
      (lit "T1\tPERSON 0 4\tJohn\nT2\tORG 14\tIBM")).2 = some err :=
  C11_malformed_record_error [lit "PERSON"] (lit "T1\tPERSON 0 4\tJohn\nT2\tORG 14\tIBM")
    (lit "T2\tORG 14\tIBM") (by decide) (by decide) (by decide)

/-- C12 as stated fails: a record whose type is not in the whitelist is skipped
before its numbers are read, so a missing number and tokens that are no
integers give no error; and a record after a line of 65536 bytes or more is not
read at all, so the end token `1x` of a whitelisted record gives no error
there. -/
theorem C12_counterexample :
    GenNumberEntityMap [lit "PERSON"] (lit "T\tORG x y\tfoo") = ([], none) ∧
      (Split (lit "T\tORG x y\tfoo") 9).length = 3 ∧
      (Split ((Split (lit "T\tORG x y\tfoo") 9).getD 1 []) 32).length = 3 ∧
      ((Split (lit "T\tORG x y\tfoo") 9).getD 0 []).length ≤ 1 ∧
      ¬ IsDecimalInteger ((Split ((Split (lit "T\tORG x y\tfoo") 9).getD 1 []) 32).getD 1 []) ∧
      lit "T2\tPERSON 14 1x\tIBM" ∈
        sourceLines (List.replicate 65536 120 ++ 10 :: lit "T2\tPERSON 14 1x\tIBM") ∧
      ¬ IsDecimalInteger
        ((Split ((Split (lit "T2\tPERSON 14 1x\tIBM") 9).getD 1 []) 32).getD 2 []) ∧
      GenNumberEntityMap [lit "PERSON"]
        (List.replicate 65536 120 ++ 10 :: lit "T2\tPERSON 14 1x\tIBM") = ([], none) := by
  refine ⟨by decide, by decide, by decide, by decide, by decide, ?_, by decide, ?_⟩
  · rw [sourceLines_cons _ _ (replicate_no_newline _)]
    exact List.mem_cons_of_mem _ (by decide)
  · unfold GenNumberEntityMap
    rw [scanLines_long _ _ (Nat.le_refl _)]
    rfl

/-- C12 as amended: when the source holds, before its first line of 65536 bytes
or more, a line beginning with `T`, with three tab-separated fields and three
space-separated tokens, whose type trimmed of white space is in the whitelist,
and whose number after the leading `T` is missing or whose begin or end token
is not a decimal integer, `GenNumberEntityMap` returns an error. -/
theorem C12_bad_number_error (entFromConf : StringSet) (aData text : GoString)
    (hmem : text ∈ deliveredLines aData) (hT : HasPrefix text (lit "T") = true)
    (h3 : (Split text 9).length = 3)
    (h33 : (Split ((Split text 9).getD 1 []) 32).length = 3)
    (hw : entFromConf.get (TrimSpace ((Split ((Split text 9).getD 1 []) 32).getD 0 [])) = true)
    (hbad : ((Split text 9).getD 0 []).length ≤ 1 ∨
      ¬ IsDecimalInteger ((Split ((Split text 9).getD 1 []) 32).getD 1 []) ∨
      ¬ IsDecimalInteger ((Split ((Split text 9).getD 1 []) 32).getD 2 [])) :
    ∃ err, (GenNumberEntityMap entFromConf aData).2 = some err := by
  unfold GenNumberEntityMap
  rw [scanLines_eq_deliveredLines]
  exact GenNumberEntityMap.loop_error_of_mem entFromConf text
    (fun m => GenNumberEntityMap.body_bad_numbers entFromConf text m hT h3 h33 hw hbad)
    (deliveredLines aData) hmem []

/-- Witness of C12 as amended: the end token of the second record is `1x`. -/
theorem C12_bad_number_error_witness :
    ∃ err, (GenNumberEntityMap [lit "PERSON"]
      (lit "T1\tPERSON 0 4\tJohn\nT2\tPERSON 14 1x\tIBM")).2 = some err :=
  C12_bad_number_error [lit "PERSON"] (lit "T1\tPERSON 0 4\tJohn\nT2\tPERSON 14 1x\tIBM")
    (lit "T2\tPERSON 14 1x\tIBM") (by decide) (by decide) (by decide) (by decide) (by decide)
    (by decide)

/-- C13 as stated fails: two different records of a whitelisted type with the
same annotation number give one entry in the map, the second replacing the
first; and a whitelisted record after a line of 65536 bytes or more is not read,
so the map is empty although the source has one such record. -/
theorem C13_counterexample :
    GenNumberEntityMap [lit "PERSON"] (lit "T1\tPERSON 0 4\tJohn\nT1\tPERSON 5 9\tMary") =
        ([(1, ⟨1, ⟨5, 9, lit "PERSON"⟩⟩)], none) ∧
      (((sourceLines (lit "T1\tPERSON 0 4\tJohn\nT1\tPERSON 5 9\tMary")).filter
        (statedWhitelistedRecord [lit "PERSON"])).toFinset.card = 2) ∧
      GenNumberEntityMap [lit "PERSON"]
        (List.replicate 65536 120 ++ 10 :: lit "T1\tPERSON 0 4\tJohn") = ([], none) ∧
      (((sourceLines (List.replicate 65536 120 ++ 10 :: lit "T1\tPERSON 0 4\tJohn")).filter
        (statedWhitelistedRecord [lit "PERSON"])).toFinset.card = 1) := by
  refine ⟨by decide, by decide, ?_, ?_⟩
  · unfold GenNumberEntityMap
    rw [scanLines_long _ _ (Nat.le_refl _)]
    rfl
  · have hT : lit "T" = [84] := by decide
    have hx : statedWhitelistedRecord [lit "PERSON"] (List.replicate 65536 120) = false := by
      unfold statedWhitelistedRecord
      rw [hT, HasPrefix_replicate 65536 84 (by decide)]
      rfl
    rw [sourceLines_cons _ _ (replicate_no_newline _), dropCR_replicate, List.filter_cons, hx]
    decide

/-- C13 as amended: when `GenNumberEntityMap` succeeds, the size of the map is
the number of distinct annotation numbers among the lines of the source that
come before its first line of 65536 bytes or more, begin with `T` and have a
type that, trimmed of white space, is in the whitelist. -/
theorem C13_map_size (entFromConf : StringSet) (aData : GoString) (m : EntityMap)
    (h : GenNumberEntityMap entFromConf aData = (m, none)) :
    m.length = (((deliveredLines aData).filter (whitelistedRecord entFromConf)).map
      recordNumber).toFinset.card := by
  have h2 : GenNumberEntityMap.loop entFromConf (deliveredLines aData) [] = (m, none) := by
    rw [← scanLines_eq_deliveredLines]
    exact h
  obtain ⟨hn, hmem⟩ := GenNumberEntityMap.loop_keys entFromConf (deliveredLines aData) [] m
    (by simp) h2
  have h1 : m.length = (m.map Prod.fst).toFinset.card := by
    rw [List.toFinset_card_of_nodup hn, List.length_map]
  rw [h1]
  congr 1
  ext x
  simp only [List.mem_toFinset]
  rw [hmem]
  simp

/-- Witness of C13 as amended: three records, two annotation numbers. -/
theorem C13_map_size_witness :
    ([(1, ⟨1, ⟨5, 9, lit "PERSON"⟩⟩), (2, ⟨2, ⟨1, 2, lit "PERSON"⟩⟩)] : EntityMap).length =
      (((deliveredLines
        (lit "T1\tPERSON 0 4\tJohn\nT2\tPERSON 1 2\tx\nT1\tPERSON 5 9\tMary")).filter
        (whitelistedRecord [lit "PERSON"])).map recordNumber).toFinset.card :=
  C13_map_size [lit "PERSON"] (lit "T1\tPERSON 0 4\tJohn\nT2\tPERSON 1 2\tx\nT1\tPERSON 5 9\tMary")
    _ (by decide)

/-- C14: when `GenerateAcharyaAndStandoff` succeeds, the Acharya record is a
body without any newline followed by one newline; the body is a text in which
every newline has been replaced by a backslash and the letter n, closed by
`]\x7d`. -/
theorem C14_record_one_line (tData : GoString) (visit : List NumberAcharyaEntity)
    (rels : List NumberCustomRelation) (article_id : GoString) (isTestFile : Bool)
    (acharya standoff : GoString)
    (h : GenerateAcharyaAndStandoff tData visit rels article_id isTestFile =
      .ok (acharya, standoff)) :
    ∃ body, acharya = body ++ [10] ∧ (∀ x ∈ body, x ≠ 10) ∧
      ∃ raw, body = ReplaceAllNewline raw ++ lit "]\x7d" := by
  obtain ⟨raw, hraw⟩ := GenerateAcharyaAndStandoff_newline _ _ _ _ _ _ _ h
  refine ⟨_, hraw, ?_, raw, rfl⟩
  intro x hx
  rcases List.mem_append.mp hx with hx | hx
  · exact ReplaceAllNewline_no_newline raw x hx
  · have : lit "]\x7d" = [93, 125] := by decide
    rw [this] at hx
    simp only [List.mem_cons, List.mem_singleton, List.mem_nil_iff, or_false] at hx
    omega

/-- Witness of C14 on the document of the scenario of C3. -/
theorem C14_record_one_line_witness :
    ∃ body, lit "\x7b\"id\":\"doc\",\"Data\":\"John works for IBM\",\"Entities\":[[0,4,\"PERSON\"]],\"Relations\":[\x7b\"head\":[0,4],\"tail\":[0,0],\"name\":\"works_for\"\x7d]\x7d\n" =
        body ++ [10] ∧ (∀ x ∈ body, x ≠ 10) ∧
      ∃ raw, body = ReplaceAllNewline raw ++ lit "]\x7d" :=
  C14_record_one_line scenarioText [⟨1, ⟨0, 4, lit "PERSON"⟩⟩]
    [⟨1, ⟨1, 0, 4, 2, 0, 0, lit "works_for"⟩⟩] (lit "doc") false _ _
    GenerateAcharyaAndStandoff_scenario

/-- C15 as stated fails.  When the substring holds a tab: the record
`T1 PERSON 0 3` on the text `a, tab, b` gives the line `T1\tPERSON 0 3\ta\tb`,
which has four tab-separated fields, so parsing it again gives the error
`ErrBadFormatTab` and no entity.  When the line has 65536 bytes or more: the
record `T1 PERSON 0 65536` on a text of 65536 letters `x` gives a line the
scanner does not deliver, so parsing it again gives an empty map. -/
theorem C15_counterexample :
    ((1 : Int), (⟨1, ⟨0, 3, lit "PERSON"⟩⟩ : NumberAcharyaEntity)) ∈
        (GenNumberEntityMap [lit "PERSON"] (lit "T1\tPERSON 0 3\tabc")).1 ∧
      GetSubString (lit "a\tb") 0 3 = .ok (lit "a\tb") ∧
      GenerateAcharyaAndStandoff (lit "a\tb") [⟨1, ⟨0, 3, lit "PERSON"⟩⟩] [] (lit "doc") false =
        .ok (lit "\x7b\"id\":\"doc\",\"Data\":\"a\\tb\",\"Entities\":[[0,3,\"PERSON\"]],\"Relations\":[]\x7d\n",
          lit "T1\tPERSON 0 3\ta\tb") ∧
      GenNumberEntityMap [lit "PERSON"] (lit "T1\tPERSON 0 3\ta\tb") =
        ([], some .ErrBadFormatTab) ∧
      ((1 : Int), (⟨1, ⟨0, 65536, lit "PERSON"⟩⟩ : NumberAcharyaEntity)) ∈
        (GenNumberEntityMap [lit "PERSON"] (lit "T1\tPERSON 0 65536\tx")).1 ∧
      GetSubString (List.replicate 65536 120) 0 65536 = .ok (List.replicate 65536 120) ∧
      GenNumberEntityMap [lit "PERSON"]
        (standoffLine ⟨1, ⟨0, 65536, lit "PERSON"⟩⟩ (List.replicate 65536 120)) = ([], none) := by
  have hsub : GetSubString (lit "a\tb") 0 3 = .ok (lit "a\tb") := by
    simp [GetSubString, GetSubString.loop, DecodeRuneInString, runeToString, RuneError, lit]
  refine ⟨by decide, hsub, ?_, by decide, by decide,
    GetSubString_replicate 65536 65536 (by decide), ?_⟩
  · unfold GenerateAcharyaAndStandoff
    simp only [GenerateAcharyaAndStandoff.entities, hsub]
    exact congrArg Except.ok (by decide)
  · unfold GenNumberEntityMap
    rw [scanLines_long_line _
      (standoffLine_no_newline _ _ (by decide) (replicate_no_newline _))
      (le_trans (le_of_eq (List.length_replicate _ _).symm) (standoffLine_length_ge _ _))]
    rfl

/-- C15 as amended: for every whitelist, every entity in a map returned by
`GenNumberEntityMap`, and every document text for which `GetSubString` on the
span of the entity succeeds with a substring that holds no tab and gives a
stand-off line shorter than 65536 bytes: whenever `GenerateAcharyaAndStandoff`
succeeds on that text and the entities of the map, in whatever order it visits
them, its stand-off text (with the final newline it removes put back) is the
lines of the entities visited before, the line
`T<id>\t<typeName> <begin> <end>\t<substring>` of this entity with its newline,
the lines of the entities visited after and the lines of the relations; and
`GenNumberEntityMap` with the same whitelist on that line returns a map whose
only entry is the same entity under its id; when the substring holds no newline
either, it returns that map without an error. -/
theorem C15_round_trip (entFromConf : StringSet) (aData : GoString)
    (e : Int × NumberAcharyaEntity) (he : e ∈ (GenNumberEntityMap entFromConf aData).1)
    (tData str : GoString)
    (hsub : GetSubString tData e.2.Entity.Begin e.2.Entity.End = .ok str)
    (htab : ∀ b ∈ str, b ≠ 9) (hlen : (standoffLine e.2 str).length < 65536) :
    (∀ (visit : List NumberAcharyaEntity) (rels : List NumberCustomRelation)
        (article_id : GoString) (isTestFile : Bool) (acharya standoff : GoString),
        visit.Perm ((GenNumberEntityMap entFromConf aData).1.map Prod.snd) →
        GenerateAcharyaAndStandoff tData visit rels article_id isTestFile =
          .ok (acharya, standoff) →
        ∃ pre post, visit = pre ++ e.2 :: post ∧
          standoff ++ lit "\n" = entityLines tData pre ++ (standoffLine e.2 str ++ lit "\n") ++
            entityLines tData post ++ relationLines rels) ∧
      (GenNumberEntityMap entFromConf (standoffLine e.2 str)).1 = [(e.2.TxtAnnNo, e.2)] ∧
      ((∀ b ∈ str, b ≠ 10) →
        (GenNumberEntityMap entFromConf (standoffLine e.2 str)).2 = none) := by
  refine ⟨?_, GenNumberEntityMap_standoffLine entFromConf e.2 str
    (GenNumberEntityMap_stored entFromConf aData e he) htab
    (GetSubString_no_cr tData _ _ str hsub) hlen⟩
  intro visit rels article_id isTestFile acharya standoff hperm hgen
  have hmem : e.2 ∈ visit := hperm.mem_iff.mpr (List.mem_map_of_mem _ he)
  obtain ⟨pre, post, hv⟩ := List.append_of_mem hmem
  subst hv
  exact ⟨pre, post, rfl,
    GenerateAcharyaAndStandoff_standoff tData pre post e.2 str rels article_id isTestFile
      acharya standoff hsub hgen⟩

/-- Witness of C15 as amended: the record `T2 PERSON 15 18` of a source with
two records, on the text `John works for IBM`, whose substring is `IBM`. -/
theorem C15_round_trip_witness :
    (∀ (visit : List NumberAcharyaEntity) (rels : List NumberCustomRelation)
        (article_id : GoString) (isTestFile : Bool) (acharya standoff : GoString),
        visit.Perm ((GenNumberEntityMap [lit "PERSON"]
          (lit "T1\tPERSON 0 4\tJohn\nT2\tPERSON 15 18\tIBM")).1.map Prod.snd) →
        GenerateAcharyaAndStandoff scenarioText visit rels article_id isTestFile =
          .ok (acharya, standoff) →
        ∃ pre post, visit = pre ++ (⟨2, ⟨15, 18, lit "PERSON"⟩⟩ : NumberAcharyaEntity) :: post ∧
          standoff ++ lit "\n" = entityLines scenarioText pre ++
            (standoffLine ⟨2, ⟨15, 18, lit "PERSON"⟩⟩ (lit "IBM") ++ lit "\n") ++
            entityLines scenarioText post ++ relationLines rels) ∧
      (GenNumberEntityMap [lit "PERSON"]
        (standoffLine ⟨2, ⟨15, 18, lit "PERSON"⟩⟩ (lit "IBM"))).1 =
          [(2, ⟨2, ⟨15, 18, lit "PERSON"⟩⟩)] ∧
      ((∀ b ∈ lit "IBM", b ≠ 10) →
        (GenNumberEntityMap [lit "PERSON"]
          (standoffLine ⟨2, ⟨15, 18, lit "PERSON"⟩⟩ (lit "IBM"))).2 = none) :=
  C15_round_trip [lit "PERSON"] (lit "T1\tPERSON 0 4\tJohn\nT2\tPERSON 15 18\tIBM")
    (2, ⟨2, ⟨15, 18, lit "PERSON"⟩⟩) (by decide) scenarioText (lit "IBM")
    GetSubString_scenario_IBM (by decide) (by decide)

/-- C16: for a list of documents that is not empty, taken in input order: when
every document gives a record, the document loop of `handleMain` gives the
records concatenated in input order with the final newline removed, which is
what is printed or written; when a document fails, all before it giving a
record, the result is the error of that document and nothing is printed or
written. -/
theorem C16_document_loop (w : World) (entities relations : StringSet)
    (annMult textMult : List GoString) (hne : annMult ≠ []) :
    (∀ records : List GoString,
        documentResults w entities relations annMult textMult = records.map Except.ok →
        ∃ body, records.flatten = body ++ [10] ∧
          handleMain.generate w entities relations annMult textMult = .ok body ∧
          handleMain.run w entities relations annMult textMult [] false = .ok (.printed body)) ∧
      (∀ (finished : List GoString) (err : Err) (rest : List (Except Err GoString)),
        documentResults w entities relations annMult textMult =
          finished.map Except.ok ++ Except.error err :: rest →
        handleMain.generate w entities relations annMult textMult = .error err ∧
          ∀ opFile overwrite,
            handleMain.run w entities relations annMult textMult opFile overwrite =
              .error err) := by
  constructor
  · intro records hrec
    have hloop := handleMain.loop_ok w entities relations textMult 0 annMult [] records hrec
    have hlen : records ≠ [] := by
      intro h
      have := congrArg List.length hrec
      simp only [documentResults, List.length_map, List.enum_length, h, List.length_nil] at this
      exact hne (List.length_eq_zero.mp this)
    have hnl : ∀ r ∈ records, ∃ body, r = body ++ [10] := by
      intro r hr
      have hmem : Except.ok r ∈ documentResults w entities relations annMult textMult := by
        rw [hrec]; exact List.mem_map_of_mem _ hr
      obtain ⟨p, _, hp⟩ := List.mem_map.mp hmem
      exact handleMain.document_newline _ _ _ _ _ _ _ hp
    obtain ⟨body, hbody⟩ := flatten_ends_newline records hlen hnl
    have hgen : handleMain.generate w entities relations annMult textMult = .ok body := by
      unfold handleMain.generate
      rw [hloop]
      have hc : lit "\n" = [10] := by decide
      simp only [List.nil_append, hbody, hc, TrimSuffix_append_singleton]
    refine ⟨body, hbody, hgen, ?_⟩
    unfold handleMain.run
    rw [hgen]
    simp
  · intro finished err rest hres
    have hloop := handleMain.loop_error w entities relations textMult 0 annMult [] finished err
      rest hres
    have hgen : handleMain.generate w entities relations annMult textMult = .error err := by
      unfold handleMain.generate
      rw [hloop]
    refine ⟨hgen, fun opFile overwrite => ?_⟩
    unfold handleMain.run
    rw [hgen]

/-- Witness of C16: the document of the scenario of C3 taken twice; the two
records are printed one after the other, the final newline removed. -/
theorem C16_document_loop_witness :
    ∃ body,
      ([acharyaRecord scenarioText [⟨1, ⟨0, 4, lit "PERSON"⟩⟩]
          [⟨1, ⟨1, 0, 4, 2, 0, 0, lit "works_for"⟩⟩] (lit "d") false,
        acharyaRecord scenarioText [⟨1, ⟨0, 4, lit "PERSON"⟩⟩]
          [⟨1, ⟨1, 0, 4, 2, 0, 0, lit "works_for"⟩⟩] (lit "d") false] :
          List GoString).flatten = body ++ [10] ∧
        handleMain.generate scenarioWorld [lit "PERSON"] [] [lit "d.ann", lit "d.ann"]
          [lit "d.txt", lit "d.txt"] = .ok body ∧
        handleMain.run scenarioWorld [lit "PERSON"] [] [lit "d.ann", lit "d.ann"]
          [lit "d.txt", lit "d.txt"] [] false = .ok (.printed body) :=
  (C16_document_loop scenarioWorld [lit "PERSON"] [] [lit "d.ann", lit "d.ann"]
    [lit "d.txt", lit "d.txt"] (by decide)).1 _
    (by
      simp only [documentResults, List.enum, List.enumFrom, List.map_cons, List.map_nil]
      rw [show ([lit "d.txt", lit "d.txt"] : List GoString).get? 0 = some (lit "d.txt") from rfl,
        show ([lit "d.txt", lit "d.txt"] : List GoString).get? (0 + 1) = some (lit "d.txt") from
          rfl,
        handleMain.document_scenario, handleMain.document_scenario])

/-- C17 as stated fails: a second line holding `[entities]` begins with `[` but
does not end the section; the scan skips it and reads on, so `B` is returned
too.  And after a line of 65536 bytes or more the scanner has stopped: with such
a line before the section, nothing is returned although `PERSON` lies in the
section. -/
theorem C17_counterexample :
    GetEntitiesFromFile (lit "[entities]\nA\n[entities]\nB") = [lit "A", lit "B"] ∧
      statedEntities (sourceLines (lit "[entities]\nA\n[entities]\nB")) = [lit "A"] ∧
      GetEntitiesFromFile (List.replicate 65536 120 ++ 10 :: lit "[entities]\nPERSON") = [] ∧
      statedEntities
        (sourceLines (List.replicate 65536 120 ++ 10 :: lit "[entities]\nPERSON")) =
          [lit "PERSON"] := by
  refine ⟨by decide, by decide, ?_, ?_⟩
  · unfold GetEntitiesFromFile
    rw [scanLines_long _ _ (Nat.le_refl _)]
    rfl
  · have hm : isEntitiesMarker (List.replicate 65536 120) = false := by
      unfold isEntitiesMarker
      have hl : lit "[entities]" = 91 :: lit "entities]" := by decide
      rw [hl]
      apply Contains_eq_false
      intro h
      have := List.eq_of_mem_replicate h
      omega
    rw [sourceLines_cons _ _ (replicate_no_newline _), dropCR_replicate]
    unfold statedEntities statedSection
    rw [List.dropWhile_cons]
    simp only [hm, Bool.not_false, if_true]
    decide

/-- C17 as amended: `GetEntitiesFromFile` returns exactly the set of the lines,
trimmed of white space, that come before the first line of 65536 bytes or more
of the configuration and lie after the first line holding `[entities]` and
before the next line that begins with `[` and does not hold `[entities]`,
leaving out the lines that hold `[entities]`, the blank lines and the lines
that begin with `#`; every name is held once. -/
theorem C17_entity_names (confFile : GoString) :
    (∀ x, x ∈ GetEntitiesFromFile confFile ↔ x ∈ entityNames (deliveredLines confFile)) ∧
      (GetEntitiesFromFile confFile).Nodup := by
  refine ⟨fun x => ?_, GetEntitiesFromFile.loop_nodup _ _ _ List.nodup_nil⟩
  unfold GetEntitiesFromFile
  rw [GetEntitiesFromFile.loop_not_started, scanLines_eq_deliveredLines]
  simp

/-- C18 as stated fails: in this configuration nothing lies between the first
line holding `[entities]` and the next line beginning with `[`, yet the scan
reads on past the second `[entities]` line and returns `PERSON`; `handleMain`
goes on to open the annotation file. -/
theorem C18_counterexample :
    statedSection (scanLines (lit "[entities]\n[entities]\nPERSON")) = [] ∧
      GetEntitiesFromFile (lit "[entities]\n[entities]\nPERSON") = [lit "PERSON"] ∧
      handleMain (confOnlyWorld (lit "[entities]\n[entities]\nPERSON")) [] (lit "a.ann")
        (lit "a.txt") (lit "c") [] false = .error (.ErrOpen (lit "a.ann")) := by
  refine ⟨by decide, by decide, ?_⟩
  rfl

/-- C18 as amended: when the `[entities]` section of the configuration, read up
to the next line that begins with `[` and does not hold `[entities]`, holds
only blank lines, lines that begin with `#` and lines that hold `[entities]`,
`GetEntitiesFromFile` returns the empty set, and `handleMain`, once it has
found the configuration file, returns the no-entities error whatever the
annotation and text files are. -/
theorem C18_empty_section_error (w : World) (fPath annFiles txtFiles conf opFile : GoString)
    (overwrite : Bool) (confFile : GoString)
    (hwalk : fPath ≠ [] → ∃ r, w.subDirectories fPath = .ok r)
    (hconf : w.readFile (if fPath ≠ [] then fPath ++ lit "/annotation.conf" else conf) =
      some confFile)
    (hempty : ∀ l ∈ entitySection (scanLines confFile),
      isEntitiesMarker l = true ∨ isBlankLine l = true ∨ HasPrefix l (lit "#") = true) :
    GetEntitiesFromFile confFile = [] ∧
      handleMain w fPath annFiles txtFiles conf opFile overwrite = .error .ErrNoEntities := by
  have hnames : entityNames (scanLines confFile) = [] := by
    unfold entityNames
    rw [List.map_eq_nil_iff, List.filter_eq_nil_iff]
    intro l hl
    rcases hempty l hl with h | h | h <;> simp [h]
  have hent : GetEntitiesFromFile confFile = [] := by
    apply List.eq_nil_iff_forall_not_mem.mpr
    intro x hx
    unfold GetEntitiesFromFile at hx
    rw [GetEntitiesFromFile.loop_not_started, hnames] at hx
    simp at hx
  refine ⟨hent, ?_⟩
  unfold handleMain
  by_cases hf : fPath = []
  · subst hf
    simp only [ne_eq, not_true_eq_false, if_false] at hconf ⊢
    rw [hconf]
    simp [hent]
  · obtain ⟨r, hr⟩ := hwalk hf
    obtain ⟨a, b⟩ := r
    simp only [ne_eq, hf, not_false_eq_true, if_true] at hconf ⊢
    rw [hr]
    simp only
    rw [hconf]
    simp [hent]

/-- Witness of C18 as amended: a section with a comment and a blank line. -/
theorem C18_empty_section_error_witness :
    GetEntitiesFromFile (lit "[entities]\n# none\n\n[relations]\nworks_for Arg1:A Arg2:B") = [] ∧
      handleMain (confOnlyWorld (lit "[entities]\n# none\n\n[relations]\nworks_for Arg1:A Arg2:B"))
        [] (lit "a.ann") (lit "a.txt") (lit "c") [] false = .error .ErrNoEntities :=
  C18_empty_section_error
    (confOnlyWorld (lit "[entities]\n# none\n\n[relations]\nworks_for Arg1:A Arg2:B"))
    [] (lit "a.ann") (lit "a.txt") (lit "c") [] false
    (lit "[entities]\n# none\n\n[relations]\nworks_for Arg1:A Arg2:B")
    (by intro h; exact absurd rfl h) (by decide) (by decide)

/-- C19: `GetSubString` returns an error exactly when `startPos < 0`, or
`endPos < startPos`, or `endPos` is greater than the byte length of the text;
on every other input its scan loop ends (the function is total) and it returns
a string without error. -/
theorem C19_GetSubString_error_iff (originalString : GoString) (startPos endPos : Int) :
    ((∃ err, GetSubString originalString startPos endPos = .error err) ↔
        (startPos < 0 ∨ endPos < startPos ∨ endPos > originalString.length)) ∧
      (¬ (startPos < 0 ∨ endPos < startPos ∨ endPos > originalString.length) →
        ∃ val, GetSubString originalString startPos endPos = .ok val) :=
  ⟨GetSubString_error_iff originalString startPos endPos, fun h => by
    cases hg : GetSubString originalString startPos endPos with
    | ok val => exact ⟨val, rfl⟩
    | error err => exact absurd ((GetSubString_error_iff _ _ _).mp ⟨err, hg⟩) h⟩

/-- C20: `GenerateAcharyaAndStandoff` returns an error exactly when some entity
of the map has `Begin < 0`, or `End < Begin`, or `End` greater than the byte
length of the text; whether it does is the same for every relation list, whose
spans are never checked. -/
theorem C20_formatter_error_iff (tData : GoString) (numberAcharyaEnt : EntityMap)
    (visit : List NumberAcharyaEntity) (hvisit : visit.Perm (numberAcharyaEnt.map Prod.snd))
    (rels : List NumberCustomRelation) (article_id : GoString) (isTestFile : Bool) :
    ((∃ err, GenerateAcharyaAndStandoff tData visit rels article_id isTestFile = .error err) ↔
        ∃ e ∈ numberAcharyaEnt, e.2.Entity.Begin < 0 ∨ e.2.Entity.End < e.2.Entity.Begin ∨
          e.2.Entity.End > tData.length) ∧
      ∀ rels2 : List NumberCustomRelation,
        ((∃ err, GenerateAcharyaAndStandoff tData visit rels2 article_id isTestFile =
            .error err) ↔
          (∃ err, GenerateAcharyaAndStandoff tData visit rels article_id isTestFile =
            .error err)) := by
  refine ⟨?_, ?_⟩
  · rw [GenerateAcharyaAndStandoff_error_iff]
    constructor
    · rintro ⟨v, hv, herr⟩
      have hv2 := hvisit.mem_iff.mp hv
      obtain ⟨e, he, rfl⟩ := List.mem_map.mp hv2
      exact ⟨e, he, (GetSubString_error_iff _ _ _).mp herr⟩
    · rintro ⟨e, he, hbad⟩
      exact ⟨e.2, hvisit.mem_iff.mpr (List.mem_map.mpr ⟨e, he, rfl⟩),
        (GetSubString_error_iff _ _ _).mpr hbad⟩
  · intro rels2
    rw [GenerateAcharyaAndStandoff_error_iff, GenerateAcharyaAndStandoff_error_iff]

/-- Witness of C20: the entity `[0, 4)` on the text of the scenario of C3, with
a relation whose spans lie outside the text. -/
theorem C20_formatter_error_iff_witness :
    ((∃ err, GenerateAcharyaAndStandoff scenarioText [⟨1, ⟨0, 4, lit "PERSON"⟩⟩]
          [⟨1, ⟨1, -5, 400, 2, 7, 3, lit "r"⟩⟩] (lit "doc") false = .error err) ↔
        ∃ e ∈ ([(1, ⟨1, ⟨0, 4, lit "PERSON"⟩⟩)] : EntityMap),
          e.2.Entity.Begin < 0 ∨ e.2.Entity.End < e.2.Entity.Begin ∨
            e.2.Entity.End > scenarioText.length) ∧
      ∀ rels2 : List NumberCustomRelation,
        ((∃ err, GenerateAcharyaAndStandoff scenarioText [⟨1, ⟨0, 4, lit "PERSON"⟩⟩] rels2
            (lit "doc") false = .error err) ↔
          (∃ err, GenerateAcharyaAndStandoff scenarioText [⟨1, ⟨0, 4, lit "PERSON"⟩⟩]
            [⟨1, ⟨1, -5, 400, 2, 7, 3, lit "r"⟩⟩] (lit "doc") false = .error err)) :=
  C20_formatter_error_iff scenarioText [(1, ⟨1, ⟨0, 4, lit "PERSON"⟩⟩)]
    [⟨1, ⟨0, 4, lit "PERSON"⟩⟩] (List.Perm.refl _) [⟨1, ⟨1, -5, 400, 2, 7, 3, lit "r"⟩⟩]
    (lit "doc") false

end Brat
